import Mathlib

/-!
# MacroRail: the motion / shooting state machine of `src/main.cpp`

A shallow embedding of the class `MacroRail` (lines 50-536 of `src/main.cpp`) and of the
two globals `startPosition`, `returnToStartEnabled` it reads.

Modelling conventions
* `float` and `double` values are IEEE-754 binary32 and binary64 values (`Fp`): a finite
  number, an infinity or NaN; the two signed zeros are one value, which no operation of the
  rail tells apart.  Every arithmetic operation rounds its exact result to nearest, ties to
  even, in the format C++ gives the expression: `float (*) float` is a `float`, an operand
  of type `double` makes the operation a `double` one, an integer operand is converted to
  the type of the other operand.  Comparisons with NaN are false.
* `long` is 32 bits wide on the target.  A floating value converts to `long` by truncation
  toward zero (`toLong`).  C++ leaves the conversion of NaN and of values outside the range
  of `long` undefined; the model takes what the conversion instruction of the target (ESP32)
  returns, the nearest end of the range, and `2^31 - 1` for NaN.
* A literal with an exact binary value (`0`, `1`, `2.0`, `97.0`, `100.0`, `10000`) is written
  as that finite value; `0.3` and `0.7` are rounded to `double` and then to `float`.
* `unsigned long` is 32 bits wide on the target: clock readings are reduced modulo `2^32`
  and differences of clock readings are taken modulo `2^32` (`usub`).  An `int` compared
  with an `unsigned long` is converted modulo `2^32` (`toULong`).
* `int` counters are unbounded integers.
* Function-local `static` variables (`check_endstop`, `handle_shooting`) and the two globals
  are fields of the state.  The statics of `update` only feed `Serial.printf` and are left out,
  as is all serial output.
* Hardware inputs of one call of `update` are gathered in `TickIn`.
* `AccelStepper` is a third-party library.  The model keeps the two position registers the
  rail code reads and the two profile values it writes.  What the library derives from its
  internal speed ramp is an input: whether `run()` emits a step in this call, and by how
  much `stop()` moves the target.  A step always goes one unit toward the target and no step
  is taken at the target.
* Writes to the two camera trigger pins and motion commands are also appended to `log`, so
  that the sequence of outputs of a run can be stated.
-/

namespace Rail

/-! ## Floating-point arithmetic -/

/-- A value of type `float` or `double`: a finite number, an infinity or NaN. -/
inductive Fp where
  | finite (q : ℚ)
  | inf (negative : Bool)
  | nan
  deriving DecidableEq, Repr

/-- A binary floating-point format: `prec` significand bits, normal exponents from `emin`
to `emax`. -/
structure Format where
  prec : Nat
  emin : Int
  emax : Int

/-- The type `float`. -/
def binary32 : Format := { prec := 24, emin := -126, emax := 127 }

/-- The type `double`. -/
def binary64 : Format := { prec := 53, emin := -1022, emax := 1023 }

/-- Number of binary digits of `n`; `fuel` bounds the recursion and `n` itself suffices. -/
def bitLength : Nat → Nat → Nat
  | 0, _ => 0
  | fuel + 1, n => if n = 0 then 0 else bitLength fuel (n / 2) + 1

/-- The binary exponent of a non-zero rational: the `e` with `2^e <= |q| < 2^(e+1)`.  The
difference of the digit counts of numerator and denominator is `e` or `e + 1`. -/
def ilog2 (q : ℚ) : Int :=
  if (2 : ℚ) ^ ((bitLength q.num.natAbs q.num.natAbs : Int) - (bitLength q.den q.den : Int)) ≤ |q|
  then (bitLength q.num.natAbs q.num.natAbs : Int) - (bitLength q.den q.den : Int)
  else (bitLength q.num.natAbs q.num.natAbs : Int) - (bitLength q.den q.den : Int) - 1

/-- The nearest integer, a tie going to the even one. -/
def roundHalfEven (x : ℚ) : Int :=
  if x - ⌊x⌋ < 1 / 2 then ⌊x⌋
  else if 1 / 2 < x - ⌊x⌋ then ⌊x⌋ + 1
  else if ⌊x⌋ % 2 = 0 then ⌊x⌋ else ⌊x⌋ + 1

/-- The distance between neighbouring values of format `f` at the magnitude of `q`; below
the smallest normal number it is that of the subnormal numbers. -/
def ulp (f : Format) (q : ℚ) : ℚ := (2 : ℚ) ^ (max (ilog2 q) f.emin - ((f.prec : Int) - 1))

namespace Fp

/-- The value of format `f` nearest to `q`, ties to even; an infinity when the rounded
magnitude exceeds the largest finite value. -/
def round (f : Format) (q : ℚ) : Fp :=
  if q = 0 then finite 0
  else if (2 : ℚ) ^ (f.emax + 1) ≤ |(roundHalfEven (q / ulp f q) : ℚ) * ulp f q| then
    inf (decide (q < 0))
  else finite ((roundHalfEven (q / ulp f q) : ℚ) * ulp f q)

/-- A decimal literal of type `double` (also the result of `atof`). -/
def double (q : ℚ) : Fp := round binary64 q

/-- Conversion of a `double` to `float`. -/
def toFloat : Fp → Fp
  | finite q => round binary32 q
  | x => x

/-- Conversion of an integer to the floating type `f`. -/
def ofInt (f : Format) (n : Int) : Fp := round f n

/-- Unary minus. -/
def neg : Fp → Fp
  | finite q => finite (-q)
  | inf negative => inf (!negative)
  | nan => nan

/-- Addition in format `f`. -/
def add (f : Format) : Fp → Fp → Fp
  | finite a, finite b => round f (a + b)
  | finite _, inf n => inf n
  | inf n, finite _ => inf n
  | inf n, inf m => if n = m then inf n else nan
  | _, _ => nan

/-- Multiplication in format `f`. -/
def mul (f : Format) : Fp → Fp → Fp
  | finite a, finite b => round f (a * b)
  | finite a, inf n => if a = 0 then nan else inf (n != decide (a < 0))
  | inf n, finite b => if b = 0 then nan else inf (n != decide (b < 0))
  | inf n, inf m => inf (n != m)
  | _, _ => nan

/-- Division in format `f`.  With one zero value, a non-zero number divided by zero is given
the sign of the dividend; the rail only divides by `steps_per_mm()`, which is not zero. -/
def div (f : Format) : Fp → Fp → Fp
  | finite a, finite b =>
    if b = 0 then (if a = 0 then nan else inf (decide (a < 0))) else round f (a / b)
  | finite _, inf _ => finite 0
  | inf n, finite b => inf (n != decide (b < 0))
  | _, _ => nan

/-- The comparison `a < b`. -/
def lt : Fp → Fp → Bool
  | finite a, finite b => decide (a < b)
  | finite _, inf n => !n
  | inf n, finite _ => n
  | inf n, inf m => n && !m
  | _, _ => false

/-- The comparison `a <= b`. -/
def le : Fp → Fp → Bool
  | finite a, finite b => decide (a ≤ b)
  | finite _, inf n => !n
  | inf n, finite _ => n
  | inf n, inf m => n || !m
  | _, _ => false

end Fp

/-! ## Constants (lines 19-27) -/

def MICROSTEPS : Int := 16
def STEPS_PER_REVOLUTION : Int := 100
def SCREW_LEAD : Fp := Fp.finite 2
def GEAR_RATIO : Fp := Fp.div binary64 (Fp.finite 109) (Fp.finite 12)
def MAX_TRAVEL : Fp := Fp.finite 97
def DEFAULT_ACCEL : Fp := Fp.finite 100
def DEBOUNCE_DELAY : Nat := 50

/-- Number of values of a 32-bit `unsigned long`. -/
def ULONG_RANGE : Nat := 2 ^ 32

/-- The value `millis()` returns when the true elapsed time is `t` milliseconds. -/
def millis (t : Nat) : Nat := t % ULONG_RANGE

/-- Subtraction of two `unsigned long` values. -/
def usub (a b : Nat) : Nat := (a % ULONG_RANGE + ULONG_RANGE - b % ULONG_RANGE) % ULONG_RANGE

/-- Conversion of an `int` to `unsigned long`, as done by `unsigned > int` comparisons. -/
def toULong (d : Int) : Nat := (d % (ULONG_RANGE : Int)).toNat

/-- Conversion of a floating value to `long`: truncation toward zero.  Values beyond the
range of a 32-bit `long` give the nearest end of the range, NaN gives `2^31 - 1`. -/
def toLong : Fp → Int
  | Fp.finite q =>
    if (2 : ℚ) ^ 31 ≤ q then 2 ^ 31 - 1
    else if q ≤ -(2 : ℚ) ^ 31 then -(2 ^ 31)
    else if 0 ≤ q then ⌊q⌋ else ⌈q⌉
  | Fp.inf negative => if negative then -(2 ^ 31) else 2 ^ 31 - 1
  | Fp.nan => 2 ^ 31 - 1

/-- Arduino `constrain(amt, low, high)`:
`((amt)<(low)?(low):((amt)>(high)?(high):(amt)))`.  In the two uses the result, a `double`,
is stored in a `float`; it is a `float` value already (`amt`, `0` or `97.0`). -/
def constrain (amt low high : Fp) : Fp :=
  if Fp.lt amt low then low else if Fp.lt high amt then high else amt

/-- The function `steps_per_mm()` (lines 381-384): the expression is evaluated in `double`
and returned as `float`. -/
def steps_per_mm : Fp :=
  Fp.toFloat (Fp.div binary64
    (Fp.mul binary64 (Fp.ofInt binary64 (STEPS_PER_REVOLUTION * MICROSTEPS)) GEAR_RATIO)
    SCREW_LEAD)

/-! ## Data model -/

/-- The enumeration `MacroRail::State` (lines 53-62). -/
inductive State where
  | IDLE
  | HOMING
  | HOMING_COMPLETE
  | HOMING_RETRACT
  | MOVING
  | SHOOTING
  | ERROR
  deriving DecidableEq, Repr

/-- The structure `MacroRail::Settings` (lines 64-73). -/
structure Settings where
  step_size : Fp
  total_photos : Int
  max_speed : Fp
  focus_time : Int
  release_time : Int
  before_shoot_delay : Int
  after_shoot_delay : Int
  deriving DecidableEq, Repr

/-- Default member initialisers of `Settings` (`float step_size = 0.3`,
`float max_speed = 0.7`). -/
def Settings.default : Settings :=
  { step_size := Fp.toFloat (Fp.double (3 / 10)), total_photos := 3,
    max_speed := Fp.toFloat (Fp.double (7 / 10)), focus_time := 500,
    release_time := 200, before_shoot_delay := 100, after_shoot_delay := 100 }

/-- The part of an `AccelStepper` object the rail code observes or sets. -/
structure AccelStepper where
  /-- Register read by `currentPosition()`. -/
  currentPos : Int
  /-- Register read by `targetPosition()`. -/
  targetPos : Int
  /-- Value last passed to `setMaxSpeed`. -/
  maxSpeed : Fp
  /-- Value last passed to `setAcceleration`. -/
  acceleration : Fp
  deriving DecidableEq, Repr

namespace AccelStepper

def distanceToGo (st : AccelStepper) : Int := st.targetPos - st.currentPos

def moveTo (st : AccelStepper) (absolute : Int) : AccelStepper :=
  { st with targetPos := absolute }

def move (st : AccelStepper) (relative : Int) : AccelStepper :=
  st.moveTo (st.currentPos + relative)

def setCurrentPosition (st : AccelStepper) (position : Int) : AccelStepper :=
  { st with currentPos := position, targetPos := position }

def setMaxSpeed (st : AccelStepper) (speed : Fp) : AccelStepper :=
  { st with maxSpeed := speed }

def setAcceleration (st : AccelStepper) (a : Fp) : AccelStepper :=
  { st with acceleration := a }

/-- Library `stop()`: when the motor has speed the target becomes the current position
plus the signed stopping distance; `brake` is that distance, `0` when the motor is at rest. -/
def stop (st : AccelStepper) (brake : Int) : AccelStepper :=
  if brake = 0 then st else st.move brake

/-- Library `run()`: at most one step per call, taken when the step timer is due
(`due`) and the target is not reached, toward the target. -/
def run (st : AccelStepper) (due : Bool) : AccelStepper :=
  if due then
    if 0 < st.distanceToGo then { st with currentPos := st.currentPos + 1 }
    else if st.distanceToGo < 0 then { st with currentPos := st.currentPos - 1 }
    else st
  else st

end AccelStepper

/-- The statics of `check_endstop` (lines 162-163).  `initialized` is false until the first
call, which runs the initialiser of `last_endstop_state`. -/
structure Debounce where
  initialized : Bool
  last_endstop_change : Nat
  last_endstop_state : Bool
  deriving DecidableEq, Repr

/-- The statics before the first call of `check_endstop`. -/
def Debounce.init : Debounce :=
  { initialized := false, last_endstop_change := 0, last_endstop_state := false }

/-- An output action of the rail that is recorded in the log. -/
inductive Event where
  /-- A `digitalWrite(FOCUS_CONTROL_PIN, level)`, `true` for `HIGH`. -/
  | focus (level : Bool)
  /-- A `digitalWrite(SHUTTER_CONTROL_PIN, level)`, `true` for `HIGH`. -/
  | shutter (level : Bool)
  /-- A `stepper.moveTo(target)` (a `stepper.move` is recorded with its absolute target). -/
  | moveTo (target : Int)
  deriving DecidableEq, Repr

/-- The object `rail` together with the two globals and the output pins. -/
structure MacroRail where
  stepper : AccelStepper
  state : State
  settings : Settings
  current_pos : Fp
  photo_count : Int
  homing_retract_start : Nat
  homing_start_time : Nat
  homing_start_position : Int
  homing_endstop_triggered : Bool
  is_busy : Bool
  shooting_stage : Nat
  stage_start_time : Nat
  movement_start_time : Nat
  /-- Statics of `check_endstop`. -/
  endstop : Debounce
  /-- Static `motor_enabled` of `handle_shooting` (line 428). -/
  motor_enabled : Bool
  /-- Global `startPosition` (line 47). -/
  startPosition : Fp
  /-- Global `returnToStartEnabled` (line 48). -/
  returnToStartEnabled : Bool
  /-- ENABLE_PIN is at its active level (driver powered). -/
  enable_active : Bool
  /-- FOCUS_CONTROL_PIN is HIGH. -/
  focus_pin : Bool
  /-- SHUTTER_CONTROL_PIN is HIGH. -/
  shutter_pin : Bool
  /-- Trigger writes and motion commands issued so far, oldest first. -/
  log : List Event
  deriving DecidableEq, Repr

/-- Hardware inputs seen by one call of `update`. -/
structure TickIn where
  /-- True elapsed milliseconds when the call starts; `millis()` returns it modulo `2^32`. -/
  now : Nat
  /-- The endstop pin reads its active level: `digitalRead(ENDSTOP_PIN) == ENDSTOP_ACTIVE`. -/
  endstop : Bool
  /-- The stepper's step timer is due in this call of `run()`. -/
  step_due : Bool
  /-- Signed stopping distance the library uses if `stop()` is called in this tick. -/
  brake : Int
  /-- True elapsed milliseconds after the `delay(1000)` of line 213. -/
  settled : Nat
  deriving DecidableEq, Repr

/-! ## Operations -/

/-- The function `enable_motor` (lines 386-390). -/
def enable_motor (s : MacroRail) : MacroRail := { s with enable_active := true }

/-- The function `disable_motor` (lines 392-395). -/
def disable_motor (s : MacroRail) : MacroRail := { s with enable_active := false }

/-- The constructor (lines 138-158); members without initialiser are taken as `0`. -/
def MacroRail.new : MacroRail :=
  { stepper := { currentPos := 0, targetPos := 0,
                 maxSpeed := Fp.mul binary32 Settings.default.max_speed steps_per_mm,
                 acceleration := Fp.finite 10000 },
    state := State.IDLE, settings := Settings.default, current_pos := Fp.finite 0,
    photo_count := 0,
    homing_retract_start := 0, homing_start_time := 0, homing_start_position := 0,
    homing_endstop_triggered := false, is_busy := false, shooting_stage := 0,
    stage_start_time := 0, movement_start_time := 0, endstop := Debounce.init,
    motor_enabled := false, startPosition := Fp.finite 0,
    returnToStartEnabled := false,
    enable_active := false, focus_pin := false, shutter_pin := false, log := [] }

/-- The function `check_endstop` (lines 160-177) on its statics: `raw` is the pin reading
compared with ENDSTOP_ACTIVE, `now` the elapsed time. Returns the new statics and the result. -/
def check_endstop (d : Debounce) (raw : Bool) (now : Nat) : Debounce × Bool :=
  let d := if d.initialized then d
           else { d with initialized := true, last_endstop_state := raw }
  let current_time := millis now
  if raw ≠ d.last_endstop_state then
    if usub current_time d.last_endstop_change > DEBOUNCE_DELAY then
      ({ d with last_endstop_state := raw, last_endstop_change := current_time }, raw)
    else (d, d.last_endstop_state)
  else (d, d.last_endstop_state)

/-- The function `update_motor_settings` (lines 375-379). -/
def update_motor_settings (s : MacroRail) : MacroRail :=
  let st := s.stepper.setMaxSpeed (Fp.mul binary32 s.settings.max_speed steps_per_mm)
  let st := st.setAcceleration (Fp.toFloat (Fp.mul binary64 DEFAULT_ACCEL steps_per_mm))
  { s with stepper := st }

/-- The function `start_homing` (lines 281-301); `now` is the elapsed time of the call. -/
def start_homing (s : MacroRail) (now : Nat) : MacroRail :=
  if s.state = State.ERROR then s
  else
    let s := { s with is_busy := true }
    let s := enable_motor s
    let s := { s with state := State.HOMING, homing_endstop_triggered := false,
                      homing_start_time := millis now,
                      homing_start_position := s.stepper.currentPos }
    let st := s.stepper.setMaxSpeed (Fp.mul binary32 s.settings.max_speed steps_per_mm)
    let st := st.setAcceleration (Fp.finite 10000)
    let st := st.move (toLong (Fp.mul binary64 (Fp.neg MAX_TRAVEL) steps_per_mm))
    { s with stepper := st, log := s.log ++ [Event.moveTo st.targetPos] }

/-- The function `move_to` (lines 303-319). -/
def move_to (s : MacroRail) (position : Fp) : MacroRail :=
  if s.state ≠ State.IDLE ∧ s.state ≠ State.SHOOTING then s
  else
    let s := { s with is_busy := true }
    let position := constrain position (Fp.finite 0) MAX_TRAVEL
    let target_steps := toLong (Fp.mul binary32 position steps_per_mm)
    let s := enable_motor s
    { s with stepper := s.stepper.moveTo target_steps,
             log := s.log ++ [Event.moveTo target_steps],
             state := State.MOVING }

/-- The function `start_shooting` (lines 321-337). -/
def start_shooting (s : MacroRail) (new_settings : Settings) : MacroRail :=
  if s.state ≠ State.IDLE then s
  else
    let s := { s with is_busy := true, settings := new_settings, photo_count := 0,
                      shooting_stage := 0, state := State.SHOOTING }
    let s := enable_motor s
    update_motor_settings s

/-- The function `stop` (lines 339-346); `brake` is the input of the library's `stop()`. -/
def stop (s : MacroRail) (brake : Int) : MacroRail :=
  let s := { s with stepper := s.stepper.stop brake }
  let s := { s with state := State.IDLE }
  let s := disable_motor s
  { s with is_busy := false }

/-- The function `reset_emergency` (lines 348-355).  `endstop` is
`digitalRead(ENDSTOP_PIN) == ENDSTOP_ACTIVE`; the source tests the pin against `LOW`,
which is ENDSTOP_ACTIVE. -/
def reset_emergency (s : MacroRail) (endstop : Bool) : MacroRail :=
  if s.state = State.ERROR ∧ endstop = false then
    { s with state := State.IDLE, is_busy := false }
  else s

/-- The function `shooting_finished_callback` (lines 397-407). -/
def shooting_finished_callback (s : MacroRail) : MacroRail :=
  if s.returnToStartEnabled then
    let s := move_to s s.startPosition
    { s with returnToStartEnabled := false }
  else s

/-- The function `complete_homing` (lines 409-424). -/
def complete_homing (s : MacroRail) : MacroRail :=
  let st := s.stepper.setMaxSpeed (Fp.mul binary32 s.settings.max_speed steps_per_mm)
  let st := st.setAcceleration (Fp.toFloat (Fp.mul binary64 DEFAULT_ACCEL steps_per_mm))
  let retract_distance := toLong (Fp.mul binary32 (Fp.finite 1) steps_per_mm)
  let st := st.setCurrentPosition 0
  let st := st.moveTo retract_distance
  { s with stepper := st, log := s.log ++ [Event.moveTo retract_distance] }

/-- The function `handle_shooting` (lines 426-510). -/
def handle_shooting (s : MacroRail) (i : TickIn) : MacroRail :=
  if s.stepper.distanceToGo ≠ 0 then
    let s := if !s.motor_enabled then
        { enable_motor s with motor_enabled := true, movement_start_time := millis i.now }
      else s
    let s := { s with stepper := s.stepper.run i.step_due }
    { s with current_pos :=
        Fp.div binary32 (Fp.ofInt binary32 s.stepper.currentPos) steps_per_mm }
  else if s.motor_enabled then
    let s := disable_motor s
    { s with motor_enabled := false, stage_start_time := millis i.now, shooting_stage := 0 }
  else
    match s.shooting_stage with
    | 0 =>
      if usub (millis i.now) s.stage_start_time > toULong s.settings.before_shoot_delay then
        { s with focus_pin := true, log := s.log ++ [Event.focus true],
                 stage_start_time := millis i.now, shooting_stage := 1 }
      else s
    | 1 =>
      if usub (millis i.now) s.stage_start_time > toULong s.settings.focus_time then
        { s with shutter_pin := true, log := s.log ++ [Event.shutter true],
                 stage_start_time := millis i.now, shooting_stage := 2 }
      else s
    | 2 =>
      if usub (millis i.now) s.stage_start_time > toULong s.settings.release_time then
        { s with focus_pin := false, shutter_pin := false,
                 log := s.log ++ [Event.focus false, Event.shutter false],
                 photo_count := s.photo_count + 1,
                 stage_start_time := millis i.now, shooting_stage := 3 }
      else s
    | 3 =>
      if usub (millis i.now) s.stage_start_time > toULong s.settings.after_shoot_delay then
        if s.photo_count < s.settings.total_photos then
          let new_pos := Fp.add binary32 s.current_pos s.settings.step_size
          let new_pos := constrain new_pos (Fp.finite 0) MAX_TRAVEL
          let s := enable_motor s
          let target := toLong (Fp.mul binary32 new_pos steps_per_mm)
          let s := { s with stepper := s.stepper.moveTo target,
                            log := s.log ++ [Event.moveTo target] }
          let s := update_motor_settings s
          { s with shooting_stage := 0 }
        else
          let s := { s with state := State.IDLE }
          let s := disable_motor s
          let s := { s with is_busy := false }
          shooting_finished_callback s
      else s
    | _ => s

/-- The function `handle_error` (lines 516-519): empty body. -/
def handle_error (s : MacroRail) : MacroRail := s

/-- The function `handle_idle` (lines 521-525). -/
def handle_idle (s : MacroRail) : MacroRail := disable_motor s

/-- The function `emergency_stop` (lines 527-535). -/
def emergency_stop (s : MacroRail) (brake : Int) : MacroRail :=
  let s := { s with stepper := s.stepper.stop brake }
  let s := { s with enable_active := false }
  let s := { s with state := State.ERROR }
  disable_motor s

/-- The function `update` (lines 179-279). -/
def update (s : MacroRail) (i : TickIn) : MacroRail :=
  if s.state = State.HOMING then
    let r := check_endstop s.endstop i.endstop i.now
    let s := { s with endstop := r.1 }
    let s := if r.2 && !s.homing_endstop_triggered then
        let s := { s with homing_endstop_triggered := true }
        let s := disable_motor s
        let s := { s with state := State.HOMING_RETRACT,
                          homing_retract_start := millis i.settled }
        let s := enable_motor s
        complete_homing s
      else s
    { s with stepper := s.stepper.run i.step_due }
  else if s.state = State.HOMING_RETRACT then
    let s := if s.stepper.distanceToGo = 0 then
        let s := { s with stepper := s.stepper.setCurrentPosition 0,
                          current_pos := Fp.finite 0, state := State.IDLE }
        let s := disable_motor s
        { s with is_busy := false, homing_endstop_triggered := false }
      else if usub (millis i.now) s.homing_retract_start > 60000 then
        let s := { s with stepper := s.stepper.stop i.brake, state := State.ERROR }
        disable_motor s
      else s
    { s with stepper := s.stepper.run i.step_due }
  else if s.state = State.MOVING then
    if s.stepper.distanceToGo = 0 then
      let s := { s with state := State.IDLE }
      let s := disable_motor s
      { s with is_busy := false }
    else
      let s := { s with stepper := s.stepper.run i.step_due }
      { s with current_pos :=
          Fp.div binary32 (Fp.ofInt binary32 s.stepper.currentPos) steps_per_mm }
  else if s.state = State.SHOOTING then
    handle_shooting s i
  else if s.state = State.ERROR then
    handle_error s
  else if s.state = State.IDLE then
    let s := handle_idle s
    { s with is_busy := false }
  else
    let r := check_endstop s.endstop i.endstop i.now
    let s := { s with endstop := r.1 }
    let s := if r.2 then emergency_stop s i.brake else s
    { s with stepper := s.stepper.run i.step_due }

/-! ## Runs of the endstop filter -/

/-- The levels returned by successive calls of `check_endstop` on samples `(raw, time)`. -/
def debounceRun (d : Debounce) : List (Bool × Nat) → List Bool
  | [] => []
  | x :: rest => (check_endstop d x.1 x.2).2 :: debounceRun (check_endstop d x.1 x.2).1 rest

/-- The sample times at which the level returned by `check_endstop` differs from the level
it held before the call (the accepted transitions), in order. -/
def acceptedTimes (d : Debounce) : List (Bool × Nat) → List Nat
  | [] => []
  | x :: rest =>
    if d.initialized = true ∧ (check_endstop d x.1 x.2).2 ≠ d.last_endstop_state then
      x.2 :: acceptedTimes (check_endstop d x.1 x.2).1 rest
    else acceptedTimes (check_endstop d x.1 x.2).1 rest

/-- A noisy sample sequence: released at 0 ms, then toggling. -/
def noisySamples : List (Bool × Nat) :=
  [(false, 0), (true, 100), (false, 120), (false, 151), (true, 160), (true, 202)]

/-- A released endstop with one single-sample pulse at 100 ms. -/
def pulseSamples : List (Bool × Nat) :=
  [(false, 0), (false, 99), (true, 100), (false, 101)]

/-- Filter statics after some calls: level released, last change at 0 ms. -/
def releasedFilter : Debounce :=
  { initialized := true, last_endstop_change := 0, last_endstop_state := false }

/-! ## Runs of the state machine -/

/-- The rail after a list of calls of `update`, one per tick input. -/
def runTicks (s : MacroRail) : List TickIn → MacroRail
  | [] => s
  | i :: rest => runTicks (update s i) rest

/-- The states the rail is in before the first tick and after each tick. -/
def stateTrace (s : MacroRail) : List TickIn → List State
  | [] => [s.state]
  | i :: rest => s.state :: stateTrace (update s i) rest

/-- The levels `check_endstop` returns when it is called once in each tick of the list. -/
def endstopReads (d : Debounce) : List TickIn → List Bool
  | [] => []
  | i :: rest =>
    (check_endstop d i.endstop i.now).2 :: endstopReads (check_endstop d i.endstop i.now).1 rest

/-- Number of ticks of the list in which the stepper's step timer is due. -/
def dueCount (l : List TickIn) : Nat := l.countP (fun i => i.step_due)

/-- Length of the homing retract in steps: `(long)(1 * steps_per_mm())` (line 415). -/
def retract_distance : Int :=
  toLong (Fp.mul binary32 (Fp.finite 1) steps_per_mm)

/-- Homing ticks of the example run: the endstop is released at 10 ms. -/
def homingApproach : List TickIn :=
  [{ now := 10, endstop := false, step_due := true, brake := 0, settled := 10 }]

/-- The tick of the example run in which the endstop is pressed, at 100 ms. -/
def homingHit : TickIn :=
  { now := 100, endstop := true, step_due := true, brake := 0, settled := 1100 }

/-- A retract tick of the example run, 100 ms after the retract started. -/
def retractTick : TickIn :=
  { now := 1200, endstop := false, step_due := true, brake := 0, settled := 1200 }

/-! ## Shooting runs over an unbounded stream of ticks -/

/-- The rail after `n` calls of `update` that consume the inputs `ins k, ins (k+1), ...`. -/
def runFrom (ins : ℕ → TickIn) (k : ℕ) (s : MacroRail) : ℕ → MacroRail
  | 0 => s
  | n + 1 => update (runFrom ins k s n) (ins (k + n))

/-- The clock advances: from one tick to the next it does not go back and gains at most
`2^31` ms, and after every tick there is a later tick at which it is larger.  Any number of
consecutive ticks may share a millisecond. -/
def ClockAdvances (ins : ℕ → TickIn) : Prop :=
  (∀ k, (ins k).now ≤ (ins (k + 1)).now ∧ (ins (k + 1)).now ≤ (ins k).now + 2 ^ 31) ∧
    ∀ k, ∃ j, k < j ∧ (ins k).now < (ins j).now

/-- The stepper keeps stepping: after every tick there is a later tick with a step due. -/
def StepsKeepComing (ins : ℕ → TickIn) : Prop :=
  ∀ k, ∃ j, k ≤ j ∧ (ins j).step_due = true

/-- The four delays are non-negative values of a 32-bit `int`. -/
def Settings.delaysNonneg (st : Settings) : Prop :=
  (0 ≤ st.before_shoot_delay ∧ st.before_shoot_delay < 2 ^ 31) ∧
  (0 ≤ st.focus_time ∧ st.focus_time < 2 ^ 31) ∧
  (0 ≤ st.release_time ∧ st.release_time < 2 ^ 31) ∧
  (0 ≤ st.after_shoot_delay ∧ st.after_shoot_delay < 2 ^ 31)

/-- The event is a motion command. -/
def Event.isMove : Event → Bool
  | Event.moveTo _ => true
  | _ => false

/-- The trigger writes of one photo: focus on, shutter on, then both off. -/
def photoCycle : List Event :=
  [Event.focus true, Event.shutter true, Event.focus false, Event.shutter false]

/-- The step target commanded after a photo taken at cached position `cp` (lines 492-495). -/
def nextTarget (st : Settings) (cp : Fp) : Int :=
  toLong (Fp.mul binary32
    (constrain (Fp.add binary32 cp st.step_size) (Fp.finite 0) MAX_TRAVEL) steps_per_mm)

/-- The position in millimetres the rail derives from a step count,
`steps / steps_per_mm()`: the count is converted to `float` and divided in `float`
(lines 85, 255, 439). -/
def positionOf (steps : Int) : Fp :=
  Fp.div binary32 (Fp.ofInt binary32 steps) steps_per_mm

/-- The cached position once a move from step `x` to step `target` has completed: it is
refreshed from the step count only if the motor had to step. -/
def cachedAfterMove (cp : Fp) (x target : Int) : Fp :=
  if target = x then cp else positionOf target

/-- The outputs of a run that still has `n` photos to take, from cached position `cp` and
step position `x`: a trigger cycle per photo and a move command between two photos. -/
def shootingLog (st : Settings) : Nat → Fp → Int → List Event
  | 0, _, _ => []
  | n + 1, cp, x =>
    photoCycle ++
      (if n = 0 then []
       else Event.moveTo (nextTarget st cp) ::
         shootingLog st n (cachedAfterMove cp x (nextTarget st cp)) (nextTarget st cp))

/-- A rail in Shooting with settings `st`, no return-to-start request, `c` photos taken
and output log `L`. -/
def InRun (s : MacroRail) (st : Settings) (c : Int) (L : List Event) : Prop :=
  s.state = State.SHOOTING ∧ s.settings = st ∧ s.returnToStartEnabled = false ∧
    s.photo_count = c ∧ s.log = L

/-- A rail in a shooting run that stands at step `x` (no remaining distance, no pending
motion-complete handling) in stage `j`, with cached position `cp`. -/
def AtStage (s : MacroRail) (st : Settings) (c : Int) (L : List Event) (cp : Fp) (x : Int)
    (j : Nat) : Prop :=
  InRun s st c L ∧ s.current_pos = cp ∧ s.stepper.currentPos = x ∧ s.stepper.targetPos = x ∧
    s.motor_enabled = false ∧ s.shooting_stage = j

/-- A rail in a shooting run in stage 0 whose stepper is at `x` with target `target`. -/
def Travelling (s : MacroRail) (st : Settings) (c : Int) (L : List Event) (cp : Fp)
    (x target : Int) : Prop :=
  InRun s st c L ∧ s.current_pos = cp ∧ s.stepper.currentPos = x ∧
    s.stepper.targetPos = target ∧ s.shooting_stage = 0

/-- A finished run: Idle, motor off, not busy, `c` photos taken, output log `L`. -/
def Finished (s : MacroRail) (c : Int) (L : List Event) : Prop :=
  s.state = State.IDLE ∧ s.enable_active = false ∧ s.is_busy = false ∧
    s.photo_count = c ∧ s.log = L

/-- Some number of ticks from input index `k` on takes rail `s` to a rail satisfying `P`. -/
def Reaches (ins : ℕ → TickIn) (k : ℕ) (s : MacroRail) (P : MacroRail → Prop) : Prop :=
  ∃ n, P (runFrom ins k s n)

/-- Inputs of the example run: two ticks in every millisecond, each with a step due. -/
def everyTick : ℕ → TickIn :=
  fun k => { now := k / 2, endstop := false, step_due := true, brake := 0, settled := k / 2 }

/-- The arguments of a `/start` request as the handler converts them (`toInt()`,
`toFloat()`, comparison with "1"); `none` when the argument is absent. -/
structure StartRequest where
  photos : Option Int
  step : Option Fp
  speed : Option Fp
  before : Option Int
  after : Option Int
  focus_time : Option Int
  release_time : Option Int
  return_to_start : Option Bool

/-- The `/start` handler registered in `setup()` (lines 1270-1288). -/
def handle_start (s : MacroRail) (q : StartRequest) : MacroRail :=
  let settings := s.settings
  let settings := match q.photos with
    | some v => { settings with total_photos := v }
    | none => settings
  let settings := match q.step with
    | some v => { settings with step_size := v }
    | none => settings
  let settings := match q.speed with
    | some v => { settings with max_speed := v }
    | none => settings
  let settings := match q.before with
    | some v => { settings with before_shoot_delay := v }
    | none => settings
  let settings := match q.after with
    | some v => { settings with after_shoot_delay := v }
    | none => settings
  let settings := match q.focus_time with
    | some v => { settings with focus_time := v }
    | none => settings
  let settings := match q.release_time with
    | some v => { settings with release_time := v }
    | none => settings
  let s := match q.return_to_start with
    | some b => { s with returnToStartEnabled := b }
    | none => { s with returnToStartEnabled := false }
  let position := Fp.div binary32 (Fp.ofInt binary32 s.stepper.currentPos) steps_per_mm
  let s := { s with startPosition := position }
  start_shooting s settings

/-- The value ranges the specification gives for the settings. -/
def Settings.valid (st : Settings) : Prop :=
  1 ≤ st.total_photos ∧ Fp.le (Fp.finite 0) st.step_size = true ∧
    Fp.lt (Fp.finite 0) st.max_speed = true ∧ 0 ≤ st.focus_time ∧
    0 ≤ st.release_time ∧ 0 ≤ st.before_shoot_delay ∧ 0 ≤ st.after_shoot_delay

/-- The delay that stage `j` of the shooting sequence waits for. -/
def stageDelay (st : Settings) : Nat → Int
  | 0 => st.before_shoot_delay
  | 1 => st.focus_time
  | 2 => st.release_time
  | _ => st.after_shoot_delay

/-- A rail in Shooting that stands still with no motion-complete handling pending, so that
the next tick runs the stage switch. -/
def AtRest (s : MacroRail) : Prop :=
  s.state = State.SHOOTING ∧ s.stepper.distanceToGo = 0 ∧ s.motor_enabled = false

/-- The tick `i` ends the run of rail `s`: stage 3, post-shoot delay over, no photo left. -/
def Finishing (s : MacroRail) (i : TickIn) : Prop :=
  AtRest s ∧ s.shooting_stage = 3 ∧
    toULong s.settings.after_shoot_delay < usub (millis i.now) s.stage_start_time ∧
    ¬ s.photo_count < s.settings.total_photos

/-- The rail with the return-to-start request withdrawn. -/
def clearReturn (s : MacroRail) : MacroRail := { s with returnToStartEnabled := false }

/-- The motion command of a return to start, if one is requested. -/
def returnMove (s : MacroRail) : List Event :=
  if s.returnToStartEnabled then
    [Event.moveTo (toLong (Fp.mul binary32
      (constrain s.startPosition (Fp.finite 0) MAX_TRAVEL) steps_per_mm))]
  else []

/-- The states of a shooting run that takes one photo and commands no move before it
finishes: started from rail `s0` with settings `st`, the run is in one of its four stages
with the outputs made up to that stage, or it has finished with one photo taken (Idle, or
Moving back to the start position). -/
def OnePhotoRun (s0 : MacroRail) (st : Settings) (s : MacroRail) : Prop :=
  (s.state = State.SHOOTING ∧ s.settings = st ∧
      s.returnToStartEnabled = s0.returnToStartEnabled ∧
      s.startPosition = s0.startPosition ∧
      ((s.shooting_stage = 0 ∧ s.photo_count = 0 ∧ s.log = s0.log) ∨
       (s.shooting_stage = 1 ∧ s.photo_count = 0 ∧ s.log = s0.log ++ [Event.focus true] ∧
          s.stepper.distanceToGo = 0 ∧ s.motor_enabled = false) ∨
       (s.shooting_stage = 2 ∧ s.photo_count = 0 ∧
          s.log = s0.log ++ [Event.focus true, Event.shutter true] ∧
          s.stepper.distanceToGo = 0 ∧ s.motor_enabled = false) ∨
       (s.shooting_stage = 3 ∧ s.photo_count = 1 ∧ s.log = s0.log ++ photoCycle ∧
          s.stepper.distanceToGo = 0 ∧ s.motor_enabled = false))) ∨
    ((s.state = State.IDLE ∨ s.state = State.MOVING) ∧ s.photo_count = 1 ∧
      s.log = s0.log ++ photoCycle ++ returnMove s0)

/-! ## Sequences of interface operations -/

/-- Travel limit in steps: `MAX_TRAVEL * steps_per_mm()` converted to `long`. -/
def MAX_TRAVEL_STEPS : Int := toLong (Fp.mul binary64 MAX_TRAVEL steps_per_mm)

/-- A call of the public interface, with the inputs it reads. -/
inductive Op where
  | update (i : TickIn)
  | start_homing (now : Nat)
  | move_to (position : Fp)
  | start_shooting (new_settings : Settings)
  | stop (brake : Int)
  | reset_emergency (endstop : Bool)

/-- The rail after one interface call. -/
def Op.apply (s : MacroRail) : Op → MacroRail
  | Op.update i => Rail.update s i
  | Op.start_homing now => Rail.start_homing s now
  | Op.move_to position => Rail.move_to s position
  | Op.start_shooting st => Rail.start_shooting s st
  | Op.stop brake => Rail.stop s brake
  | Op.reset_emergency endstop => Rail.reset_emergency s endstop

/-- The rail after a list of interface calls, first to last. -/
def runOps (s : MacroRail) : List Op → MacroRail
  | [] => s
  | op :: rest => runOps (op.apply s) rest

/-- A call made by the web handlers: an interface call of the rail or a `/start` request. -/
inductive Call where
  | op (o : Op)
  | start (q : StartRequest)

/-- The rail after one call of a web handler. -/
def Call.apply (s : MacroRail) : Call → MacroRail
  | Call.op o => o.apply s
  | Call.start q => handle_start s q

/-- The rail after a list of calls, first to last. -/
def runCalls (s : MacroRail) : List Call → MacroRail
  | [] => s
  | c :: rest => runCalls (c.apply s) rest

/-- The call cannot take the stepper out of the travel range: it does not start a homing
run; if it is `stop()`, the point at which the stepper library brings the motor to rest lies
within the travel range; if it is a `move_to` or a `start_shooting` (direct or by `/start`)
that the state accepts, the position or the step size it passes is not NaN. -/
def Call.keepsTravel (s : MacroRail) : Call → Prop
  | Call.op (Op.start_homing _) => False
  | Call.op (Op.stop brake) =>
    0 ≤ s.stepper.currentPos + brake ∧ s.stepper.currentPos + brake ≤ MAX_TRAVEL_STEPS
  | Call.op (Op.move_to position) =>
    s.state = State.IDLE ∨ s.state = State.SHOOTING → position ≠ Fp.nan
  | Call.op (Op.start_shooting st) => s.state = State.IDLE → st.step_size ≠ Fp.nan
  | Call.start q => s.state = State.IDLE → (handle_start s q).settings.step_size ≠ Fp.nan
  | _ => True

/-- Every call of the list satisfies `keepsTravel` in the state in which it is made. -/
def keepTravel (s : MacroRail) : List Call → Prop
  | [] => True
  | c :: rest => c.keepsTravel s ∧ keepTravel (c.apply s) rest

/-- Position and target of the stepper lie between 0 and the travel limit. -/
def StepperInTravel (st : AccelStepper) : Prop :=
  0 ≤ st.currentPos ∧ st.currentPos ≤ MAX_TRAVEL_STEPS ∧
    0 ≤ st.targetPos ∧ st.targetPos ≤ MAX_TRAVEL_STEPS

/-- The rail is outside a homing run, its stepper is within travel, the cached position is a
number, the recorded start position is not NaN and neither is the step size of a run in
progress. -/
def InTravel (s : MacroRail) : Prop :=
  StepperInTravel s.stepper ∧
    (s.state = State.IDLE ∨ s.state = State.MOVING ∨ s.state = State.SHOOTING ∨
      s.state = State.ERROR) ∧
    (∃ q, s.current_pos = Fp.finite q) ∧ s.startPosition ≠ Fp.nan ∧
    (s.state = State.SHOOTING → s.settings.step_size ≠ Fp.nan)

/-- Whenever the rail is in Idle or Error, the motor-enable output is off. -/
def MotorOffWhenIdle (s : MacroRail) : Prop :=
  (s.state = State.IDLE ∨ s.state = State.ERROR) → s.enable_active = false

/-- The tick advances the stage machine of rail `s`: the stage or the state changes. -/
def StageAdvances (s : MacroRail) (i : TickIn) : Prop :=
  (update s i).shooting_stage ≠ s.shooting_stage ∨ (update s i).state ≠ s.state

/-! ## Concrete states and inputs used in examples -/

/-- A rail in `MOVING`, at step 0 on its way to step 7266 (1 mm), whose endstop filter
already reports the endstop as pressed. -/
def movingExample : MacroRail :=
  { MacroRail.new with
    state := State.MOVING, is_busy := true, enable_active := true,
    stepper := { MacroRail.new.stepper with targetPos := 7266 },
    endstop := { initialized := true, last_endstop_change := 0, last_endstop_state := true } }

/-- The rail of `movingExample` at step 50 of its way to step 7266. -/
def stoppingExample : MacroRail :=
  { movingExample with stepper := { movingExample.stepper with currentPos := 50 } }

/-- A tick at 1000 ms with the endstop pressed and a step due. -/
def pressedTick : TickIn :=
  { now := 1000, endstop := true, step_due := true, brake := 0, settled := 2000 }

/-- The constructed rail put in `ERROR`. -/
def errorExample : MacroRail := { MacroRail.new with state := State.ERROR }

/-- A rail in `HOMING_RETRACT` that has reached its retract target. -/
def retractDoneExample : MacroRail :=
  { MacroRail.new with
    state := State.HOMING_RETRACT, is_busy := true, enable_active := true,
    homing_endstop_triggered := true,
    stepper := { MacroRail.new.stepper with currentPos := 7266, targetPos := 7266 } }

/-- A rail in `HOMING_RETRACT` one step short of its retract target, retract started at 0. -/
def retractingExample : MacroRail :=
  { MacroRail.new with
    state := State.HOMING_RETRACT, is_busy := true, enable_active := true,
    homing_endstop_triggered := true,
    stepper := { MacroRail.new.stepper with currentPos := 7265, targetPos := 7266 } }

/-- A rail in `HOMING` moving toward the endstop, whose endstop filter holds "released"
since 0 ms. -/
def homingExample : MacroRail :=
  { MacroRail.new with
    state := State.HOMING, is_busy := true, enable_active := true,
    stepper := { MacroRail.new.stepper with currentPos := -100, targetPos := -704866 },
    endstop := { initialized := true, last_endstop_change := 0, last_endstop_state := false } }

/-- A rail in `SHOOTING`, stage 1 (focus asserted), standing at step 0. -/
def focusingExample : MacroRail :=
  { MacroRail.new with
    state := State.SHOOTING, is_busy := true, enable_active := true,
    shooting_stage := 1, stage_start_time := 900, focus_pin := true,
    log := [Event.focus true] }

/-- A tick at 1000 ms with the endstop released and no step due. -/
def quietTick : TickIn :=
  { now := 1000, endstop := false, step_due := false, brake := 0, settled := 2000 }

/-- A tick at 1000 ms with the endstop released and a step due. -/
def stepTick : TickIn :=
  { now := 1000, endstop := false, step_due := true, brake := 0, settled := 2000 }

/-- The default settings with step size `0.015f`. -/
def fineStepSettings : Settings :=
  { Settings.default with step_size := Fp.toFloat (Fp.double (15 / 1000)) }

/-- The default settings with the step size NaN, as `/start?step=nan` stores them. -/
def nanStepSettings : Settings := { Settings.default with step_size := Fp.nan }

/-- A rail in `SHOOTING`, stage 3, one photo of three taken, standing at step 0. -/
def postShootExample : MacroRail :=
  { MacroRail.new with
    state := State.SHOOTING, is_busy := true, shooting_stage := 3, stage_start_time := 0,
    photo_count := 1, log := photoCycle }

/-- A rail in `SHOOTING`, stage 3, all three photos taken at step 2071, return to start
requested with the start position `/start` records at step 2071. -/
def lastShotExample : MacroRail :=
  { MacroRail.new with
    state := State.SHOOTING, is_busy := true, shooting_stage := 3, stage_start_time := 0,
    photo_count := 3, returnToStartEnabled := true,
    stepper := { MacroRail.new.stepper with currentPos := 2071, targetPos := 2071 },
    current_pos := positionOf 2071, startPosition := positionOf 2071 }

/-- The rail as the completed retract leaves it: Idle at step 0 with target 0. -/
def homedExample : MacroRail := update retractDoneExample quietTick

/-- A move to 1 mm that completes; a move back to 0 that `stop()` interrupts at step 2,
the library needing 3 steps to bring the motor to rest; a shooting run started next. -/
def overshootOps : List Op :=
  [Op.move_to (Fp.finite 1)] ++ List.replicate 7266 (Op.update stepTick) ++
    [Op.update stepTick, Op.move_to (Fp.finite 0)] ++
    List.replicate 7264 (Op.update stepTick) ++
    [Op.stop (-3), Op.start_shooting Settings.default] ++
    List.replicate 3 (Op.update stepTick)

/-- A `move_to(NaN)` followed by 704867 ticks with a step due. -/
def nanMoveOps : List Op :=
  Op.move_to Fp.nan :: List.replicate 704867 (Op.update stepTick)

/-- A shooting run with step size NaN: four ticks take the first photo and command the
next move, then 704867 ticks with a step due follow. -/
def nanStepOps : List Op :=
  [Op.start_shooting nanStepSettings, Op.update stepTick,
    Op.update { stepTick with now := 2000 }, Op.update { stepTick with now := 3000 },
    Op.update { stepTick with now := 4000 }] ++
    List.replicate 704867 (Op.update { stepTick with now := 5000 })

/-- The calls of a homing run of the constructed rail up to the tick before the one that
completes the retract: `start_homing`, a tick with the endstop released, the tick in which
it is pressed, and the ticks of the 7266 retract steps. -/
def homingCalls : List Call :=
  Call.op (Op.start_homing 0) ::
    (homingApproach ++ homingHit :: List.replicate 7265 retractTick).map
      (fun i => Call.op (Op.update i))

/-- Settings with `total_photos = 0` and otherwise the defaults. -/
def zeroPhotoSettings : Settings := { Settings.default with total_photos := 0 }

/-- Settings outside every range of the specification. -/
def invalidSettings : Settings :=
  { step_size := Fp.finite (-1), total_photos := 0, max_speed := Fp.finite 0, focus_time := -1,
    release_time := -1, before_shoot_delay := -1, after_shoot_delay := -1 }

/-- A `/start` request carrying the values of `invalidSettings`. -/
def invalidRequest : StartRequest :=
  { photos := some 0, step := some (Fp.finite (-1)), speed := some (Fp.finite 0),
    before := some (-1),
    after := some (-1), focus_time := some (-1), release_time := some (-1),
    return_to_start := some false }

/-- Calls made after homing: a `stop()` at rest, a move to 1 mm, a tick, a `start_shooting`
that Moving rejects, two more ticks and a `reset_emergency`. -/
def travelCalls : List Call :=
  [Call.op (Op.stop 0), Call.op (Op.move_to (Fp.finite 1)), Call.op (Op.update stepTick),
    Call.op (Op.start_shooting Settings.default), Call.op (Op.update stepTick),
    Call.op (Op.update stepTick), Call.op (Op.reset_emergency false)]

/-! ## Theorems -/

/-! ### Arithmetic of the conversions -/

theorem bitLength_spec : ∀ (fuel n : Nat), n ≤ fuel → 0 < n →
    2 ^ (bitLength fuel n - 1) ≤ n ∧ n < 2 ^ bitLength fuel n := by
  intro fuel
  induction fuel with
  | zero => intro n h1 h2; omega
  | succ fuel ih =>
    intro n h1 h2
    have hn : n ≠ 0 := by omega
    simp only [bitLength, hn, if_false]
    by_cases h : n / 2 = 0
    · have : n = 1 := by omega
      subst this
      cases fuel <;> simp [bitLength]
    · obtain ⟨a, b⟩ := ih (n / 2) (by omega) (by omega)
      have hpos : 0 < bitLength fuel (n / 2) := by
        rcases Nat.eq_zero_or_pos (bitLength fuel (n / 2)) with hz | hp
        · rw [hz] at b; simp at b; omega
        · exact hp
      constructor
      · have : bitLength fuel (n / 2) + 1 - 1 = (bitLength fuel (n / 2) - 1) + 1 := by omega
        rw [this, pow_succ]
        omega
      · rw [pow_succ]
        omega

/-- The exponent `ilog2` finds is not above the magnitude. -/
theorem ilog2_le {q : ℚ} (hq : q ≠ 0) : (2 : ℚ) ^ (ilog2 q) ≤ |q| := by
  unfold ilog2
  split_ifs with h
  · exact h
  · have hn : 0 < q.num.natAbs := Int.natAbs_pos.mpr (Rat.num_ne_zero.mpr hq)
    have hd : 0 < q.den := q.den_pos
    obtain ⟨a, -⟩ := bitLength_spec _ _ (le_refl _) hn
    obtain ⟨-, b⟩ := bitLength_spec _ _ (le_refl _) hd
    have hbn : 0 < bitLength q.num.natAbs q.num.natAbs := by
      rcases Nat.eq_zero_or_pos (bitLength q.num.natAbs q.num.natAbs) with hz | hp
      · have := (bitLength_spec _ _ (le_refl _) hn).2
        rw [hz, pow_zero] at this; omega
      · exact hp
    have habs : |q| = (q.num.natAbs : ℚ) / (q.den : ℚ) := by
      conv_lhs => rw [← Rat.num_div_den q]
      rw [abs_div, Nat.abs_cast, Nat.cast_natAbs, Int.cast_abs]
    rw [habs, le_div_iff₀ (by exact_mod_cast hd)]
    have e1 : ((bitLength q.num.natAbs q.num.natAbs : Int) - (bitLength q.den q.den : Int) - 1)
        = ((bitLength q.num.natAbs q.num.natAbs - 1 : ℕ) : Int) - (bitLength q.den q.den : ℕ) := by
      omega
    rw [e1, zpow_sub₀ (by norm_num), zpow_natCast, zpow_natCast, div_mul_eq_mul_div,
      div_le_iff₀ (by positivity)]
    have a' : ((2 : ℚ) ^ (bitLength q.num.natAbs q.num.natAbs - 1)) ≤ (q.num.natAbs : ℚ) := by
      exact_mod_cast a
    have b' : (q.den : ℚ) ≤ (2 : ℚ) ^ (bitLength q.den q.den) := by
      exact_mod_cast b.le
    calc (2 : ℚ) ^ (bitLength q.num.natAbs q.num.natAbs - 1) * (q.den : ℚ)
        ≤ (q.num.natAbs : ℚ) * (q.den : ℚ) := by gcongr
      _ ≤ (q.num.natAbs : ℚ) * (2 : ℚ) ^ (bitLength q.den q.den) := by gcongr

theorem roundHalfEven_error (x : ℚ) : |(roundHalfEven x : ℚ) - x| ≤ 1 / 2 := by
  have h1 := Int.floor_le x
  have h2 := Int.lt_floor_add_one x
  unfold roundHalfEven
  rw [abs_le]
  split_ifs <;> push_cast <;> constructor <;> linarith

theorem roundHalfEven_nonneg {x : ℚ} (h : 0 ≤ x) : 0 ≤ roundHalfEven x := by
  have h1 : 0 ≤ ⌊x⌋ := Int.floor_nonneg.mpr h
  unfold roundHalfEven
  split_ifs <;> omega

/-- Rounding a number of `[0, 2^20)` to `float` gives a finite value that is not negative
and at most 1/32 above the number. -/
theorem round_float_small {q : ℚ} (h0 : 0 ≤ q) (h1 : q < 2 ^ 20) :
    ∃ r, Fp.round binary32 q = Fp.finite r ∧ 0 ≤ r ∧ r ≤ q + 1 / 32 := by
  by_cases hq : q = 0
  · exact ⟨0, by simp [Fp.round, hq], le_refl _, by rw [hq]; norm_num⟩
  · have hpos : 0 < q := lt_of_le_of_ne h0 (Ne.symm hq)
    have hu0 : 0 < ulp binary32 q := by unfold ulp; positivity
    have hlog : ilog2 q ≤ 19 := by
      have := ilog2_le hq
      rw [abs_of_pos hpos] at this
      have h2 : (2 : ℚ) ^ (ilog2 q) < (2 : ℚ) ^ (20 : Int) :=
        lt_of_le_of_lt this (by exact_mod_cast h1)
      have := (zpow_lt_zpow_iff_right₀ (by norm_num : (1 : ℚ) < 2)).mp h2
      omega
    have hu1 : ulp binary32 q ≤ 1 / 16 := by
      unfold ulp binary32
      have : max (ilog2 q) (-126) - (((24 : ℕ) : Int) - 1) ≤ -4 := by
        have : max (ilog2 q) (-126) ≤ 19 := max_le hlog (by norm_num)
        omega
      calc (2 : ℚ) ^ (max (ilog2 q) (-126) - (((24 : ℕ) : Int) - 1)) ≤ (2 : ℚ) ^ (-4 : Int) :=
            zpow_le_zpow_right₀ (by norm_num) this
        _ = 1 / 16 := by norm_num
    have herr := roundHalfEven_error (q / ulp binary32 q)
    have hnn := roundHalfEven_nonneg (div_nonneg h0 hu0.le)
    have hr0 : (0 : ℚ) ≤ (roundHalfEven (q / ulp binary32 q) : ℚ) * ulp binary32 q :=
      mul_nonneg (by exact_mod_cast hnn) hu0.le
    have hr1 : (roundHalfEven (q / ulp binary32 q) : ℚ) * ulp binary32 q ≤ q + 1 / 32 := by
      have := (abs_le.mp herr).2
      have h3 : (roundHalfEven (q / ulp binary32 q) : ℚ) ≤ q / ulp binary32 q + 1 / 2 := by
        linarith
      calc (roundHalfEven (q / ulp binary32 q) : ℚ) * ulp binary32 q
          ≤ (q / ulp binary32 q + 1 / 2) * ulp binary32 q := by gcongr
        _ = q + ulp binary32 q / 2 := by field_simp; ring
        _ ≤ q + 1 / 32 := by linarith
    refine ⟨_, ?_, hr0, hr1⟩
    unfold Fp.round
    rw [if_neg hq, if_neg]
    rw [abs_of_nonneg hr0]
    have : (2 : ℚ) ^ (binary32.emax + 1) = 2 ^ 128 := by
      unfold binary32; norm_num
    rw [this]
    have : q + 1 / 32 < 2 ^ 128 := by
      have : (2 : ℚ) ^ 20 + 1 / 32 < 2 ^ 128 := by norm_num
      linarith
    intro hge
    linarith

/-- The value `steps_per_mm()` returns: the `float` 7266.66650390625. -/
theorem steps_per_mm_eq : steps_per_mm = Fp.finite (14882133 / 2048) := by decide!

theorem MAX_TRAVEL_eq : MAX_TRAVEL = Fp.finite 97 := rfl

/-- Clamping a value other than NaN to the travel range gives a number from 0 to 97. -/
theorem constrain_bounds (amt : Fp) (h : amt ≠ Fp.nan) :
    ∃ c, constrain amt (Fp.finite 0) MAX_TRAVEL = Fp.finite c ∧ 0 ≤ c ∧ c ≤ 97 := by
  rw [MAX_TRAVEL_eq]
  cases amt with
  | finite q =>
    by_cases h1 : q < 0
    · exact ⟨0, by simp [constrain, Fp.lt, h1], le_refl _, by norm_num⟩
    · by_cases h2 : 97 < q
      · exact ⟨97, by simp [constrain, Fp.lt, h1, h2], by norm_num, le_refl _⟩
      · exact ⟨q, by simp [constrain, Fp.lt, h1, h2], not_lt.mp h1, not_lt.mp h2⟩
  | inf negative =>
    cases negative
    · exact ⟨97, by simp [constrain, Fp.lt], by norm_num, le_refl _⟩
    · exact ⟨0, by simp [constrain, Fp.lt], le_refl _, by norm_num⟩
  | nan => exact absurd rfl h

theorem max_travel_steps_eq : MAX_TRAVEL_STEPS = 704866 := by decide!

/-- A position from 0 mm to 97 mm converts to a step count from 0 to 704866. -/
theorem steps_of_mm_bounds {c : ℚ} (h0 : 0 ≤ c) (h1 : c ≤ 97) :
    0 ≤ toLong (Fp.mul binary32 (Fp.finite c) steps_per_mm) ∧
      toLong (Fp.mul binary32 (Fp.finite c) steps_per_mm) ≤ MAX_TRAVEL_STEPS := by
  rw [steps_per_mm_eq, max_travel_steps_eq]
  have hp0 : 0 ≤ c * (14882133 / 2048) := mul_nonneg h0 (by norm_num)
  have hp1 : c * (14882133 / 2048) ≤ 97 * (14882133 / 2048) :=
    mul_le_mul_of_nonneg_right h1 (by norm_num)
  obtain ⟨r, hr, r0, r1⟩ := round_float_small hp0 (lt_of_le_of_lt hp1 (by norm_num))
  have hmul : Fp.mul binary32 (Fp.finite c) (Fp.finite (14882133 / 2048)) = Fp.finite r := hr
  have hr2 : r < 704867 := by
    have : (97 : ℚ) * (14882133 / 2048) + 1 / 32 < 704867 := by norm_num
    linarith
  have hlong : toLong (Fp.finite r) = ⌊r⌋ := by
    have a1 : ¬ (2 : ℚ) ^ 31 ≤ r := by
      have : (704867 : ℚ) < 2 ^ 31 := by norm_num
      intro hge; linarith
    have a2 : ¬ r ≤ -(2 : ℚ) ^ 31 := by
      have : -(2 : ℚ) ^ 31 < 0 := by norm_num
      intro hle; linarith
    simp [toLong, a1, a2, r0]
  rw [hmul, hlong]
  refine ⟨Int.floor_nonneg.mpr r0, ?_⟩
  have : ⌊r⌋ < 704867 := Int.floor_lt.mpr (by exact_mod_cast hr2)
  omega

/-- Every clamped position other than NaN converts to a step count within travel. -/
theorem clamped_target_in_travel (amt : Fp) (h : amt ≠ Fp.nan) :
    0 ≤ toLong (Fp.mul binary32 (constrain amt (Fp.finite 0) MAX_TRAVEL)
        steps_per_mm) ∧
      toLong (Fp.mul binary32 (constrain amt (Fp.finite 0) MAX_TRAVEL)
        steps_per_mm) ≤ MAX_TRAVEL_STEPS := by
  obtain ⟨c, hc, c0, c1⟩ := constrain_bounds amt h
  rw [hc]
  exact steps_of_mm_bounds c0 c1

/-- A clamped NaN converts to the step count `2^31 - 1`, beyond the travel range. -/
theorem nan_target :
    toLong (Fp.mul binary32 (constrain Fp.nan (Fp.finite 0) MAX_TRAVEL)
      steps_per_mm) = 2147483647 := by decide!

/-- The cached position of a step count within travel is a number. -/
theorem cached_position_finite {n : Int} (h0 : 0 ≤ n) (h1 : n ≤ MAX_TRAVEL_STEPS) :
    ∃ r, Fp.div binary32 (Fp.ofInt binary32 n) steps_per_mm = Fp.finite r := by
  rw [steps_per_mm_eq]
  rw [max_travel_steps_eq] at h1
  have hn0 : (0 : ℚ) ≤ (n : ℚ) := by exact_mod_cast h0
  have hn1 : (n : ℚ) ≤ 704866 := by exact_mod_cast h1
  obtain ⟨a, ha, a0, a1⟩ := round_float_small hn0 (lt_of_le_of_lt hn1 (by norm_num))
  have ha' : Fp.ofInt binary32 n = Fp.finite a := ha
  have hq0 : 0 ≤ a / (14882133 / 2048) := div_nonneg a0 (by norm_num)
  have hq1 : a / (14882133 / 2048) < 2 ^ 20 := by
    rw [div_lt_iff₀ (by norm_num)]
    have : (704866 : ℚ) + 1 / 32 < 2 ^ 20 * (14882133 / 2048) := by norm_num
    linarith
  obtain ⟨r, hr, -, -⟩ := round_float_small hq0 hq1
  refine ⟨r, ?_⟩
  rw [ha']
  have hne : ¬ ((14882133 : ℚ) / 2048 = 0) := by norm_num
  simp only [Fp.div, hne, if_false]
  exact hr

/-! ### Endstop filter -/

theorem usub_of_le {a b : Nat} (hab : b ≤ a) (ha : a < 2 ^ 32) : usub a b = a - b := by
  unfold usub ULONG_RANGE
  omega

theorem millis_of_lt {t : Nat} (h : t < 2 ^ 32) : millis t = t := by
  unfold millis ULONG_RANGE
  omega

/-- A call either keeps the statics' change time and (once initialised) the level, or it
accepts a transition: the level changes, the change time becomes `millis now`, and more than
the debounce delay (modulo `2^32`) has passed since the previous change time. -/
theorem check_endstop_cases (d : Debounce) (raw : Bool) (now : Nat) :
    ((check_endstop d raw now).1.last_endstop_change = d.last_endstop_change ∧
        (d.initialized = true → (check_endstop d raw now).2 = d.last_endstop_state)) ∨
      (d.initialized = true ∧ (check_endstop d raw now).2 ≠ d.last_endstop_state ∧
        (check_endstop d raw now).1.last_endstop_change = millis now ∧
        usub (millis now) d.last_endstop_change > DEBOUNCE_DELAY) := by
  unfold check_endstop
  by_cases hi : d.initialized = true
  · simp only [hi, if_true]
    split_ifs with h1 h2
    · right; exact ⟨trivial, h1, rfl, h2⟩
    · left; exact ⟨rfl, fun _ => rfl⟩
    · left; exact ⟨rfl, fun _ => rfl⟩
  · simp only [hi]
    simp

/-- The level returned is the level held by the statics after the call. -/
theorem check_endstop_returns_held (d : Debounce) (raw : Bool) (now : Nat) :
    (check_endstop d raw now).2 = (check_endstop d raw now).1.last_endstop_state := by
  unfold check_endstop
  by_cases hi : d.initialized = true
  · simp only [hi, if_true]
    split_ifs <;> rfl
  · simp only [hi]
    simp

theorem check_endstop_initialized (d : Debounce) (raw : Bool) (now : Nat) :
    (check_endstop d raw now).1.initialized = true := by
  unfold check_endstop
  by_cases hi : d.initialized = true
  · simp only [hi, if_true]
    split_ifs <;> simp [hi]
  · simp only [hi]
    simp

/-- From statics whose last change is at `t0`, on samples at non-decreasing times from `t0`
on, every accepted transition is more than the delay after the previous one and after `t0`. -/
theorem acceptedTimes_chain (samples : List (Bool × Nat)) :
    ∀ (d : Debounce) (t0 : Nat), d.last_endstop_change = t0 →
      (∀ x ∈ samples, t0 ≤ x.2 ∧ x.2 < 2 ^ 32) →
      List.Sorted (· ≤ ·) (samples.map Prod.snd) →
      List.Chain (fun a b => a + DEBOUNCE_DELAY < b) t0 (acceptedTimes d samples) := by
  induction samples with
  | nil => intro d t0 _ _ _; exact List.Chain.nil
  | cons x rest ih =>
    intro d t0 hd hb hs
    have hx := hb x (List.mem_cons_self _ _)
    have hs' : List.Sorted (· ≤ ·) (rest.map Prod.snd) := by
      simp only [List.map_cons, List.sorted_cons] at hs
      exact hs.2
    have hge : ∀ y ∈ rest, x.2 ≤ y.2 := by
      intro y hy
      simp only [List.map_cons, List.sorted_cons] at hs
      exact hs.1 y.2 (List.mem_map_of_mem _ hy)
    have hrest : ∀ y ∈ rest, t0 ≤ y.2 ∧ y.2 < 2 ^ 32 :=
      fun y hy => hb y (List.mem_cons_of_mem _ hy)
    rcases check_endstop_cases d x.1 x.2 with ⟨hsame, hlev⟩ | ⟨hinit, hne, hnew, hgt⟩
    · have hno : ¬ (d.initialized = true ∧
          (check_endstop d x.1 x.2).2 ≠ d.last_endstop_state) :=
        fun hc => hc.2 (hlev hc.1)
      simp only [acceptedTimes]
      rw [if_neg hno]
      exact ih _ t0 (hsame.trans hd) hrest hs'
    · rw [hd, millis_of_lt hx.2, usub_of_le hx.1 hx.2] at hgt
      rw [millis_of_lt hx.2] at hnew
      have hstep : t0 + DEBOUNCE_DELAY < x.2 := by omega
      have hrest' : ∀ y ∈ rest, x.2 ≤ y.2 ∧ y.2 < 2 ^ 32 :=
        fun y hy => ⟨hge y hy, (hrest y hy).2⟩
      have hyes : d.initialized = true ∧
          (check_endstop d x.1 x.2).2 ≠ d.last_endstop_state := ⟨hinit, hne⟩
      have key : List.Chain (fun a b => a + DEBOUNCE_DELAY < b) t0
          (x.2 :: acceptedTimes (check_endstop d x.1 x.2).1 rest) :=
        List.Chain.cons hstep (ih _ x.2 hnew hrest' hs')
      simp only [acceptedTimes]
      rw [if_pos hyes]
      exact key

/-- C8: for raw samples taken at non-decreasing times without clock wraparound, any two
successive changes of the level returned by `check_endstop` are more than DEBOUNCE_DELAY
(50 ms) apart, from whatever statics the run starts. -/
theorem debounce_min_spacing (d : Debounce) (samples : List (Bool × Nat))
    (hb : ∀ x ∈ samples, x.2 < 2 ^ 32)
    (hs : List.Sorted (· ≤ ·) (samples.map Prod.snd)) :
    List.Chain' (fun a b => a + DEBOUNCE_DELAY < b) (acceptedTimes d samples) := by
  induction samples generalizing d with
  | nil => exact List.chain'_nil
  | cons x rest ih =>
    have hs' : List.Sorted (· ≤ ·) (rest.map Prod.snd) := by
      simp only [List.map_cons, List.sorted_cons] at hs
      exact hs.2
    have hrest : ∀ y ∈ rest, y.2 < 2 ^ 32 := fun y hy => hb y (List.mem_cons_of_mem _ hy)
    have hx := hb x (List.mem_cons_self _ _)
    simp only [acceptedTimes]
    split_ifs with hc
    · rcases check_endstop_cases d x.1 x.2 with ⟨_, hlev⟩ | ⟨_, _, hnew, _⟩
      · exact absurd (hlev hc.1) hc.2
      · rw [millis_of_lt hx] at hnew
        have hge : ∀ y ∈ rest, x.2 ≤ y.2 ∧ y.2 < 2 ^ 32 := by
          intro y hy
          simp only [List.map_cons, List.sorted_cons] at hs
          exact ⟨hs.1 y.2 (List.mem_map_of_mem _ hy), hrest y hy⟩
        exact acceptedTimes_chain rest _ x.2 hnew hge hs'
    · exact ih _ hrest hs'

theorem debounce_min_spacing_witness :
    acceptedTimes Debounce.init noisySamples = [100, 151, 202] ∧
      List.Chain' (fun a b => a + DEBOUNCE_DELAY < b)
        (acceptedTimes Debounce.init noisySamples) :=
  ⟨by decide, debounce_min_spacing Debounce.init noisySamples (by decide) (by decide)⟩

/-- C9 as stated fails: with the endstop released since 0 ms, a raw pulse of the single
sample at 100 ms is reported at once, and the reported level then stays pressed although
the raw level is released again at 101 ms. -/
theorem single_sample_pulse_reported :
    debounceRun Debounce.init pulseSamples = [false, false, true, true] := by
  decide

/-- C9 amended: once initialised, the level returned by `check_endstop` differs from the held
level exactly when the raw level differs from the held level and more than DEBOUNCE_DELAY ms
(modulo `2^32`) have passed since the last accepted change, whatever the time for which the
raw level has differed; the returned level is then the raw level and the call time becomes
the time of the last accepted change. -/
theorem check_endstop_accepts_iff (d : Debounce) (raw : Bool) (now : Nat)
    (hi : d.initialized = true) :
    ((check_endstop d raw now).2 ≠ d.last_endstop_state ↔
        (raw ≠ d.last_endstop_state ∧
          usub (millis now) d.last_endstop_change > DEBOUNCE_DELAY)) ∧
      ((check_endstop d raw now).2 ≠ d.last_endstop_state →
        (check_endstop d raw now).2 = raw ∧
          (check_endstop d raw now).1.last_endstop_state = raw ∧
          (check_endstop d raw now).1.last_endstop_change = millis now) := by
  unfold check_endstop
  simp only [hi, if_true]
  split_ifs with h1 h2
  · simp [h1, h2]
  · simp [h1, h2]
  · simp [h1]

theorem check_endstop_accepts_iff_witness :
    (check_endstop releasedFilter true 100).2 ≠ releasedFilter.last_endstop_state ∧
      (check_endstop releasedFilter true 100).2 = true :=
  ⟨((check_endstop_accepts_iff releasedFilter true 100 rfl).1).mpr (by decide),
   ((check_endstop_accepts_iff releasedFilter true 100 rfl).2
      (((check_endstop_accepts_iff releasedFilter true 100 rfl).1).mpr (by decide))).1⟩

/-! ### Stepper -/

theorem run_targetPos (st : AccelStepper) (due : Bool) :
    (st.run due).targetPos = st.targetPos := by
  unfold AccelStepper.run
  split_ifs <;> rfl

theorem run_profile (st : AccelStepper) (due : Bool) :
    (st.run due).maxSpeed = st.maxSpeed ∧ (st.run due).acceleration = st.acceleration := by
  unfold AccelStepper.run
  split_ifs <;> exact ⟨rfl, rfl⟩

theorem run_at_target (st : AccelStepper) (due : Bool) (h : st.distanceToGo = 0) :
    st.run due = st := by
  unfold AccelStepper.run
  simp [h]

theorem run_not_due (st : AccelStepper) : st.run false = st := by
  simp [AccelStepper.run]

theorem run_forward (st : AccelStepper) (due : Bool) (h : 0 < st.distanceToGo) :
    (st.run due).currentPos = st.currentPos + (if due = true then 1 else 0) := by
  unfold AccelStepper.run
  cases due <;> simp [h]

theorem run_backward (st : AccelStepper) (due : Bool) (h : st.distanceToGo < 0) :
    (st.run due).currentPos = st.currentPos - (if due = true then 1 else 0) := by
  unfold AccelStepper.run
  cases due <;> simp [h, not_lt.mpr h.le]

/-! ### Homing -/

theorem retract_distance_eq : retract_distance = 7266 := by decide!

theorem dueCount_cons (i : TickIn) (l : List TickIn) :
    dueCount (i :: l) = dueCount l + (if i.step_due = true then 1 else 0) := by
  unfold dueCount
  rw [List.countP_cons]

theorem runTicks_cons (s : MacroRail) (i : TickIn) (l : List TickIn) :
    runTicks s (i :: l) = runTicks (update s i) l := rfl

theorem stateTrace_cons (s : MacroRail) (i : TickIn) (l : List TickIn) :
    stateTrace s (i :: l) = s.state :: stateTrace (update s i) l := rfl

/-- In Idle with the motor disabled and the busy flag clear, a tick changes nothing. -/
theorem idle_tick_fixed (s : MacroRail) (i : TickIn) (h : s.state = State.IDLE)
    (he : s.enable_active = false) (hb : s.is_busy = false) : update s i = s := by
  cases s
  simp_all [update, handle_idle, disable_motor]

theorem idle_run_fixed (l : List TickIn) (s : MacroRail) (h : s.state = State.IDLE)
    (he : s.enable_active = false) (hb : s.is_busy = false) :
    runTicks s l = s ∧ stateTrace s l = List.replicate (l.length + 1) State.IDLE := by
  induction l with
  | nil => simp [runTicks, stateTrace, h]
  | cons i rest ih =>
    simp only [runTicks, stateTrace, idle_tick_fixed s i h he hb, ih, h, List.length_cons]
    exact ⟨trivial, (List.replicate_succ ..).symm⟩

/-- The rail as it is when homing has completed. -/
theorem retract_tick_done (s : MacroRail) (i : TickIn) (h : s.state = State.HOMING_RETRACT)
    (hd : s.stepper.distanceToGo = 0) :
    (update s i).state = State.IDLE ∧ (update s i).stepper.currentPos = 0 ∧
      (update s i).current_pos = Fp.finite 0 ∧ (update s i).homing_endstop_triggered = false ∧
      (update s i).enable_active = false ∧ (update s i).is_busy = false := by
  have hd' : s.stepper.targetPos - s.stepper.currentPos = 0 := hd
  simp [update, h, hd', disable_motor, AccelStepper.run, AccelStepper.setCurrentPosition,
    AccelStepper.distanceToGo]

theorem retract_tick_progress (s : MacroRail) (i : TickIn)
    (h : s.state = State.HOMING_RETRACT) (hd : s.stepper.distanceToGo ≠ 0)
    (ht : usub (millis i.now) s.homing_retract_start ≤ 60000) :
    update s i = { s with stepper := s.stepper.run i.step_due } := by
  have ht' : ¬ (60000 < usub (millis i.now) s.homing_retract_start) := not_lt.mpr ht
  simp [update, h, hd, ht']

/-- The retract phase: from HomingRetract with the target ahead by no more steps than there
are due ticks in `mid`, and no tick beyond the timeout, the rail stays in HomingRetract for
some ticks and is then Idle, homed. -/
theorem retract_phase (fin : TickIn) (mid : List TickIn) :
    ∀ s : MacroRail, s.state = State.HOMING_RETRACT →
      0 ≤ s.stepper.distanceToGo → s.stepper.distanceToGo ≤ dueCount mid →
      (∀ i ∈ mid ++ [fin], usub (millis i.now) s.homing_retract_start ≤ 60000) →
      ∃ b c, 0 < b ∧ 0 < c ∧
        stateTrace s (mid ++ [fin]) =
          List.replicate b State.HOMING_RETRACT ++ List.replicate c State.IDLE ∧
        (runTicks s (mid ++ [fin])).state = State.IDLE ∧
        (runTicks s (mid ++ [fin])).stepper.currentPos = 0 ∧
        (runTicks s (mid ++ [fin])).current_pos = Fp.finite 0 ∧
        (runTicks s (mid ++ [fin])).homing_endstop_triggered = false ∧
        (runTicks s (mid ++ [fin])).enable_active = false := by
  induction mid with
  | nil =>
    intro s h h0 hle _
    have hd : s.stepper.distanceToGo = 0 := by
      simp only [dueCount, List.countP_nil, Nat.cast_zero] at hle
      omega
    obtain ⟨d1, d2, d3, d4, d5, _⟩ := retract_tick_done s fin h hd
    refine ⟨1, 1, Nat.one_pos, Nat.one_pos, ?_, ?_⟩
    · simp [stateTrace, h, d1]
    · simp [runTicks, d1, d2, d3, d4, d5]
  | cons i rest ih =>
    intro s h h0 hle ht
    by_cases hd : s.stepper.distanceToGo = 0
    · obtain ⟨d1, d2, d3, d4, d5, d6⟩ := retract_tick_done s i h hd
      obtain ⟨r1, r2⟩ := idle_run_fixed (rest ++ [fin]) (update s i) d1 d5 d6
      refine ⟨1, (rest ++ [fin]).length + 1, Nat.one_pos, Nat.succ_pos _, ?_, ?_⟩
      · rw [List.cons_append, stateTrace_cons, r2, h]
        rfl
      · rw [List.cons_append, runTicks_cons, r1]
        exact ⟨d1, d2, d3, d4, d5⟩
    · have hti : usub (millis i.now) s.homing_retract_start ≤ 60000 :=
        ht i (by simp)
      have hu := retract_tick_progress s i h hd hti
      have hpos : 0 < s.stepper.distanceToGo := lt_of_le_of_ne h0 (Ne.symm hd)
      have hs1 : (update s i).state = State.HOMING_RETRACT := by rw [hu]; exact h
      have hs2 : (update s i).homing_retract_start = s.homing_retract_start := by rw [hu]
      have hs3 : (update s i).stepper.distanceToGo =
          s.stepper.distanceToGo - (if i.step_due = true then 1 else 0) := by
        rw [hu]
        show (s.stepper.run i.step_due).targetPos - (s.stepper.run i.step_due).currentPos = _
        rw [run_targetPos, run_forward _ _ hpos]
        unfold AccelStepper.distanceToGo
        omega
      rw [dueCount_cons] at hle
      have h0' : 0 ≤ (update s i).stepper.distanceToGo := by
        rw [hs3]; split_ifs <;> omega
      have hle' : (update s i).stepper.distanceToGo ≤ dueCount rest := by
        rw [hs3]; split_ifs at hle ⊢ <;> push_cast at hle ⊢ <;> omega
      have ht' : ∀ j ∈ rest ++ [fin],
          usub (millis j.now) (update s i).homing_retract_start ≤ 60000 := by
        intro j hj
        rw [hs2]
        exact ht j (by simp only [List.cons_append, List.mem_cons]; exact Or.inr hj)
      obtain ⟨b, c, hb, hc, htr, hfin⟩ := ih (update s i) hs1 h0' hle' ht'
      refine ⟨b + 1, c, Nat.succ_pos _, hc, ?_, ?_⟩
      · rw [List.cons_append, stateTrace_cons, htr, h, List.replicate_succ]
        rfl
      · rw [List.cons_append, runTicks_cons]
        exact hfin

theorem homing_tick_wait (s : MacroRail) (i : TickIn) (h : s.state = State.HOMING)
    (hc : (check_endstop s.endstop i.endstop i.now).2 = false) :
    update s i = { s with endstop := (check_endstop s.endstop i.endstop i.now).1,
                          stepper := s.stepper.run i.step_due } := by
  simp [update, h, hc]

theorem homing_tick_hit (s : MacroRail) (i : TickIn) (h : s.state = State.HOMING)
    (htrig : s.homing_endstop_triggered = false)
    (hc : (check_endstop s.endstop i.endstop i.now).2 = true) :
    (update s i).state = State.HOMING_RETRACT ∧
      (update s i).homing_retract_start = millis i.settled ∧
      (update s i).stepper.distanceToGo =
        retract_distance - (if i.step_due = true then 1 else 0) := by
  have hpos : (0 : Int) < toLong (Fp.mul binary32 (Fp.finite 1) steps_per_mm) := by
    have := retract_distance_eq
    unfold retract_distance at this
    omega
  refine ⟨?_, ?_, ?_⟩
  · simp [update, h, hc, htrig, complete_homing, enable_motor, disable_motor]
  · simp [update, h, hc, htrig, complete_homing, enable_motor, disable_motor]
  · simp only [update, h, hc, htrig, complete_homing, enable_motor, disable_motor, if_true,
      Bool.not_false, Bool.and_self]
    show (AccelStepper.run _ i.step_due).targetPos - (AccelStepper.run _ i.step_due).currentPos = _
    rw [run_targetPos, run_forward]
    · simp [AccelStepper.moveTo, AccelStepper.setCurrentPosition, retract_distance]
    · simpa [AccelStepper.distanceToGo, AccelStepper.moveTo, AccelStepper.setCurrentPosition]
        using hpos

/-- The approach phase: while the filtered endstop reads released the rail stays in Homing. -/
theorem homing_approach (hit : TickIn) (rest : List TickIn) (pre : List TickIn) :
    ∀ s : MacroRail, s.state = State.HOMING → s.homing_endstop_triggered = false →
      endstopReads s.endstop (pre ++ [hit]) = List.replicate pre.length false ++ [true] →
      (runTicks s pre).state = State.HOMING ∧
        (runTicks s pre).homing_endstop_triggered = false ∧
        (check_endstop (runTicks s pre).endstop hit.endstop hit.now).2 = true ∧
        stateTrace s (pre ++ rest) =
          List.replicate pre.length State.HOMING ++ stateTrace (runTicks s pre) rest ∧
        runTicks s (pre ++ rest) = runTicks (runTicks s pre) rest := by
  induction pre with
  | nil =>
    intro s h htrig hr
    simp only [List.nil_append, endstopReads, List.length_nil, List.replicate_zero,
      List.cons.injEq, and_true] at hr
    exact ⟨h, htrig, hr, rfl, rfl⟩
  | cons i pre ih =>
    intro s h htrig hr
    rw [List.cons_append] at hr
    simp only [endstopReads, List.length_cons, List.replicate_succ, List.cons_append,
      List.cons.injEq] at hr
    have hu := homing_tick_wait s i h hr.1
    have h1 : (update s i).state = State.HOMING := by rw [hu]; exact h
    have h2 : (update s i).homing_endstop_triggered = false := by rw [hu]; exact htrig
    have h3 : (update s i).endstop = (check_endstop s.endstop i.endstop i.now).1 := by rw [hu]
    obtain ⟨a1, a2, a3, a4, a5⟩ := ih (update s i) h1 h2 (by rw [h3]; exact hr.2)
    refine ⟨a1, a2, a3, ?_, ?_⟩
    · rw [List.cons_append, stateTrace_cons, a4, h, List.length_cons, List.replicate_succ]
      rfl
    · rw [List.cons_append, runTicks_cons, a5]
      rfl

/-- C7: from Idle, `start_homing()`, then ticks in which the filtered endstop reads released
and a tick in which it reads pressed, then ticks that contain enough due steps for the
retract and stay within 60 s of its start: the rail is in Homing, then HomingRetract, then
Idle, in that order and in no other state, and ends with step position 0, cached position 0,
the homing-triggered flag cleared and the motor disabled. -/
theorem homing_run (s0 : MacroRail) (t0 : Nat) (pre : List TickIn) (hit : TickIn)
    (mid : List TickIn) (fin : TickIn)
    (hidle : s0.state = State.IDLE)
    (hreads : endstopReads s0.endstop (pre ++ [hit]) =
      List.replicate pre.length false ++ [true])
    (hsteps : retract_distance ≤ dueCount (hit :: mid))
    (htime : ∀ i ∈ mid ++ [fin], usub (millis i.now) (millis hit.settled) ≤ 60000) :
    ∃ b c, 0 < b ∧ 0 < c ∧
      stateTrace (start_homing s0 t0) (pre ++ hit :: (mid ++ [fin])) =
        List.replicate (pre.length + 1) State.HOMING ++
          (List.replicate b State.HOMING_RETRACT ++ List.replicate c State.IDLE) ∧
      (runTicks (start_homing s0 t0) (pre ++ hit :: (mid ++ [fin]))).state = State.IDLE ∧
      (runTicks (start_homing s0 t0) (pre ++ hit :: (mid ++ [fin]))).stepper.currentPos = 0 ∧
      (runTicks (start_homing s0 t0) (pre ++ hit :: (mid ++ [fin]))).current_pos = Fp.finite 0 ∧
      (runTicks (start_homing s0 t0)
        (pre ++ hit :: (mid ++ [fin]))).homing_endstop_triggered = false ∧
      (runTicks (start_homing s0 t0) (pre ++ hit :: (mid ++ [fin]))).enable_active = false := by
  have hs1 : (start_homing s0 t0).state = State.HOMING := by
    simp [start_homing, hidle, enable_motor]
  have hs2 : (start_homing s0 t0).homing_endstop_triggered = false := by
    simp [start_homing, hidle, enable_motor]
  have hs3 : (start_homing s0 t0).endstop = s0.endstop := by
    simp [start_homing, hidle, enable_motor]
  obtain ⟨a1, a2, a3, a4, a5⟩ :=
    homing_approach hit (hit :: (mid ++ [fin])) pre (start_homing s0 t0) hs1 hs2
      (by rw [hs3]; exact hreads)
  obtain ⟨b1, b2, b3⟩ := homing_tick_hit _ hit a1 a2 a3
  rw [dueCount_cons] at hsteps
  obtain ⟨b, c, hb, hc, htr, hfin⟩ :=
    retract_phase fin mid (update (runTicks (start_homing s0 t0) pre) hit) b1
      (by rw [b3, retract_distance_eq]; split_ifs <;> omega)
      (by rw [b3]; split_ifs at hsteps ⊢ <;> push_cast at hsteps ⊢ <;> omega)
      (by rw [b2]; exact htime)
  refine ⟨b, c, hb, hc, ?_, ?_⟩
  · rw [a4, stateTrace_cons, htr, a1, List.replicate_succ', List.append_assoc]
    rfl
  · rw [a5, runTicks_cons]
    exact hfin

theorem homing_run_witness :
    ∃ b c, 0 < b ∧ 0 < c ∧
      stateTrace (start_homing MacroRail.new 0)
          (homingApproach ++ homingHit :: (List.replicate 7266 retractTick ++ [retractTick])) =
        List.replicate (homingApproach.length + 1) State.HOMING ++
          (List.replicate b State.HOMING_RETRACT ++ List.replicate c State.IDLE) ∧
      (runTicks (start_homing MacroRail.new 0)
        (homingApproach ++ homingHit ::
          (List.replicate 7266 retractTick ++ [retractTick]))).state = State.IDLE ∧
      (runTicks (start_homing MacroRail.new 0)
        (homingApproach ++ homingHit ::
          (List.replicate 7266 retractTick ++ [retractTick]))).stepper.currentPos = 0 ∧
      (runTicks (start_homing MacroRail.new 0)
        (homingApproach ++ homingHit ::
          (List.replicate 7266 retractTick ++ [retractTick]))).current_pos = Fp.finite 0 ∧
      (runTicks (start_homing MacroRail.new 0)
        (homingApproach ++ homingHit ::
          (List.replicate 7266 retractTick ++ [retractTick]))).homing_endstop_triggered
        = false ∧
      (runTicks (start_homing MacroRail.new 0)
        (homingApproach ++ homingHit ::
          (List.replicate 7266 retractTick ++ [retractTick]))).enable_active = false :=
  homing_run MacroRail.new 0 homingApproach homingHit (List.replicate 7266 retractTick)
    retractTick rfl (by decide)
    (by
      rw [retract_distance_eq, dueCount_cons]
      unfold dueCount
      rw [List.countP_replicate]
      simp [retractTick, homingHit])
    (by
      intro i hi
      have hi' : i = retractTick := by
        rcases List.mem_append.mp hi with h | h
        · exact List.eq_of_mem_replicate h
        · exact List.mem_singleton.mp h
      subst hi'
      decide)

/-! ### Shooting runs -/

theorem runFrom_succ (ins : ℕ → TickIn) (k : ℕ) (s : MacroRail) (n : ℕ) :
    runFrom ins k s (n + 1) = update (runFrom ins k s n) (ins (k + n)) := rfl

theorem runFrom_add (ins : ℕ → TickIn) (k : ℕ) (s : MacroRail) (n m : ℕ) :
    runFrom ins k s (n + m) = runFrom ins (k + n) (runFrom ins k s n) m := by
  induction m with
  | zero => rfl
  | succ m ih =>
    rw [← Nat.add_assoc, runFrom_succ, runFrom_succ, ih, Nat.add_assoc]

theorem runFrom_one_add (ins : ℕ → TickIn) (k : ℕ) (s : MacroRail) (m : ℕ) :
    runFrom ins k s (1 + m) = runFrom ins (k + 1) (update s (ins k)) m := by
  rw [runFrom_add]
  rfl

theorem toULong_of_nonneg {d : Int} (h0 : 0 ≤ d) (h1 : d < 2 ^ 31) :
    toULong d < 2 ^ 31 := by
  unfold toULong ULONG_RANGE
  omega

/-- While the elapsed time has not passed `D`, the next tick sees it grown by what the clock
has gained. -/
theorem elapsed_step (ins : ℕ → TickIn) (hclk : ClockAdvances ins) (v D k : ℕ)
    (hD : D < 2 ^ 31) (he : usub (millis (ins k).now) v ≤ D) :
    usub (millis (ins (k + 1)).now) v + (ins k).now =
      usub (millis (ins k).now) v + (ins (k + 1)).now := by
  obtain ⟨h1, h2⟩ := hclk.1 k
  unfold usub millis ULONG_RANGE at *
  omega

/-- As long as the elapsed time has not passed `D`, it has grown by what the clock has
gained since tick `k`. -/
theorem elapsed_sum (ins : ℕ → TickIn) (hclk : ClockAdvances ins) (v D k : ℕ)
    (hD : D < 2 ^ 31) (m : ℕ) :
    (∀ j, j < m → usub (millis (ins (k + j)).now) v ≤ D) →
      usub (millis (ins (k + m)).now) v + (ins k).now =
        usub (millis (ins k).now) v + (ins (k + m)).now := by
  induction m with
  | zero => intro _; rfl
  | succ m ih =>
    intro h
    have h1 := ih (fun j hj => h j (by omega))
    have h2 := elapsed_step ins hclk v D (k + m) hD (h m (by omega))
    rw [Nat.add_assoc] at h2
    omega

/-- The clock gains any amount: after every tick there is a tick `n` ms later or more. -/
theorem clock_unbounded (ins : ℕ → TickIn) (hclk : ClockAdvances ins) (n : ℕ) :
    ∀ k, ∃ j, k ≤ j ∧ (ins k).now + n ≤ (ins j).now := by
  induction n with
  | zero => intro k; exact ⟨k, le_refl k, le_refl _⟩
  | succ n ih =>
    intro k
    obtain ⟨j, hj, hn⟩ := ih k
    obtain ⟨j2, hj2, hn2⟩ := hclk.2 j
    exact ⟨j2, by omega, by omega⟩

/-- With an advancing clock the elapsed time since any start value passes any delay below
`2^31`, and does not pass it before. -/
theorem clock_passes (ins : ℕ → TickIn) (hclk : ClockAdvances ins) (v D : ℕ)
    (hD : D < 2 ^ 31) (k : ℕ) :
    ∃ m, (∀ j, j < m → usub (millis (ins (k + j)).now) v ≤ D) ∧
      D < usub (millis (ins (k + m)).now) v := by
  have hex : ∃ m, D < usub (millis (ins (k + m)).now) v := by
    by_contra hno
    have hall : ∀ m, usub (millis (ins (k + m)).now) v ≤ D :=
      fun m => not_lt.mp (fun hlt => hno ⟨m, hlt⟩)
    obtain ⟨j, hj, hn⟩ := clock_unbounded ins hclk (D + 1) k
    obtain ⟨g, rfl⟩ := Nat.exists_eq_add_of_le hj
    have hsum := elapsed_sum ins hclk v D k hD g (fun j _ => hall j)
    have := hall g
    omega
  refine ⟨Nat.find hex, fun j hj => ?_, Nat.find_spec hex⟩
  exact not_lt.mp (Nat.find_min hex hj)

/-- A rail that a tick leaves unchanged while a timer has not passed its delay stays as it
is until a tick at which the timer has passed. -/
theorem wait_for_timer (ins : ℕ → TickIn) (hclk : ClockAdvances ins) (s : MacroRail)
    (v D : ℕ) (hD : D < 2 ^ 31)
    (hfix : ∀ i : TickIn, usub (millis i.now) v ≤ D → update s i = s) (k : ℕ) :
    ∃ m, runFrom ins k s m = s ∧ D < usub (millis (ins (k + m)).now) v := by
  obtain ⟨m, hm1, hm2⟩ := clock_passes ins hclk v D hD k
  refine ⟨m, ?_, hm2⟩
  clear hm2
  induction m with
  | zero => rfl
  | succ m ih =>
    rw [runFrom_succ, ih (fun j hj => hm1 j (by omega))]
    exact hfix _ (hm1 m (by omega))

theorem reaches_now {ins : ℕ → TickIn} {k : ℕ} {s : MacroRail} {P : MacroRail → Prop}
    (h : P s) : Reaches ins k s P := ⟨0, h⟩

theorem reaches_trans {ins : ℕ → TickIn} {k : ℕ} {s : MacroRail} {Q P : MacroRail → Prop}
    (h1 : Reaches ins k s Q) (h2 : ∀ k' s', Q s' → Reaches ins k' s' P) :
    Reaches ins k s P := by
  obtain ⟨n, hq⟩ := h1
  obtain ⟨m, hp⟩ := h2 (k + n) _ hq
  exact ⟨n + m, by rw [runFrom_add]; exact hp⟩

theorem reaches_tick {ins : ℕ → TickIn} {k : ℕ} {s : MacroRail} {P : MacroRail → Prop}
    (h : Reaches ins (k + 1) (update s (ins k)) P) : Reaches ins k s P := by
  obtain ⟨m, hp⟩ := h
  exact ⟨1 + m, by rw [runFrom_one_add]; exact hp⟩

/-- Waiting for a timer and then taking the tick at which it has passed. -/
theorem reaches_after_timer {ins : ℕ → TickIn} (hclk : ClockAdvances ins) {s : MacroRail}
    {P : MacroRail → Prop} (v D : ℕ) (hD : D < 2 ^ 31)
    (hfix : ∀ i : TickIn, usub (millis i.now) v ≤ D → update s i = s)
    (hfire : ∀ i : TickIn, D < usub (millis i.now) v → P (update s i)) (k : ℕ) :
    Reaches ins k s P := by
  obtain ⟨m, hm1, hm2⟩ := wait_for_timer ins hclk s v D hD hfix k
  refine ⟨m + 1, ?_⟩
  rw [runFrom_succ, hm1]
  exact hfire _ hm2

theorem atStage_distance {s : MacroRail} {st : Settings} {c : Int} {L : List Event} {cp : Fp}
    {x : Int} {j : Nat} (h : AtStage s st c L cp x j) : s.stepper.distanceToGo = 0 := by
  obtain ⟨_, _, h1, h2, _, _⟩ := h
  unfold AccelStepper.distanceToGo
  omega

theorem stage0_wait {s : MacroRail} {st : Settings} {c : Int} {L : List Event} {cp : Fp}
    {x : Int} (h : AtStage s st c L cp x 0) (i : TickIn)
    (ht : usub (millis i.now) s.stage_start_time ≤ toULong st.before_shoot_delay) :
    update s i = s := by
  have hd := atStage_distance h
  obtain ⟨⟨h1, h2, -, -, -⟩, -, -, -, h7, h8⟩ := h
  have ht' : ¬ toULong s.settings.before_shoot_delay < usub (millis i.now) s.stage_start_time := by
    rw [h2]; exact not_lt.mpr ht
  simp [update, handle_shooting, h1, hd, h7, h8, ht']

theorem stage0_fire {s : MacroRail} {st : Settings} {c : Int} {L : List Event} {cp : Fp}
    {x : Int} (h : AtStage s st c L cp x 0) (i : TickIn)
    (ht : toULong st.before_shoot_delay < usub (millis i.now) s.stage_start_time) :
    AtStage (update s i) st c (L ++ [Event.focus true]) cp x 1 ∧
      (update s i).stage_start_time = millis i.now := by
  have hd := atStage_distance h
  obtain ⟨⟨h1, h2, h3, h4, h5⟩, h6, h7, h8, h9, h10⟩ := h
  simp [AtStage, InRun, update, handle_shooting, h1, h2, h3, h4, h5, h6, h7, h8, h9, h10, hd, ht]

theorem stage1_wait {s : MacroRail} {st : Settings} {c : Int} {L : List Event} {cp : Fp}
    {x : Int} (h : AtStage s st c L cp x 1) (i : TickIn)
    (ht : usub (millis i.now) s.stage_start_time ≤ toULong st.focus_time) :
    update s i = s := by
  have hd := atStage_distance h
  obtain ⟨⟨h1, h2, -, -, -⟩, -, -, -, h7, h8⟩ := h
  have ht' : ¬ toULong st.focus_time < usub (millis i.now) s.stage_start_time := not_lt.mpr ht
  simp [update, handle_shooting, h1, h2, hd, h7, h8, ht']

theorem stage1_fire {s : MacroRail} {st : Settings} {c : Int} {L : List Event} {cp : Fp}
    {x : Int} (h : AtStage s st c L cp x 1) (i : TickIn)
    (ht : toULong st.focus_time < usub (millis i.now) s.stage_start_time) :
    AtStage (update s i) st c (L ++ [Event.shutter true]) cp x 2 ∧
      (update s i).stage_start_time = millis i.now := by
  have hd := atStage_distance h
  obtain ⟨⟨h1, h2, h3, h4, h5⟩, h6, h7, h8, h9, h10⟩ := h
  simp [AtStage, InRun, update, handle_shooting, h1, h2, h3, h4, h5, h6, h7, h8, h9, h10, hd, ht]

theorem stage2_wait {s : MacroRail} {st : Settings} {c : Int} {L : List Event} {cp : Fp}
    {x : Int} (h : AtStage s st c L cp x 2) (i : TickIn)
    (ht : usub (millis i.now) s.stage_start_time ≤ toULong st.release_time) :
    update s i = s := by
  have hd := atStage_distance h
  obtain ⟨⟨h1, h2, -, -, -⟩, -, -, -, h7, h8⟩ := h
  have ht' : ¬ toULong st.release_time < usub (millis i.now) s.stage_start_time :=
    not_lt.mpr ht
  simp [update, handle_shooting, h1, h2, hd, h7, h8, ht']

theorem stage2_fire {s : MacroRail} {st : Settings} {c : Int} {L : List Event} {cp : Fp}
    {x : Int} (h : AtStage s st c L cp x 2) (i : TickIn)
    (ht : toULong st.release_time < usub (millis i.now) s.stage_start_time) :
    AtStage (update s i) st (c + 1) (L ++ [Event.focus false, Event.shutter false]) cp x 3 ∧
      (update s i).stage_start_time = millis i.now := by
  have hd := atStage_distance h
  obtain ⟨⟨h1, h2, h3, h4, h5⟩, h6, h7, h8, h9, h10⟩ := h
  simp [AtStage, InRun, update, handle_shooting, h1, h2, h3, h4, h5, h6, h7, h8, h9, h10, hd, ht]

theorem stage3_wait {s : MacroRail} {st : Settings} {c : Int} {L : List Event} {cp : Fp}
    {x : Int} (h : AtStage s st c L cp x 3) (i : TickIn)
    (ht : usub (millis i.now) s.stage_start_time ≤ toULong st.after_shoot_delay) :
    update s i = s := by
  have hd := atStage_distance h
  obtain ⟨⟨h1, h2, -, -, -⟩, -, -, -, h7, h8⟩ := h
  have ht' : ¬ toULong st.after_shoot_delay < usub (millis i.now) s.stage_start_time :=
    not_lt.mpr ht
  simp [update, handle_shooting, h1, h2, hd, h7, h8, ht']

/-- Stage 3 with photos left: the tick commands the next move and returns to stage 0. -/
theorem stage3_fire_more {s : MacroRail} {st : Settings} {c : Int} {L : List Event} {cp : Fp}
    {x : Int} (h : AtStage s st c L cp x 3) (i : TickIn)
    (ht : toULong st.after_shoot_delay < usub (millis i.now) s.stage_start_time)
    (hc : c < st.total_photos) :
    Travelling (update s i) st c (L ++ [Event.moveTo (nextTarget st cp)]) cp x
        (nextTarget st cp) ∧
      (update s i).motor_enabled = false := by
  have hd := atStage_distance h
  obtain ⟨⟨h1, h2, h3, h4, h5⟩, h6, h7, h8, h9, h10⟩ := h
  simp [Travelling, InRun, update, handle_shooting, h1, h2, h3, h4, h5, h6, h7, h8, h9, h10,
    hd, ht, hc, nextTarget, enable_motor, update_motor_settings, AccelStepper.moveTo,
    AccelStepper.setMaxSpeed, AccelStepper.setAcceleration]

/-- Stage 3 with no photo left: the tick ends the run. -/
theorem stage3_fire_done {s : MacroRail} {st : Settings} {c : Int} {L : List Event} {cp : Fp}
    {x : Int} (h : AtStage s st c L cp x 3) (i : TickIn)
    (ht : toULong st.after_shoot_delay < usub (millis i.now) s.stage_start_time)
    (hc : ¬ c < st.total_photos) :
    Finished (update s i) c L := by
  have hd := atStage_distance h
  obtain ⟨⟨h1, h2, h3, h4, h5⟩, h6, h7, h8, h9, h10⟩ := h
  simp [Finished, update, handle_shooting, h1, h2, h3, h4, h5, h6, h7, h8, h9, h10,
    hd, ht, hc, disable_motor, shooting_finished_callback]

/-- One photo: from stage 0 the rail reaches stage 3 with the counter advanced by one and one
trigger cycle appended to the log. -/
theorem one_photo {ins : ℕ → TickIn} (hclk : ClockAdvances ins) {st : Settings}
    (hdel : st.delaysNonneg) {s : MacroRail} {c : Int} {L : List Event} {cp : Fp} {x : Int}
    (h : AtStage s st c L cp x 0) (k : ℕ) :
    Reaches ins k s (fun s' => AtStage s' st (c + 1) (L ++ photoCycle) cp x 3) := by
  obtain ⟨⟨b0, b1⟩, ⟨f0, f1⟩, ⟨r0, r1⟩, -⟩ := hdel
  have e0 : Reaches ins k s (fun s' => AtStage s' st c (L ++ [Event.focus true]) cp x 1) :=
    reaches_after_timer hclk s.stage_start_time (toULong st.before_shoot_delay)
      (toULong_of_nonneg b0 b1) (fun i hi => stage0_wait h i hi)
      (fun i hi => (stage0_fire h i hi).1) k
  refine reaches_trans e0 (fun k1 s1 h1 => ?_)
  have e1 : Reaches ins k1 s1
      (fun s' => AtStage s' st c (L ++ [Event.focus true] ++ [Event.shutter true]) cp x 2) :=
    reaches_after_timer hclk s1.stage_start_time (toULong st.focus_time)
      (toULong_of_nonneg f0 f1) (fun i hi => stage1_wait h1 i hi)
      (fun i hi => (stage1_fire h1 i hi).1) k1
  refine reaches_trans e1 (fun k2 s2 h2 => ?_)
  have e2 : Reaches ins k2 s2
      (fun s' => AtStage s' st (c + 1) (L ++ [Event.focus true] ++ [Event.shutter true] ++
        [Event.focus false, Event.shutter false]) cp x 3) :=
    reaches_after_timer hclk s2.stage_start_time (toULong st.release_time)
      (toULong_of_nonneg r0 r1) (fun i hi => stage2_wait h2 i hi)
      (fun i hi => (stage2_fire h2 i hi).1) k2
  refine reaches_trans e2 (fun k3 s3 h3 => reaches_now ?_)
  simpa [photoCycle] using h3

/-- A due step away from the target brings the stepper one unit closer. -/
theorem run_closer (st : AccelStepper) (h : st.distanceToGo ≠ 0) :
    ((st.run true).distanceToGo).natAbs + 1 = st.distanceToGo.natAbs := by
  rcases lt_or_gt_of_ne h with hneg | hpos
  · have := run_backward st true hneg
    have ht := run_targetPos st true
    unfold AccelStepper.distanceToGo at *
    rw [ht, this]
    simp only [if_true]
    omega
  · have := run_forward st true hpos
    have ht := run_targetPos st true
    unfold AccelStepper.distanceToGo at *
    rw [ht, this]
    simp only [if_true]
    omega

/-- A tick of a shooting run with remaining distance: the motor is switched on, the stepper
runs and the cached position is refreshed; nothing else of the run changes. -/
theorem travel_tick {s : MacroRail} {st : Settings} {c : Int} {L : List Event} {cp : Fp}
    {x target : Int} (h : Travelling s st c L cp x target) (hx : x ≠ target) (i : TickIn) :
    Travelling (update s i) st c L (positionOf (s.stepper.run i.step_due).currentPos)
        (s.stepper.run i.step_due).currentPos target ∧
      (update s i).motor_enabled = true := by
  obtain ⟨⟨h1, h2, h3, h4, h5⟩, h6, h7, h8, h9⟩ := h
  have hd : s.stepper.distanceToGo ≠ 0 := by
    unfold AccelStepper.distanceToGo
    omega
  have ht := run_targetPos s.stepper i.step_due
  by_cases hme : s.motor_enabled = true
  · simp [Travelling, InRun, update, handle_shooting, h1, h2, h3, h4, h5, h8, h9, hd, hme, ht,
      positionOf]
  · simp [Travelling, InRun, update, handle_shooting, h1, h2, h3, h4, h5, h8, h9, hd, hme, ht,
      enable_motor, positionOf]

/-- The tick after arrival: the motor is switched off and stage 0 starts. -/
theorem arrive_tick {s : MacroRail} {st : Settings} {c : Int} {L : List Event} {cp : Fp}
    {x : Int} (h : Travelling s st c L cp x x) (hme : s.motor_enabled = true) (i : TickIn) :
    AtStage (update s i) st c L cp x 0 := by
  obtain ⟨⟨h1, h2, h3, h4, h5⟩, h6, h7, h8, h9⟩ := h
  have hd : s.stepper.distanceToGo = 0 := by
    unfold AccelStepper.distanceToGo
    omega
  simp [AtStage, InRun, update, handle_shooting, h1, h2, h3, h4, h5, h6, h7, h8, h9, hd, hme,
    disable_motor]

/-- With a step due `g` ticks ahead, a travelling rail gets one step closer to its target. -/
theorem travel_one_step {ins : ℕ → TickIn} {st : Settings} {c : Int} {L : List Event}
    {target : Int} (D : ℕ) :
    ∀ (g k : ℕ) (s : MacroRail) (cp : Fp) (x : Int), (ins (k + g)).step_due = true →
      Travelling s st c L cp x target → (target - x).natAbs = D + 1 →
      Reaches ins k s (fun s' => ∃ x' : Int,
        Travelling s' st c L (positionOf x') x' target ∧
        (target - x').natAbs = D ∧ s'.motor_enabled = true) := by
  intro g
  induction g with
  | zero =>
    intro k s cp x hdue h hD
    have hx : x ≠ target := by intro hx; rw [hx] at hD; simp at hD
    obtain ⟨t1, t2⟩ := travel_tick h hx (ins k)
    refine reaches_tick (reaches_now ⟨_, t1, ?_, t2⟩)
    rw [Nat.add_zero] at hdue
    rw [hdue]
    obtain ⟨-, -, h7, h8, -⟩ := h
    have hd : s.stepper.distanceToGo ≠ 0 := by
      unfold AccelStepper.distanceToGo
      omega
    have hc := run_closer s.stepper hd
    have ht := run_targetPos s.stepper true
    unfold AccelStepper.distanceToGo at hc
    rw [ht, h7, h8] at hc
    omega
  | succ g ih =>
    intro k s cp x hdue h hD
    have hx : x ≠ target := by intro hx; rw [hx] at hD; simp at hD
    obtain ⟨t1, t2⟩ := travel_tick h hx (ins k)
    by_cases hk : (ins k).step_due = true
    · refine reaches_tick (reaches_now ⟨_, t1, ?_, t2⟩)
      rw [hk]
      obtain ⟨-, -, h7, h8, -⟩ := h
      have hd : s.stepper.distanceToGo ≠ 0 := by
        unfold AccelStepper.distanceToGo
        omega
      have hc := run_closer s.stepper hd
      have ht := run_targetPos s.stepper true
      unfold AccelStepper.distanceToGo at hc
      rw [ht, h7, h8] at hc
      omega
    · have hk' : (ins k).step_due = false := by simpa using hk
      rw [hk', run_not_due] at t1
      obtain ⟨-, -, h7, -, -⟩ := h
      rw [h7] at t1
      exact reaches_tick (ih (k + 1) _ _ x (by rw [Nat.add_assoc, Nat.add_comm 1 g]; exact hdue)
        t1 hD)

/-- A travelling rail arrives at its target, with the cached position refreshed. -/
theorem travel_arrives {ins : ℕ → TickIn} (hstep : StepsKeepComing ins) {st : Settings}
    {c : Int} {L : List Event} {target : Int} (D : ℕ) :
    ∀ (k : ℕ) (s : MacroRail) (cp : Fp) (x : Int),
      Travelling s st c L cp x target → (target - x).natAbs = D + 1 →
      Reaches ins k s (fun s' => Travelling s' st c L (positionOf target) target target ∧
        s'.motor_enabled = true) := by
  induction D with
  | zero =>
    intro k s cp x h hD
    obtain ⟨j, hj, hdue⟩ := hstep k
    obtain ⟨g, rfl⟩ := Nat.exists_eq_add_of_le hj
    refine reaches_trans (travel_one_step 0 g k s cp x hdue h hD) (fun k' s' hs' => ?_)
    obtain ⟨x', q1, q2, q3⟩ := hs'
    have hx' : x' = target := by omega
    subst hx'
    exact reaches_now ⟨q1, q3⟩
  | succ D ih =>
    intro k s cp x h hD
    obtain ⟨j, hj, hdue⟩ := hstep k
    obtain ⟨g, rfl⟩ := Nat.exists_eq_add_of_le hj
    refine reaches_trans (travel_one_step (D + 1) g k s cp x hdue h hD) (fun k' s' hs' => ?_)
    obtain ⟨x', q1, q2, q3⟩ := hs'
    exact ih k' s' _ x' q1 q2

/-- A rail in stage 0 of a run completes whatever move is pending and stands at its target,
ready for the pre-shoot delay. -/
theorem settle {ins : ℕ → TickIn} (hstep : StepsKeepComing ins) {st : Settings}
    {c : Int} {L : List Event} {s : MacroRail} {cp : Fp} {x target : Int}
    (h : Travelling s st c L cp x target) (k : ℕ) :
    Reaches ins k s (fun s' => AtStage s' st c L (cachedAfterMove cp x target) target 0) := by
  by_cases hx : target = x
  · subst hx
    simp only [cachedAfterMove, if_true]
    by_cases hme : s.motor_enabled = true
    · exact reaches_tick (reaches_now (arrive_tick h hme (ins k)))
    · obtain ⟨h1, h6, h7, h8, h9⟩ := h
      exact reaches_now ⟨h1, h6, h7, h8, by simpa using hme, h9⟩
  · simp only [cachedAfterMove, hx, if_false]
    obtain ⟨D, hD⟩ : ∃ D, (target - x).natAbs = D + 1 :=
      ⟨(target - x).natAbs - 1, by omega⟩
    refine reaches_trans (travel_arrives hstep D k s cp x h hD) (fun k' s' hs' => ?_)
    exact reaches_tick (reaches_now (arrive_tick hs'.1 hs'.2 (ins k')))

/-- From stage 0 with `r + 1` photos still to take, the run finishes with the counter at
`total_photos` and the log extended by the outputs of `r + 1` photos. -/
theorem photos_remaining {ins : ℕ → TickIn} (hclk : ClockAdvances ins)
    (hstep : StepsKeepComing ins) {st : Settings} (hdel : st.delaysNonneg) (r : ℕ) :
    ∀ (k : ℕ) (s : MacroRail) (c : Int) (L : List Event) (cp : Fp) (x : Int),
      AtStage s st c L cp x 0 → c + (r + 1 : ℕ) = st.total_photos →
      Reaches ins k s
        (fun s' => Finished s' st.total_photos (L ++ shootingLog st (r + 1) cp x)) := by
  have ha := hdel.2.2.2
  induction r with
  | zero =>
    intro k s c L cp x h hc
    refine reaches_trans (one_photo hclk hdel h k) (fun k3 s3 h3 => ?_)
    have hno : ¬ c + 1 < st.total_photos := by push_cast at hc; omega
    have hfin : c + 1 = st.total_photos := by push_cast at hc; omega
    refine reaches_after_timer hclk s3.stage_start_time (toULong st.after_shoot_delay)
      (toULong_of_nonneg ha.1 ha.2) (fun i hi => stage3_wait h3 i hi) (fun i hi => ?_) k3
    have := stage3_fire_done h3 i hi hno
    rw [hfin] at this
    simpa [shootingLog] using this
  | succ r ih =>
    intro k s c L cp x h hc
    refine reaches_trans (one_photo hclk hdel h k) (fun k3 s3 h3 => ?_)
    have hmore : c + 1 < st.total_photos := by push_cast at hc; omega
    have e3 : Reaches ins k3 s3 (fun s' =>
        Travelling s' st (c + 1) (L ++ photoCycle ++ [Event.moveTo (nextTarget st cp)]) cp x
          (nextTarget st cp)) :=
      reaches_after_timer hclk s3.stage_start_time (toULong st.after_shoot_delay)
        (toULong_of_nonneg ha.1 ha.2) (fun i hi => stage3_wait h3 i hi)
        (fun i hi => (stage3_fire_more h3 i hi hmore).1) k3
    refine reaches_trans e3 (fun k4 s4 h4 => ?_)
    refine reaches_trans (settle hstep h4 k4) (fun k5 s5 h5 => ?_)
    have := ih k5 s5 (c + 1) _ _ _ h5 (by push_cast at hc ⊢; omega)
    have hlog : L ++ shootingLog st (r + 1 + 1) cp x =
        L ++ photoCycle ++ [Event.moveTo (nextTarget st cp)] ++
          shootingLog st (r + 1) (cachedAfterMove cp x (nextTarget st cp))
            (nextTarget st cp) := by
      conv_lhs => rw [shootingLog]
      simp
    rw [hlog]
    exact this

/-- A finished run is left unchanged by further ticks. -/
theorem finished_stays {ins : ℕ → TickIn} {s : MacroRail} {c : Int} {L : List Event}
    (h : Finished s c L) (k m : ℕ) : runFrom ins k s m = s := by
  induction m with
  | zero => rfl
  | succ m ih =>
    rw [runFrom_succ, ih]
    exact idle_tick_fixed s _ h.1 h.2.1 h.2.2.1

/-- A tick leaves the photo counter as it is or advances it by exactly one. -/
theorem photo_count_step (s : MacroRail) (i : TickIn) :
    (update s i).photo_count = s.photo_count ∨
      (update s i).photo_count = s.photo_count + 1 := by
  have hs : (handle_shooting s i).photo_count = s.photo_count ∨
      (handle_shooting s i).photo_count = s.photo_count + 1 := by
    by_cases hd : s.stepper.distanceToGo = 0
    · by_cases hme : s.motor_enabled = true
      · left; simp [handle_shooting, hd, hme, disable_motor]
      · rcases hst : s.shooting_stage with _ | _ | _ | _ | n
        · left; simp only [handle_shooting, hd, hme, hst]; simp; split_ifs <;> rfl
        · left; simp only [handle_shooting, hd, hme, hst]; simp; split_ifs <;> rfl
        · simp only [handle_shooting, hd, hme, hst]; simp; split_ifs <;> simp
        · left
          simp only [handle_shooting, hd, hme, hst, shooting_finished_callback, move_to,
            disable_motor, enable_motor, update_motor_settings]
          simp
          split_ifs <;> rfl
        · left; simp [handle_shooting, hd, hme, hst]
    · left
      simp only [handle_shooting, hd, enable_motor]
      simp
      split_ifs <;> rfl
  by_cases h1 : s.state = State.SHOOTING
  · simpa [update, h1] using hs
  · left
    unfold update
    simp only [h1, if_false, complete_homing, disable_motor, enable_motor, handle_error,
      handle_idle, emergency_stop]
    split_ifs <;> rfl

/-- The outputs of `n` photos hold each trigger write `n` times and, for `n > 0`,
`n - 1` motion commands. -/
theorem shootingLog_counts (st : Settings) (n : ℕ) :
    ∀ (cp : Fp) (x : Int),
      (shootingLog st n cp x).count (Event.focus true) = n ∧
      (shootingLog st n cp x).count (Event.shutter true) = n ∧
      (shootingLog st n cp x).count (Event.focus false) = n ∧
      (shootingLog st n cp x).count (Event.shutter false) = n ∧
      ((shootingLog st n cp x).filter Event.isMove).length = n - 1 := by
  induction n with
  | zero => intro cp x; simp [shootingLog]
  | succ n ih =>
    intro cp x
    rw [shootingLog]
    by_cases hn : n = 0
    · subst hn
      simp [photoCycle, Event.isMove]
    · obtain ⟨i1, i2, i3, i4, i5⟩ :=
        ih (cachedAfterMove cp x (nextTarget st cp)) (nextTarget st cp)
      simp only [hn, if_false, List.count_append, List.count_cons, List.filter_append,
        List.length_append, List.filter_cons, i1, i2, i3, i4, i5, photoCycle]
      simp [Event.isMove]
      omega

/-- C6: for settings with `total_photos = N >= 1` and non-negative delays, a run started by
`start_shooting` from Idle with no return-to-start request, fed only ticks (no stop, and the
shooting branch never reads the endstop) whose clock advances and in which steps keep coming
due: the photo counter starts at 0 and moves in steps of one; from some tick on the rail is
Idle with the counter at N, and what the run has appended to the output log is N trigger
cycles (focus on, shutter on, both off) with a move command to the clamped
`current_pos + step_size` between two consecutive cycles, so each trigger write occurs N
times and there are N-1 moves. -/
theorem shooting_run_takes_all_photos (s0 : MacroRail) (st : Settings) (ins : ℕ → TickIn)
    (hidle : s0.state = State.IDLE) (hret : s0.returnToStartEnabled = false)
    (hN : 1 ≤ st.total_photos) (hdel : st.delaysNonneg)
    (hclk : ClockAdvances ins) (hstep : StepsKeepComing ins) :
    (start_shooting s0 st).photo_count = 0 ∧
      (∀ n, (runFrom ins 0 (start_shooting s0 st) (n + 1)).photo_count =
            (runFrom ins 0 (start_shooting s0 st) n).photo_count ∨
          (runFrom ins 0 (start_shooting s0 st) (n + 1)).photo_count =
            (runFrom ins 0 (start_shooting s0 st) n).photo_count + 1) ∧
      ∃ (n : ℕ) (run : List Event),
        run = shootingLog st st.total_photos.toNat
          (cachedAfterMove s0.current_pos s0.stepper.currentPos s0.stepper.targetPos)
          s0.stepper.targetPos ∧
        (∀ m, n ≤ m →
          (runFrom ins 0 (start_shooting s0 st) m).state = State.IDLE ∧
          (runFrom ins 0 (start_shooting s0 st) m).photo_count = st.total_photos ∧
          (runFrom ins 0 (start_shooting s0 st) m).log = s0.log ++ run) ∧
        (run.count (Event.focus true) : Int) = st.total_photos ∧
        (run.count (Event.shutter true) : Int) = st.total_photos ∧
        (run.count (Event.focus false) : Int) = st.total_photos ∧
        (run.count (Event.shutter false) : Int) = st.total_photos ∧
        ((run.filter Event.isMove).length : Int) = st.total_photos - 1 := by
  have hstart : Travelling (start_shooting s0 st) st 0 s0.log s0.current_pos
      s0.stepper.currentPos s0.stepper.targetPos := by
    simp [Travelling, InRun, start_shooting, hidle, hret, enable_motor, update_motor_settings,
      AccelStepper.setMaxSpeed, AccelStepper.setAcceleration]
  refine ⟨hstart.1.2.2.2.1, fun n => photo_count_step _ _, ?_⟩
  obtain ⟨r, hr⟩ : ∃ r : ℕ, st.total_photos.toNat = r + 1 :=
    ⟨st.total_photos.toNat - 1, by omega⟩
  have hreach : Reaches ins 0 (start_shooting s0 st) (fun s' => Finished s' st.total_photos
      (s0.log ++ shootingLog st (r + 1)
        (cachedAfterMove s0.current_pos s0.stepper.currentPos s0.stepper.targetPos)
        s0.stepper.targetPos)) :=
    reaches_trans (settle hstep hstart 0) (fun k s h =>
      photos_remaining hclk hstep hdel r k s 0 _ _ _ h (by omega))
  obtain ⟨n, hfin⟩ := hreach
  obtain ⟨c1, c2, c3, c4, c5⟩ := shootingLog_counts st (r + 1)
    (cachedAfterMove s0.current_pos s0.stepper.currentPos s0.stepper.targetPos)
    s0.stepper.targetPos
  refine ⟨n, _, rfl, ?_, ?_, ?_, ?_, ?_, ?_⟩
  · intro m hm
    obtain ⟨m', rfl⟩ := Nat.exists_eq_add_of_le hm
    rw [runFrom_add, finished_stays hfin, hr]
    exact ⟨hfin.1, hfin.2.2.2.1, hfin.2.2.2.2⟩
  · rw [hr, c1]; omega
  · rw [hr, c2]; omega
  · rw [hr, c3]; omega
  · rw [hr, c4]; omega
  · rw [hr, c5]; omega

theorem shooting_run_takes_all_photos_witness :
    ∃ n, ∀ m, n ≤ m →
      (runFrom everyTick 0 (start_shooting MacroRail.new fineStepSettings) m).state =
        State.IDLE ∧
      (runFrom everyTick 0 (start_shooting MacroRail.new fineStepSettings) m).photo_count = 3 ∧
      (runFrom everyTick 0 (start_shooting MacroRail.new fineStepSettings) m).log =
        photoCycle ++ Event.moveTo 108 :: (photoCycle ++ Event.moveTo 217 :: photoCycle) := by
  obtain ⟨n, run, hrun, hall, -⟩ :=
    (shooting_run_takes_all_photos MacroRail.new fineStepSettings everyTick rfl rfl
      (by decide) (by simp [Settings.delaysNonneg, fineStepSettings, Settings.default])
      ⟨fun k => by simp only [everyTick]; omega,
       fun k => ⟨k + 2, by omega, by simp only [everyTick]; omega⟩⟩
      (fun k => ⟨k, le_refl k, rfl⟩)).2.2
  have hlog : run =
      photoCycle ++ Event.moveTo 108 :: (photoCycle ++ Event.moveTo 217 :: photoCycle) :=
    hrun.trans (by decide!)
  refine ⟨n, fun m hm => ?_⟩
  obtain ⟨a1, a2, a3⟩ := hall m hm
  exact ⟨a1, a2, by rw [a3, hlog]; rfl⟩

/-! ### Interface operations -/

/-- C1: from every rail state, `stop()` yields state Idle with the motor-enable output
disabled and the busy flag cleared. -/
theorem stop_forces_idle (s : MacroRail) (brake : Int) :
    (stop s brake).state = State.IDLE ∧ (stop s brake).enable_active = false ∧
      (stop s brake).is_busy = false := by
  simp [stop, disable_motor]

/-- C2 as stated fails: a rail in Moving with the endstop pressed (raw and filtered) is
still Moving after the tick, not in Error. -/
theorem moving_endstop_no_error :
    movingExample.state = State.MOVING ∧ pressedTick.endstop = true ∧
      (update movingExample pressedTick).state = State.MOVING ∧
      ¬ ((update movingExample pressedTick).state = State.ERROR ∧
          (update movingExample pressedTick).enable_active = false) := by
  refine ⟨rfl, rfl, ?_, ?_⟩ <;> decide

/-- C2 amended: in Moving a tick does not read the endstop. Whatever the endstop level, the
tick gives Idle with the motor disabled when the remaining distance is 0, and otherwise
leaves the state Moving and the motor-enable output as it was; it never gives Error. -/
theorem moving_tick_ignores_endstop (s : MacroRail) (i : TickIn) (e : Bool)
    (h : s.state = State.MOVING) :
    update s { i with endstop := e } = update s i ∧
      (s.stepper.distanceToGo = 0 →
        (update s i).state = State.IDLE ∧ (update s i).enable_active = false) ∧
      (s.stepper.distanceToGo ≠ 0 →
        (update s i).state = State.MOVING ∧ (update s i).enable_active = s.enable_active) ∧
      (update s i).state ≠ State.ERROR := by
  by_cases hd : s.stepper.distanceToGo = 0 <;> simp [update, h, hd, disable_motor]

theorem moving_tick_ignores_endstop_witness :
    update movingExample { pressedTick with endstop := false } =
        update movingExample pressedTick ∧
      (update movingExample pressedTick).state ≠ State.ERROR :=
  ⟨(moving_tick_ignores_endstop movingExample pressedTick false rfl).1,
   (moving_tick_ignores_endstop movingExample pressedTick false rfl).2.2.2⟩

/-- C3 as stated fails: `stop()` called in Error leaves the rail in Idle. -/
theorem stop_leaves_error :
    errorExample.state = State.ERROR ∧ (stop errorExample 0).state = State.IDLE ∧
      (stop errorExample 0).state ≠ State.ERROR := by
  refine ⟨rfl, ?_, ?_⟩ <;> decide

/-- C3 amended: from Error, `update`, `start_homing`, `move_to` and `start_shooting` leave
the state Error for every input, `reset_emergency()` leaves it Error while the endstop is
asserted and gives Idle when it is not, and `stop()` gives Idle. -/
theorem error_exits (s : MacroRail) (h : s.state = State.ERROR) :
    (∀ i, (update s i).state = State.ERROR) ∧
      (∀ now, (start_homing s now).state = State.ERROR) ∧
      (∀ p, (move_to s p).state = State.ERROR) ∧
      (∀ st, (start_shooting s st).state = State.ERROR) ∧
      (reset_emergency s true).state = State.ERROR ∧
      (reset_emergency s false).state = State.IDLE ∧
      (∀ brake, (stop s brake).state = State.IDLE) := by
  simp [update, handle_error, start_homing, move_to, start_shooting, reset_emergency, stop,
    disable_motor, h]

theorem error_exits_witness :
    (∀ i, (update errorExample i).state = State.ERROR) ∧
      (reset_emergency errorExample false).state = State.IDLE :=
  ⟨(error_exits errorExample rfl).1, (error_exits errorExample rfl).2.2.2.2.2.1⟩

/-- C4: `reset_emergency()` turns a non-Idle state into Idle exactly when the state is Error
and the endstop is not asserted; in Error with the endstop asserted the state stays Error;
in any state other than Error the whole rail state is unchanged. -/
theorem reset_emergency_spec (s : MacroRail) (endstop : Bool) :
    ((s.state ≠ State.IDLE ∧ (reset_emergency s endstop).state = State.IDLE) ↔
        (s.state = State.ERROR ∧ endstop = false)) ∧
      (s.state = State.ERROR ∧ endstop = false →
        (reset_emergency s endstop).state = State.IDLE) ∧
      (s.state = State.ERROR ∧ endstop = true →
        (reset_emergency s endstop).state = State.ERROR) ∧
      (s.state ≠ State.ERROR → reset_emergency s endstop = s) := by
  cases endstop <;> by_cases h : s.state = State.ERROR <;> simp [reset_emergency, h]

/-- C10: a mutating call made in a state that forbids it changes nothing of the rail state:
`start_shooting` outside Idle, `move_to` outside Idle and Shooting, `start_homing` in Error. -/
theorem rejected_calls_are_noops (s : MacroRail) :
    (s.state ≠ State.IDLE → ∀ st, start_shooting s st = s) ∧
      (s.state ≠ State.IDLE ∧ s.state ≠ State.SHOOTING → ∀ p, move_to s p = s) ∧
      (s.state = State.ERROR → ∀ now, start_homing s now = s) := by
  refine ⟨fun h st => ?_, fun h p => ?_, fun h now => ?_⟩
  · simp [start_shooting, h]
  · simp [move_to, h]
  · simp [start_homing, h]

/-! ### Homing start, shooting start, stop, faults -/

/-- The relative homing move of line 295, in steps. -/
theorem homing_travel_eq :
    toLong (Fp.mul binary64 (Fp.neg MAX_TRAVEL) steps_per_mm) = -704866 := by decide!

/-- What `start_homing` does to the stepper and the state outside Error. -/
theorem start_homing_effect (s : MacroRail) (now : Nat) (h : s.state ≠ State.ERROR) :
    (start_homing s now).state = State.HOMING ∧
      (start_homing s now).homing_endstop_triggered = false ∧
      (start_homing s now).endstop = s.endstop ∧
      (start_homing s now).stepper.currentPos = s.stepper.currentPos ∧
      (start_homing s now).stepper.targetPos = s.stepper.currentPos - 704866 := by
  have ht : (start_homing s now).stepper.targetPos =
      s.stepper.currentPos + toLong (Fp.mul binary64 (Fp.neg MAX_TRAVEL) steps_per_mm) := by
    unfold start_homing
    rw [if_neg h]
    rfl
  refine ⟨?_, ?_, ?_, ?_, ?_⟩
  · simp [start_homing, h, enable_motor]
  · simp [start_homing, h, enable_motor]
  · simp [start_homing, h, enable_motor]
  · simp [start_homing, h, enable_motor, AccelStepper.move, AccelStepper.moveTo,
      AccelStepper.setMaxSpeed, AccelStepper.setAcceleration]
  · rw [ht, homing_travel_eq]
    omega

/-- C11: in Idle, `start_homing()` gives state Homing with the motor enabled, the
homing-triggered flag false, the homing start position equal to the current step position,
the position unchanged and the target `MAX_TRAVEL * steps_per_mm` truncated (704866 steps)
below the current position. -/
theorem start_homing_from_idle (s : MacroRail) (now : Nat) (h : s.state = State.IDLE) :
    (start_homing s now).state = State.HOMING ∧
      (start_homing s now).enable_active = true ∧
      (start_homing s now).homing_endstop_triggered = false ∧
      (start_homing s now).homing_start_position = s.stepper.currentPos ∧
      (start_homing s now).stepper.currentPos = s.stepper.currentPos ∧
      (start_homing s now).stepper.targetPos = s.stepper.currentPos - MAX_TRAVEL_STEPS ∧
      (start_homing s now).stepper.targetPos = s.stepper.currentPos - 704866 := by
  have hne : s.state ≠ State.ERROR := by rw [h]; decide
  obtain ⟨e1, e2, -, e4, e5⟩ := start_homing_effect s now hne
  refine ⟨e1, ?_, e2, ?_, e4, ?_, e5⟩
  · simp [start_homing, hne, enable_motor]
  · simp [start_homing, hne, enable_motor]
  · rw [e5, max_travel_steps_eq]

theorem start_homing_from_idle_witness :
    (start_homing MacroRail.new 0).state = State.HOMING ∧
      (start_homing MacroRail.new 0).stepper.targetPos =
        MacroRail.new.stepper.currentPos - 704866 :=
  ⟨(start_homing_from_idle MacroRail.new 0 rfl).1,
   (start_homing_from_idle MacroRail.new 0 rfl).2.2.2.2.2.2⟩

/-- C12: in Idle, `start_shooting(st)` gives state Shooting with the stored settings equal
to `st`, photo counter 0, stage 0, the motor enabled, the stepper's max speed and
acceleration set to `st.max_speed * steps_per_mm` (a `float` product) and `DEFAULT_ACCEL * steps_per_mm` (a
`double` product passed as `float`), and the stepper's position and target unchanged. -/
theorem start_shooting_from_idle (s : MacroRail) (st : Settings) (h : s.state = State.IDLE) :
    (start_shooting s st).state = State.SHOOTING ∧
      (start_shooting s st).settings = st ∧
      (start_shooting s st).photo_count = 0 ∧
      (start_shooting s st).shooting_stage = 0 ∧
      (start_shooting s st).enable_active = true ∧
      (start_shooting s st).stepper.maxSpeed = Fp.mul binary32 st.max_speed steps_per_mm ∧
      (start_shooting s st).stepper.acceleration =
        Fp.toFloat (Fp.mul binary64 DEFAULT_ACCEL steps_per_mm) ∧
      (start_shooting s st).stepper.currentPos = s.stepper.currentPos ∧
      (start_shooting s st).stepper.targetPos = s.stepper.targetPos := by
  simp [start_shooting, h, enable_motor, update_motor_settings, AccelStepper.setMaxSpeed,
    AccelStepper.setAcceleration]

theorem start_shooting_from_idle_witness :
    (start_shooting MacroRail.new Settings.default).state = State.SHOOTING ∧
      (start_shooting MacroRail.new Settings.default).settings = Settings.default :=
  ⟨(start_shooting_from_idle MacroRail.new Settings.default rfl).1,
   (start_shooting_from_idle MacroRail.new Settings.default rfl).2.1⟩

/-- C13 as stated fails: the library's `stop()` derives the stopping distance from the
motor's speed at the time of the call, and its own `moveTo` has changed that speed. With a
distance of 51 steps at the first call and 52 at the second, a rail moving at step 50 has
target 101 after one `stop()` and target 102 after two. -/
theorem second_stop_moves_target :
    stoppingExample.stepper.currentPos = 50 ∧
      (stop stoppingExample 51).stepper.targetPos = 101 ∧
      (stop (stop stoppingExample 51) 52).stepper.targetPos = 102 ∧
      stop (stop stoppingExample 51) 52 ≠ stop stoppingExample 51 := by
  refine ⟨rfl, ?_, ?_, ?_⟩ <;> decide!

/-- C13 amended: a second `stop()` right after the first changes nothing but the stepper's
target: the state stays Idle, the motor disabled, the busy flag clear and every other field,
the stepper's position included, as the first call left it. The target is set again by the
library and can differ; the whole state is as the first call left it when the library
applies the same stopping distance again or none, the motor being at rest. -/
theorem second_stop_changes_only_target (s : MacroRail) (brake brake2 : Int) :
    stop (stop s brake) brake2 =
        { stop s brake with
          stepper := { (stop s brake).stepper with
            targetPos := ((stop s brake).stepper.stop brake2).targetPos } } ∧
      (stop (stop s brake) brake2).state = State.IDLE ∧
      (stop (stop s brake) brake2).enable_active = false ∧
      (stop (stop s brake) brake2).is_busy = false ∧
      (stop (stop s brake) brake2).stepper.currentPos = (stop s brake).stepper.currentPos ∧
      stop (stop s brake) brake = stop s brake ∧
      stop (stop s brake) 0 = stop s brake := by
  refine ⟨?_, ?_, ?_, ?_, ?_, ?_, ?_⟩
  · by_cases hb : brake2 = 0 <;>
      simp [stop, disable_motor, AccelStepper.stop, AccelStepper.move, AccelStepper.moveTo, hb]
  · simp [stop, disable_motor]
  · simp [stop, disable_motor]
  · simp [stop, disable_motor]
  · by_cases hb : brake2 = 0 <;>
      simp [stop, disable_motor, AccelStepper.stop, AccelStepper.move, AccelStepper.moveTo, hb]
  · by_cases hb : brake = 0 <;>
      simp [stop, disable_motor, AccelStepper.stop, AccelStepper.move, AccelStepper.moveTo, hb]
  · simp [stop, disable_motor, AccelStepper.stop]

/-- C15: in Error no sequence of ticks changes anything: the state stays Error and the whole
rail state, with the motor target, the motor-enable output and the trigger outputs, is as it
was. -/
theorem error_is_terminal (s : MacroRail) (l : List TickIn) (h : s.state = State.ERROR) :
    runTicks s l = s ∧ (runTicks s l).state = State.ERROR ∧
      (runTicks s l).stepper.targetPos = s.stepper.targetPos ∧
      (runTicks s l).enable_active = s.enable_active ∧
      (runTicks s l).focus_pin = s.focus_pin ∧
      (runTicks s l).shutter_pin = s.shutter_pin := by
  have hfix : runTicks s l = s := by
    induction l with
    | nil => rfl
    | cons i rest ih =>
      have hu : update s i = s := by simp [update, h, handle_error]
      rw [runTicks_cons, hu, ih]
  rw [hfix]
  exact ⟨rfl, h, rfl, rfl, rfl, rfl⟩

theorem error_is_terminal_witness :
    runTicks errorExample [pressedTick, quietTick, stepTick] = errorExample :=
  (error_is_terminal errorExample [pressedTick, quietTick, stepTick] rfl).1

/-- C19: in HomingRetract a tick with remaining distance 0 sets the step position and the
cached position to 0, clears the homing-triggered flag and the busy flag, disables the motor
and gives state Idle, for every clock value of the tick. -/
theorem retract_completion (s : MacroRail) (i : TickIn)
    (h : s.state = State.HOMING_RETRACT) (hd : s.stepper.distanceToGo = 0) :
    (update s i).stepper.currentPos = 0 ∧ (update s i).current_pos = Fp.finite 0 ∧
      (update s i).homing_endstop_triggered = false ∧ (update s i).is_busy = false ∧
      (update s i).enable_active = false ∧ (update s i).state = State.IDLE := by
  obtain ⟨d1, d2, d3, d4, d5, d6⟩ := retract_tick_done s i h hd
  exact ⟨d2, d3, d4, d6, d5, d1⟩

theorem retract_completion_witness :
    (update retractDoneExample { pressedTick with now := 10 ^ 9 }).state = State.IDLE ∧
      (update retractDoneExample { pressedTick with now := 10 ^ 9 }).stepper.currentPos = 0 :=
  ⟨(retract_completion retractDoneExample { pressedTick with now := 10 ^ 9 } rfl rfl).2.2.2.2.2,
   (retract_completion retractDoneExample { pressedTick with now := 10 ^ 9 } rfl rfl).1⟩

/-- C20: in HomingRetract with remaining distance not 0, a tick at clock value `now` gives
Error with the motor disabled when `now - homing_retract_start` (32-bit unsigned) exceeds
60000 ms and otherwise leaves the state HomingRetract; it never gives Idle. -/
theorem retract_watchdog (s : MacroRail) (i : TickIn)
    (h : s.state = State.HOMING_RETRACT) (hd : s.stepper.distanceToGo ≠ 0) :
    (60000 < usub (millis i.now) s.homing_retract_start →
        (update s i).state = State.ERROR ∧ (update s i).enable_active = false) ∧
      (usub (millis i.now) s.homing_retract_start ≤ 60000 →
        (update s i).state = State.HOMING_RETRACT) ∧
      (update s i).state ≠ State.IDLE := by
  by_cases ht : 60000 < usub (millis i.now) s.homing_retract_start
  · simp [update, h, hd, ht, disable_motor]
  · simp [update, h, hd, ht, not_lt.mp ht]

theorem retract_watchdog_witness :
    (update retractingExample { quietTick with now := 60001 }).state = State.ERROR ∧
      (update retractingExample quietTick).state = State.HOMING_RETRACT :=
  ⟨((retract_watchdog retractingExample { quietTick with now := 60001 } rfl
      (by decide)).1 (by decide)).1,
   (retract_watchdog retractingExample quietTick rfl (by decide)).2.1 (by decide)⟩

/-! ### Ticks in Shooting and Homing; the settings -/

/-- The state after a tick in Shooting is Shooting, Idle or Moving. -/
theorem handle_shooting_state (s : MacroRail) (i : TickIn) (h : s.state = State.SHOOTING) :
    (handle_shooting s i).state = State.SHOOTING ∨ (handle_shooting s i).state = State.IDLE ∨
      (handle_shooting s i).state = State.MOVING := by
  by_cases hd : s.stepper.distanceToGo = 0
  · by_cases hme : s.motor_enabled = true
    · left; simp [handle_shooting, hd, hme, disable_motor, h]
    · rcases hst : s.shooting_stage with _ | _ | _ | _ | n
      · left; simp only [handle_shooting, hd, hme, hst]; simp; split_ifs <;> exact h
      · left; simp only [handle_shooting, hd, hme, hst]; simp; split_ifs <;> exact h
      · left; simp only [handle_shooting, hd, hme, hst]; simp; split_ifs <;> exact h
      · simp only [handle_shooting, hd, hme, hst, shooting_finished_callback, move_to,
          disable_motor, enable_motor, update_motor_settings]
        simp
        split_ifs <;> simp [h]
      · left; simp [handle_shooting, hd, hme, hst, h]
  · left
    simp only [handle_shooting, hd, enable_motor]
    simp
    split_ifs <;> exact h

/-- C16 as stated fails: a rail in Shooting, stage Focusing, is still in Shooting after a
tick with the endstop pressed, and its motor-enable output is still active. -/
theorem shooting_endstop_no_error :
    focusingExample.state = State.SHOOTING ∧ pressedTick.endstop = true ∧
      (update focusingExample pressedTick).state = State.SHOOTING ∧
      (update focusingExample pressedTick).enable_active = true ∧
      ¬ ((update focusingExample pressedTick).state = State.ERROR ∧
          (update focusingExample pressedTick).enable_active = false) := by
  refine ⟨rfl, rfl, ?_, ?_, ?_⟩ <;> decide

/-- C16 amended: in Shooting, in any stage and whether or not a move is in progress, a tick
does not read the endstop: its result is the same whatever the endstop level, and the
resulting state is Shooting, Idle or Moving, never Error. -/
theorem shooting_tick_ignores_endstop (s : MacroRail) (i : TickIn) (e : Bool)
    (h : s.state = State.SHOOTING) :
    update s { i with endstop := e } = update s i ∧
      ((update s i).state = State.SHOOTING ∨ (update s i).state = State.IDLE ∨
        (update s i).state = State.MOVING) ∧
      (update s i).state ≠ State.ERROR := by
  have hu : ∀ j : TickIn, update s j = handle_shooting s j := by
    intro j; simp [update, h]
  have hs := handle_shooting_state s i h
  refine ⟨?_, ?_, ?_⟩
  · rw [hu, hu]; rfl
  · rw [hu]; exact hs
  · rw [hu]
    rcases hs with hs | hs | hs <;> rw [hs] <;> decide

theorem shooting_tick_ignores_endstop_witness :
    update focusingExample { pressedTick with endstop := false } =
        update focusingExample pressedTick ∧
      (update focusingExample pressedTick).state ≠ State.ERROR :=
  ⟨(shooting_tick_ignores_endstop focusingExample pressedTick false rfl).1,
   (shooting_tick_ignores_endstop focusingExample pressedTick false rfl).2.2⟩

/-- A tick never writes the settings. -/
theorem update_settings (s : MacroRail) (i : TickIn) : (update s i).settings = s.settings := by
  have hs : (handle_shooting s i).settings = s.settings := by
    by_cases hd : s.stepper.distanceToGo = 0
    · by_cases hme : s.motor_enabled = true
      · simp [handle_shooting, hd, hme, disable_motor]
      · rcases hst : s.shooting_stage with _ | _ | _ | _ | n
        · simp only [handle_shooting, hd, hme, hst]; simp; split_ifs <;> rfl
        · simp only [handle_shooting, hd, hme, hst]; simp; split_ifs <;> rfl
        · simp only [handle_shooting, hd, hme, hst]; simp; split_ifs <;> rfl
        · simp only [handle_shooting, hd, hme, hst, shooting_finished_callback, move_to,
            disable_motor, enable_motor, update_motor_settings]
          simp
          split_ifs <;> rfl
        · simp [handle_shooting, hd, hme, hst]
    · simp only [handle_shooting, hd, enable_motor]
      simp
      split_ifs <;> rfl
  by_cases h1 : s.state = State.SHOOTING
  · simpa [update, h1] using hs
  · unfold update
    simp only [h1, if_false, complete_homing, disable_motor, enable_motor, handle_error,
      handle_idle, emergency_stop]
    split_ifs <;> rfl

theorem runTicks_settings (l : List TickIn) :
    ∀ s : MacroRail, (runTicks s l).settings = s.settings := by
  induction l with
  | nil => intro s; rfl
  | cons i rest ih => intro s; rw [runTicks_cons, ih, update_settings]

/-- C17: the stored settings are written only by a `start_shooting` call accepted in Idle.
Every tick in any state, `start_homing`, `move_to`, `stop`, `reset_emergency` and a rejected
`start_shooting` leave them unchanged; after an accepted `start_shooting(st)` they equal `st`
and stay equal to `st` through every sequence of ticks. -/
theorem settings_frozen (s : MacroRail) :
    (∀ i, (update s i).settings = s.settings) ∧
      (∀ now, (start_homing s now).settings = s.settings) ∧
      (∀ p, (move_to s p).settings = s.settings) ∧
      (∀ brake, (stop s brake).settings = s.settings) ∧
      (∀ e, (reset_emergency s e).settings = s.settings) ∧
      (∀ st, s.state ≠ State.IDLE → (start_shooting s st).settings = s.settings) ∧
      (∀ st, s.state = State.IDLE → (start_shooting s st).settings = st ∧
        ∀ l, (runTicks (start_shooting s st) l).settings = st) := by
  refine ⟨update_settings s, fun now => ?_, fun p => ?_, fun brake => ?_, fun e => ?_,
    fun st h => ?_, fun st h => ?_⟩
  · unfold start_homing; split_ifs <;> rfl
  · unfold move_to; split_ifs <;> rfl
  · rfl
  · unfold reset_emergency; split_ifs <;> rfl
  · simp [start_shooting, h]
  · have h0 : (start_shooting s st).settings = st := by
      simp [start_shooting, h, enable_motor, update_motor_settings]
    exact ⟨h0, fun l => by rw [runTicks_settings, h0]⟩

/-- The tick of the homing run in which the filtered endstop first reads pressed. -/
theorem homing_tick_hit_full (s : MacroRail) (i : TickIn) (h : s.state = State.HOMING)
    (htrig : s.homing_endstop_triggered = false)
    (hc : (check_endstop s.endstop i.endstop i.now).2 = true) :
    (update s i).state = State.HOMING_RETRACT ∧
      (update s i).homing_endstop_triggered = true ∧
      (update s i).homing_retract_start = millis i.settled ∧
      (update s i).enable_active = true ∧
      (update s i).stepper.targetPos = 7266 ∧
      (update s i).stepper.currentPos = (if i.step_due = true then 1 else 0) := by
  have hpos : (0 : Int) < toLong (Fp.mul binary32 (Fp.finite 1) steps_per_mm) := by
    have := retract_distance_eq
    unfold retract_distance at this
    omega
  have hst : (update s i).stepper =
      (((((s.stepper.setMaxSpeed
        (Fp.mul binary32 s.settings.max_speed steps_per_mm)).setAcceleration
        (Fp.toFloat (Fp.mul binary64 DEFAULT_ACCEL steps_per_mm))).setCurrentPosition 0).moveTo
          (toLong (Fp.mul binary32 (Fp.finite 1) steps_per_mm))).run i.step_due) := by
    simp [update, h, hc, htrig, complete_homing, enable_motor, disable_motor]
  refine ⟨?_, ?_, ?_, ?_, ?_, ?_⟩
  · simp [update, h, hc, htrig, complete_homing, enable_motor, disable_motor]
  · simp [update, h, hc, htrig, complete_homing, enable_motor, disable_motor]
  · simp [update, h, hc, htrig, complete_homing, enable_motor, disable_motor]
  · simp [update, h, hc, htrig, complete_homing, enable_motor, disable_motor]
  · rw [hst, run_targetPos]
    have := retract_distance_eq
    unfold retract_distance at this
    simpa [AccelStepper.moveTo] using this
  · rw [hst, run_forward]
    · simp [AccelStepper.moveTo, AccelStepper.setCurrentPosition]
    · simpa [AccelStepper.distanceToGo, AccelStepper.moveTo, AccelStepper.setCurrentPosition]
        using hpos

/-- C18 as stated fails: when a step is due in the tick that handles the trigger, the
`run()` call that ends the tick already takes the first retract step, so the step position
after the tick is 1, not 0. -/
theorem homing_trigger_position_one :
    homingExample.state = State.HOMING ∧ homingExample.homing_endstop_triggered = false ∧
      (check_endstop homingExample.endstop pressedTick.endstop pressedTick.now).2 = true ∧
      (update homingExample pressedTick).state = State.HOMING_RETRACT ∧
      (update homingExample pressedTick).stepper.currentPos = 1 ∧
      (update homingExample pressedTick).stepper.currentPos ≠ 0 := by
  have hc : (check_endstop homingExample.endstop pressedTick.endstop pressedTick.now).2 = true := by
    decide
  obtain ⟨e1, -, -, -, -, e6⟩ := homing_tick_hit_full homingExample pressedTick rfl rfl hc
  have e6' : (update homingExample pressedTick).stepper.currentPos = 1 := by
    rw [e6]; rfl
  exact ⟨rfl, rfl, hc, e1, e6', by rw [e6']; decide⟩

/-- C18 amended: in Homing with the homing-triggered flag false, a tick in which the filtered
endstop reads asserted gives HomingRetract with the flag set, the retract start time set to
the clock read after the settle pause, the motor enabled, the step position re-zeroed to 0
and the target set to 7266 steps; the `run()` that ends the same tick then takes the first
retract step if one is due, so the position after the tick is 0 or 1. With the flag already
set the tick only advances the endstop filter and runs the stepper. -/
theorem homing_trigger_tick (s : MacroRail) (i : TickIn) (h : s.state = State.HOMING) :
    (s.homing_endstop_triggered = false →
        (check_endstop s.endstop i.endstop i.now).2 = true →
        (update s i).state = State.HOMING_RETRACT ∧
          (update s i).homing_endstop_triggered = true ∧
          (update s i).homing_retract_start = millis i.settled ∧
          (update s i).enable_active = true ∧
          (update s i).stepper.targetPos = 7266 ∧
          (update s i).stepper.currentPos = (if i.step_due = true then 1 else 0)) ∧
      (s.homing_endstop_triggered = true →
        update s i = { s with endstop := (check_endstop s.endstop i.endstop i.now).1,
                              stepper := s.stepper.run i.step_due }) := by
  refine ⟨fun htrig hc => homing_tick_hit_full s i h htrig hc, fun htrig => ?_⟩
  simp [update, h, htrig]

theorem homing_trigger_tick_witness :
    (update homingExample pressedTick).state = State.HOMING_RETRACT ∧
      (update homingExample pressedTick).stepper.targetPos = 7266 ∧
      (update homingExample { pressedTick with step_due := false }).stepper.currentPos = 0 :=
  ⟨((homing_trigger_tick homingExample pressedTick rfl).1 rfl (by decide)).1,
   ((homing_trigger_tick homingExample pressedTick rfl).1 rfl (by decide)).2.2.2.2.1,
   ((homing_trigger_tick homingExample { pressedTick with step_due := false } rfl).1 rfl
      (by decide)).2.2.2.2.2⟩

/-! ### Travel limits -/

theorem round_ne_nan (f : Format) (q : ℚ) : Fp.round f q ≠ Fp.nan := by
  unfold Fp.round
  split_ifs <;> simp

/-- The position derived from a step count is never NaN. -/
theorem positionOf_ne_nan (n : Int) : positionOf n ≠ Fp.nan := by
  unfold positionOf
  rw [steps_per_mm_eq]
  have hne : ¬ ((14882133 : ℚ) / 2048 = 0) := by norm_num
  rcases h : Fp.ofInt binary32 n with q | b | _
  · simp only [Fp.div, hne, if_false]
    exact round_ne_nan _ _
  · simp [Fp.div]
  · exact absurd h (round_ne_nan _ _)

theorem add_number_ne_nan (q : ℚ) (b : Fp) (hb : b ≠ Fp.nan) :
    Fp.add binary32 (Fp.finite q) b ≠ Fp.nan := by
  cases b with
  | finite r => exact round_ne_nan _ _
  | inf n => simp [Fp.add]
  | nan => exact absurd rfl hb

theorem run_in_travel (st : AccelStepper) (due : Bool) (h : StepperInTravel st) :
    StepperInTravel (st.run due) := by
  obtain ⟨h1, h2, h3, h4⟩ := h
  have ht := run_targetPos st due
  have hc : (st.run due).currentPos = st.currentPos ∨
      (0 < st.distanceToGo ∧ (st.run due).currentPos = st.currentPos + 1) ∨
      (st.distanceToGo < 0 ∧ (st.run due).currentPos = st.currentPos - 1) := by
    unfold AccelStepper.run
    split_ifs with a b c
    · exact Or.inr (Or.inl ⟨b, rfl⟩)
    · exact Or.inr (Or.inr ⟨c, rfl⟩)
    · exact Or.inl rfl
    · exact Or.inl rfl
  unfold AccelStepper.distanceToGo at hc
  refine ⟨?_, ?_, by rw [ht]; exact h3, by rw [ht]; exact h4⟩ <;>
    rcases hc with hc | ⟨hd, hc⟩ | ⟨hd, hc⟩ <;> rw [hc] <;> omega

theorem handle_shooting_in_travel (s : MacroRail) (i : TickIn)
    (h : StepperInTravel s.stepper) (hcp : ∃ q, s.current_pos = Fp.finite q)
    (hstep : s.settings.step_size ≠ Fp.nan) (hsp : s.startPosition ≠ Fp.nan) :
    StepperInTravel (handle_shooting s i).stepper := by
  have hr := run_in_travel s.stepper i.step_due h
  have hnext := clamped_target_in_travel (Fp.add binary32 s.current_pos s.settings.step_size)
    (by obtain ⟨q, hq⟩ := hcp; rw [hq]; exact add_number_ne_nan q _ hstep)
  have hstart := clamped_target_in_travel s.startPosition hsp
  by_cases hd : s.stepper.distanceToGo = 0
  · by_cases hme : s.motor_enabled = true
    · simpa [handle_shooting, hd, hme, disable_motor] using h
    · rcases hst : s.shooting_stage with _ | _ | _ | _ | n
      · simp only [handle_shooting, hd, hme, hst]; simp; split_ifs <;> exact h
      · simp only [handle_shooting, hd, hme, hst]; simp; split_ifs <;> exact h
      · simp only [handle_shooting, hd, hme, hst]; simp; split_ifs <;> exact h
      · simp only [handle_shooting, hd, hme, hst, shooting_finished_callback, move_to,
          disable_motor, enable_motor, update_motor_settings, AccelStepper.setMaxSpeed,
          AccelStepper.setAcceleration]
        simp
        split_ifs
        · exact ⟨h.1, h.2.1, hnext.1, hnext.2⟩
        · exact ⟨h.1, h.2.1, hstart.1, hstart.2⟩
        · exact h
        · exact h
      · simpa [handle_shooting, hd, hme, hst] using h
  · simp only [handle_shooting, hd, enable_motor]
    simp
    split_ifs <;> exact hr

/-- A tick leaves the recorded start position as it is. -/
theorem update_startPosition (s : MacroRail) (i : TickIn) :
    (update s i).startPosition = s.startPosition := by
  have hs : (handle_shooting s i).startPosition = s.startPosition := by
    by_cases hd : s.stepper.distanceToGo = 0
    · by_cases hme : s.motor_enabled = true
      · simp [handle_shooting, hd, hme, disable_motor]
      · rcases hst : s.shooting_stage with _ | _ | _ | _ | n
        · simp only [handle_shooting, hd, hme, hst]; simp; split_ifs <;> rfl
        · simp only [handle_shooting, hd, hme, hst]; simp; split_ifs <;> rfl
        · simp only [handle_shooting, hd, hme, hst]; simp; split_ifs <;> rfl
        · simp only [handle_shooting, hd, hme, hst, shooting_finished_callback, move_to,
            disable_motor, enable_motor, update_motor_settings]
          simp
          split_ifs <;> rfl
        · simp [handle_shooting, hd, hme, hst]
    · simp only [handle_shooting, hd, enable_motor]
      simp
      split_ifs <;> rfl
  by_cases h1 : s.state = State.SHOOTING
  · simpa [update, h1] using hs
  · unfold update
    simp only [h1, if_false, complete_homing, disable_motor, enable_motor, handle_error,
      handle_idle, emergency_stop]
    split_ifs <;> rfl

/-- In Shooting a tick keeps the cached position or refreshes it from the step count. -/
theorem handle_shooting_current_pos (s : MacroRail) (i : TickIn) :
    (handle_shooting s i).current_pos = s.current_pos ∨
      (handle_shooting s i).current_pos = positionOf (handle_shooting s i).stepper.currentPos := by
  by_cases hd : s.stepper.distanceToGo = 0
  · left
    by_cases hme : s.motor_enabled = true
    · simp [handle_shooting, hd, hme, disable_motor]
    · rcases hst : s.shooting_stage with _ | _ | _ | _ | n
      · simp only [handle_shooting, hd, hme, hst]; simp; split_ifs <;> rfl
      · simp only [handle_shooting, hd, hme, hst]; simp; split_ifs <;> rfl
      · simp only [handle_shooting, hd, hme, hst]; simp; split_ifs <;> rfl
      · simp only [handle_shooting, hd, hme, hst, shooting_finished_callback, move_to,
          disable_motor, enable_motor, update_motor_settings]
        simp
        split_ifs <;> rfl
      · simp [handle_shooting, hd, hme, hst]
  · right
    by_cases hme : s.motor_enabled = true <;>
      simp [handle_shooting, hd, hme, enable_motor, positionOf]

/-- A tick outside a homing run keeps the rail outside a homing run and within travel. -/
theorem update_in_travel (s : MacroRail) (i : TickIn) (h : InTravel s) :
    InTravel (update s i) := by
  obtain ⟨hst, hstate, hcp, hsp, hstep⟩ := h
  have hsp' : (update s i).startPosition ≠ Fp.nan := by rw [update_startPosition]; exact hsp
  rcases hstate with hs | hs | hs | hs
  · have hu : update s i = { handle_idle s with is_busy := false } := by
      simp [update, hs]
    rw [hu]
    exact ⟨hst, Or.inl hs, hcp, hsp,
      fun h => absurd ((show s.state = State.SHOOTING from h).symm.trans hs) (by decide)⟩
  · by_cases hd : s.stepper.distanceToGo = 0
    · have hu : update s i =
          { disable_motor { s with state := State.IDLE } with is_busy := false } := by
        simp [update, hs, hd]
      rw [hu]
      exact ⟨hst, Or.inl rfl, hcp, hsp,
        fun h => absurd (show State.IDLE = State.SHOOTING from h) (by decide)⟩
    · have hu : (update s i).stepper = s.stepper.run i.step_due ∧
          (update s i).state = State.MOVING ∧
          (update s i).current_pos = positionOf (s.stepper.run i.step_due).currentPos := by
        simp [update, hs, hd, positionOf]
      have hrun := run_in_travel s.stepper i.step_due hst
      refine ⟨by rw [hu.1]; exact hrun, Or.inr (Or.inl hu.2.1), ?_, hsp', ?_⟩
      · rw [hu.2.2]
        exact cached_position_finite hrun.1 hrun.2.1
      · intro h
        rw [hu.2.1] at h
        exact absurd h (by decide)
  · have hu : update s i = handle_shooting s i := by simp [update, hs]
    have hin := handle_shooting_in_travel s i hst hcp (hstep hs) hsp
    refine ⟨by rw [hu]; exact hin, ?_, ?_, hsp', ?_⟩
    · rw [hu]
      rcases handle_shooting_state s i hs with h1 | h1 | h1
      · exact Or.inr (Or.inr (Or.inl h1))
      · exact Or.inl h1
      · exact Or.inr (Or.inl h1)
    · rw [hu]
      rcases handle_shooting_current_pos s i with h1 | h1
      · rw [h1]; exact hcp
      · rw [h1]; exact cached_position_finite hin.1 hin.2.1
    · intro _
      rw [update_settings]
      exact hstep hs
  · have hu : update s i = s := by simp [update, hs, handle_error]
    rw [hu]
    exact ⟨hst, Or.inr (Or.inr (Or.inr hs)), hcp, hsp, hstep⟩

/-- The `/start` handler records the current position and the request flag and then calls
`start_shooting` with the settings it has assembled. -/
theorem handle_start_eq (s : MacroRail) (q : StartRequest) :
    ∃ (st : Settings) (b : Bool), handle_start s q =
      start_shooting { s with returnToStartEnabled := b,
                              startPosition := positionOf s.stepper.currentPos } st := by
  unfold handle_start
  cases h : q.return_to_start with
  | none => exact ⟨_, false, rfl⟩
  | some b => exact ⟨_, b, rfl⟩

/-- Every call that satisfies `keepsTravel` keeps the rail outside a homing run and within
travel. -/
theorem apply_in_travel (s : MacroRail) (c : Call) (h : InTravel s)
    (hc : c.keepsTravel s) : InTravel (c.apply s) := by
  cases c with
  | op o =>
    cases o with
    | update i => exact update_in_travel s i h
    | start_homing now => exact absurd hc id
    | move_to position =>
      obtain ⟨hst, hstate, hcp, hsp, hstep⟩ := h
      show InTravel (move_to s position)
      unfold move_to
      split_ifs with hno
      · exact ⟨hst, hstate, hcp, hsp, hstep⟩
      · have hacc : s.state = State.IDLE ∨ s.state = State.SHOOTING := by
          by_contra hcon
          exact hno ⟨fun h1 => hcon (Or.inl h1), fun h2 => hcon (Or.inr h2)⟩
        have hb := clamped_target_in_travel position (hc hacc)
        exact ⟨⟨hst.1, hst.2.1, hb.1, hb.2⟩, Or.inr (Or.inl rfl), hcp, hsp,
          fun h => absurd (show State.MOVING = State.SHOOTING from h) (by decide)⟩
    | start_shooting st =>
      obtain ⟨hst, hstate, hcp, hsp, hstep⟩ := h
      show InTravel (start_shooting s st)
      unfold start_shooting
      split_ifs with hno
      · exact ⟨hst, hstate, hcp, hsp, hstep⟩
      · exact ⟨hst, Or.inr (Or.inr (Or.inl rfl)), hcp, hsp, fun _ => hc (not_not.mp hno)⟩
    | stop brake =>
      obtain ⟨hst, -, hcp, hsp, -⟩ := h
      obtain ⟨hb0, hb1⟩ := hc
      show InTravel (stop s brake)
      refine ⟨?_, Or.inl rfl, hcp, hsp,
        fun h => absurd (show State.IDLE = State.SHOOTING from h) (by decide)⟩
      show StepperInTravel (s.stepper.stop brake)
      unfold AccelStepper.stop
      split_ifs
      · exact hst
      · exact ⟨hst.1, hst.2.1, hb0, hb1⟩
    | reset_emergency endstop =>
      obtain ⟨hst, hstate, hcp, hsp, hstep⟩ := h
      show InTravel (reset_emergency s endstop)
      unfold reset_emergency
      split_ifs with hr
      · exact ⟨hst, Or.inl rfl, hcp, hsp,
          fun h => absurd (show State.IDLE = State.SHOOTING from h) (by decide)⟩
      · exact ⟨hst, hstate, hcp, hsp, hstep⟩
  | start q =>
    obtain ⟨hst, hstate, hcp, hsp, hstep⟩ := h
    have hc' : s.state = State.IDLE → (handle_start s q).settings.step_size ≠ Fp.nan := hc
    show InTravel (handle_start s q)
    obtain ⟨st, b, he⟩ := handle_start_eq s q
    rw [he] at hc' ⊢
    unfold start_shooting at hc' ⊢
    split_ifs at hc' ⊢ with hno
    · exact ⟨hst, hstate, hcp, positionOf_ne_nan _, hstep⟩
    · exact ⟨hst, Or.inr (Or.inr (Or.inl rfl)), hcp, positionOf_ne_nan _,
        fun _ => hc' (not_not.mp hno)⟩

theorem runCalls_in_travel (calls : List Call) :
    ∀ s : MacroRail, InTravel s → keepTravel s calls → InTravel (runCalls s calls) := by
  induction calls with
  | nil => intro s h _; exact h
  | cons c rest ih =>
    intro s h hk
    exact ih (c.apply s) (apply_in_travel s c h hk.1) hk.2

/-- No call makes the recorded start position NaN. -/
theorem apply_start_number (s : MacroRail) (c : Call) (h : s.startPosition ≠ Fp.nan) :
    (c.apply s).startPosition ≠ Fp.nan := by
  cases c with
  | op o =>
    cases o with
    | update i => show (update s i).startPosition ≠ Fp.nan; rw [update_startPosition]; exact h
    | start_homing now =>
      show (start_homing s now).startPosition ≠ Fp.nan
      unfold start_homing; split_ifs <;> exact h
    | move_to position =>
      show (move_to s position).startPosition ≠ Fp.nan
      unfold move_to; split_ifs <;> exact h
    | start_shooting st =>
      show (start_shooting s st).startPosition ≠ Fp.nan
      unfold start_shooting; split_ifs <;> exact h
    | stop brake => exact h
    | reset_emergency endstop =>
      show (reset_emergency s endstop).startPosition ≠ Fp.nan
      unfold reset_emergency; split_ifs <;> exact h
  | start q =>
    show (handle_start s q).startPosition ≠ Fp.nan
    obtain ⟨st, b, he⟩ := handle_start_eq s q
    rw [he]
    unfold start_shooting
    split_ifs <;> exact positionOf_ne_nan _

/-- In every state the web handlers can bring the constructed rail to, the recorded start
position is not NaN. -/
theorem runCalls_start_number (calls : List Call) :
    ∀ s : MacroRail, s.startPosition ≠ Fp.nan → (runCalls s calls).startPosition ≠ Fp.nan := by
  induction calls with
  | nil => intro s h; exact h
  | cons c rest ih => intro s h; exact ih (c.apply s) (apply_start_number s c h)

/-- The rail right after the retract has completed is Idle at step 0 with target 0. -/
theorem homed_in_travel (s : MacroRail) (i : TickIn) (h : s.state = State.HOMING_RETRACT)
    (hd : s.stepper.distanceToGo = 0) (hsp : s.startPosition ≠ Fp.nan) :
    InTravel (update s i) ∧ (update s i).stepper.currentPos = 0 ∧
      (update s i).stepper.targetPos = 0 ∧ (update s i).endstop = s.endstop := by
  have hd' : s.stepper.targetPos - s.stepper.currentPos = 0 := hd
  have hm : (0 : Int) ≤ MAX_TRAVEL_STEPS := by rw [max_travel_steps_eq]; decide
  obtain ⟨d1, hc, d3, -, -, -⟩ := retract_tick_done s i h hd
  have ht : (update s i).stepper.targetPos = 0 := by
    simp [update, h, hd', disable_motor, AccelStepper.run, AccelStepper.setCurrentPosition,
      AccelStepper.distanceToGo]
  have he : (update s i).endstop = s.endstop := by
    simp [update, h, hd, disable_motor]
  refine ⟨⟨⟨?_, ?_, ?_, ?_⟩, Or.inl d1, ⟨0, d3⟩, ?_, ?_⟩, hc, ht, he⟩
  · rw [hc]
  · rw [hc]; exact hm
  · rw [ht]
  · rw [ht]; exact hm
  · rw [update_startPosition]; exact hsp
  · intro hsh
    rw [d1] at hsh
    exact absurd hsh (by decide)

theorem runOps_append (a b : List Op) :
    ∀ s : MacroRail, runOps s (a ++ b) = runOps (runOps s a) b := by
  induction a with
  | nil => intro s; rfl
  | cons o rest ih => intro s; exact ih (o.apply s)

theorem runOps_updates (l : List TickIn) :
    ∀ s : MacroRail, runOps s (l.map Op.update) = runTicks s l := by
  induction l with
  | nil => intro s; rfl
  | cons i rest ih => intro s; exact ih (update s i)

/-- In Moving or Shooting with the target not reached, a tick with a step due steps the
motor and keeps the state. -/
theorem step_toward (s : MacroRail) (i : TickIn) (hi : i.step_due = true)
    (hs : s.state = State.MOVING ∨ s.state = State.SHOOTING)
    (hd : s.stepper.distanceToGo ≠ 0) :
    (update s i).state = s.state ∧ (update s i).stepper = s.stepper.run true := by
  rcases hs with h | h
  · simp [update, h, hd, hi]
  · by_cases hme : s.motor_enabled = true <;>
      simp [update, handle_shooting, h, hd, hme, hi, enable_motor]

/-- With the target `n` steps or more ahead, `n` ticks with a step due advance the motor by
`n` steps. -/
theorem steps_up (n : ℕ) :
    ∀ (s : MacroRail) (i : TickIn), i.step_due = true →
      (s.state = State.MOVING ∨ s.state = State.SHOOTING) →
      s.stepper.currentPos + n ≤ s.stepper.targetPos →
      (runTicks s (List.replicate n i)).state = s.state ∧
        (runTicks s (List.replicate n i)).stepper.currentPos = s.stepper.currentPos + n ∧
        (runTicks s (List.replicate n i)).stepper.targetPos = s.stepper.targetPos := by
  induction n with
  | zero => intro s i _ _ _; simp [runTicks]
  | succ n ih =>
    intro s i hi hs hle
    push_cast at hle
    have hpos : 0 < s.stepper.distanceToGo := by
      unfold AccelStepper.distanceToGo; omega
    obtain ⟨u1, u2⟩ := step_toward s i hi hs (ne_of_gt hpos)
    have hc : (update s i).stepper.currentPos = s.stepper.currentPos + 1 := by
      rw [u2, run_forward _ _ hpos]; rfl
    have ht : (update s i).stepper.targetPos = s.stepper.targetPos := by
      rw [u2, run_targetPos]
    obtain ⟨a1, a2, a3⟩ := ih (update s i) i hi (by rw [u1]; exact hs) (by rw [hc, ht]; omega)
    rw [List.replicate_succ, runTicks_cons]
    refine ⟨a1.trans u1, ?_, a3.trans ht⟩
    rw [a2, hc]
    push_cast
    omega

/-- With the target `n` steps or more behind, `n` ticks with a step due take the motor back
by `n` steps. -/
theorem steps_down (n : ℕ) :
    ∀ (s : MacroRail) (i : TickIn), i.step_due = true →
      (s.state = State.MOVING ∨ s.state = State.SHOOTING) →
      s.stepper.targetPos + n ≤ s.stepper.currentPos →
      (runTicks s (List.replicate n i)).state = s.state ∧
        (runTicks s (List.replicate n i)).stepper.currentPos = s.stepper.currentPos - n ∧
        (runTicks s (List.replicate n i)).stepper.targetPos = s.stepper.targetPos := by
  induction n with
  | zero => intro s i _ _ _; simp [runTicks]
  | succ n ih =>
    intro s i hi hs hle
    push_cast at hle
    have hneg : s.stepper.distanceToGo < 0 := by
      unfold AccelStepper.distanceToGo; omega
    obtain ⟨u1, u2⟩ := step_toward s i hi hs (ne_of_lt hneg)
    have hc : (update s i).stepper.currentPos = s.stepper.currentPos - 1 := by
      rw [u2, run_backward _ _ hneg]; rfl
    have ht : (update s i).stepper.targetPos = s.stepper.targetPos := by
      rw [u2, run_targetPos]
    obtain ⟨a1, a2, a3⟩ := ih (update s i) i hi (by rw [u1]; exact hs) (by rw [hc, ht]; omega)
    rw [List.replicate_succ, runTicks_cons]
    refine ⟨a1.trans u1, ?_, a3.trans ht⟩
    rw [a2, hc]
    push_cast
    omega

/-- What an accepted `move_to` does to state, position and target. -/
theorem move_to_effect (s : MacroRail) (p : Fp)
    (h : s.state = State.IDLE ∨ s.state = State.SHOOTING) :
    (move_to s p).state = State.MOVING ∧
      (move_to s p).stepper.currentPos = s.stepper.currentPos ∧
      (move_to s p).stepper.targetPos =
        toLong (Fp.mul binary32 (constrain p (Fp.finite 0) MAX_TRAVEL) steps_per_mm) := by
  have hc : ¬ (s.state ≠ State.IDLE ∧ s.state ≠ State.SHOOTING) := by
    rcases h with h | h <;> simp [h]
  simp [move_to, hc, enable_motor, AccelStepper.moveTo]

/-- What an accepted `start_shooting` does to state, position and target. -/
theorem start_shooting_effect (s : MacroRail) (st : Settings) (h : s.state = State.IDLE) :
    (start_shooting s st).state = State.SHOOTING ∧
      (start_shooting s st).stepper.currentPos = s.stepper.currentPos ∧
      (start_shooting s st).stepper.targetPos = s.stepper.targetPos := by
  simp [start_shooting, h, enable_motor, update_motor_settings, AccelStepper.setMaxSpeed,
    AccelStepper.setAcceleration]

/-- The tick of a Moving rail that has arrived. -/
theorem arrival_effect (s : MacroRail) (i : TickIn) (h : s.state = State.MOVING)
    (hd : s.stepper.distanceToGo = 0) :
    (update s i).state = State.IDLE ∧ (update s i).stepper = s.stepper := by
  simp [update, h, hd, disable_motor]

theorem runOps_replicate (n : ℕ) (i : TickIn) :
    ∀ s : MacroRail, runOps s (List.replicate n (Op.update i)) =
      runTicks s (List.replicate n i) := by
  induction n with
  | zero => intro s; rfl
  | succ n ih => intro s; exact ih (update s i)

theorem runCalls_updates (l : List TickIn) :
    ∀ s : MacroRail, runCalls s (l.map (fun i => Call.op (Op.update i))) = runTicks s l := by
  induction l with
  | nil => intro s; rfl
  | cons i rest ih => intro s; exact ih (update s i)

theorem runOps_cons (s : MacroRail) (o : Op) (rest : List Op) :
    runOps s (o :: rest) = runOps (o.apply s) rest := rfl

theorem runOps_nil (s : MacroRail) : runOps s [] = s := rfl

/-- What `stop()` does to state, position and target when the motor has speed. -/
theorem stop_effect (s : MacroRail) (brake : Int) (hb : brake ≠ 0) :
    (stop s brake).state = State.IDLE ∧
      (stop s brake).stepper.currentPos = s.stepper.currentPos ∧
      (stop s brake).stepper.targetPos = s.stepper.currentPos + brake := by
  simp [stop, disable_motor, AccelStepper.stop, AccelStepper.move, AccelStepper.moveTo, hb]

theorem homedExample_at_zero :
    homedExample.state = State.IDLE ∧ homedExample.stepper.currentPos = 0 ∧
      homedExample.stepper.targetPos = 0 ∧ homedExample.endstop = retractDoneExample.endstop := by
  obtain ⟨-, h0, ht0, he⟩ :=
    homed_in_travel retractDoneExample quietTick rfl rfl (by decide)
  exact ⟨(retract_tick_done retractDoneExample quietTick rfl rfl).1, h0, ht0, he⟩

/-- A new homing run takes the homed rail below step 0. -/
theorem rehoming_position :
    (runOps homedExample [Op.start_homing 0, Op.update stepTick]).stepper.currentPos = -1 := by
  obtain ⟨hst0, h0, -, he⟩ := homedExample_at_zero
  have hidle : homedExample.state ≠ State.ERROR := by rw [hst0]; decide
  obtain ⟨e1, e2, e3, e4, e5⟩ := start_homing_effect homedExample 0 hidle
  have hread : (check_endstop (start_homing homedExample 0).endstop
      stepTick.endstop stepTick.now).2 = false := by
    rw [e3, he]; decide
  have hu := homing_tick_wait _ stepTick e1 hread
  have hneg : (start_homing homedExample 0).stepper.distanceToGo < 0 := by
    unfold AccelStepper.distanceToGo
    rw [e4, e5, h0]
    decide
  rw [runOps_cons, runOps_cons, runOps_nil]
  show (update (start_homing homedExample 0) stepTick).stepper.currentPos = -1
  rw [hu]
  show ((start_homing homedExample 0).stepper.run stepTick.step_due).currentPos = -1
  rw [run_backward _ _ hneg, e4, h0]
  rfl

/-- A `stop()` two steps before step 0 with a stopping distance of three steps leaves the
target at -1, and the next shooting run steps the motor there. -/
theorem overshoot_position : (runOps homedExample overshootOps).stepper.currentPos = -1 := by
  obtain ⟨hst0, h0, -, -⟩ := homedExample_at_zero
  obtain ⟨a1, a2, a3⟩ := move_to_effect homedExample (Fp.finite 1) (Or.inl hst0)
  have a3' : (move_to homedExample (Fp.finite 1)).stepper.targetPos = 7266 :=
    a3.trans (by decide!)
  rw [h0] at a2
  obtain ⟨b1, b2, b3⟩ := steps_up 7266 (move_to homedExample (Fp.finite 1)) stepTick rfl
    (Or.inl a1) (by rw [a2, a3']; norm_num)
  rw [a2] at b2
  rw [a3'] at b3
  obtain ⟨c1, c2⟩ := arrival_effect _ stepTick (b1.trans a1)
    (by unfold AccelStepper.distanceToGo; rw [b2, b3]; norm_num)
  obtain ⟨d1, d2, d3⟩ := move_to_effect _ (Fp.finite 0) (Or.inl c1)
  have d3' := d3.trans (show toLong (Fp.mul binary32
    (constrain (Fp.finite 0) (Fp.finite 0) MAX_TRAVEL) steps_per_mm) = 0 by decide!)
  rw [c2, b2] at d2
  obtain ⟨f1, f2, f3⟩ := steps_down 7264 _ stepTick rfl (Or.inl d1)
    (by rw [d2, d3']; norm_num)
  rw [d2] at f2
  rw [d3'] at f3
  obtain ⟨g1, g2, g3⟩ := stop_effect (runTicks (move_to (update (runTicks
    (move_to homedExample (Fp.finite 1)) (List.replicate 7266 stepTick)) stepTick)
    (Fp.finite 0)) (List.replicate 7264 stepTick)) (-3) (by decide)
  rw [f2] at g2 g3
  obtain ⟨k1, k2, k3⟩ := start_shooting_effect _ Settings.default g1
  rw [g2] at k2
  rw [g3] at k3
  obtain ⟨m1, m2, m3⟩ := steps_down 3 _ stepTick rfl (Or.inr k1) (by rw [k2, k3]; norm_num)
  rw [k2] at m2
  rw [overshootOps, runOps_append, runOps_append, runOps_append, runOps_append,
    runOps_append, runOps_replicate, runOps_replicate, runOps_replicate]
  simp only [runOps_cons, runOps_nil, Op.apply]
  rw [m2]
  norm_num

/-- After `move_to(NaN)` the motor steps past the travel limit. -/
theorem nan_move_position : (runOps homedExample nanMoveOps).stepper.currentPos = 704867 := by
  obtain ⟨hst0, h0, -, -⟩ := homedExample_at_zero
  obtain ⟨a1, a2, a3⟩ := move_to_effect homedExample Fp.nan (Or.inl hst0)
  have a3' := a3.trans nan_target
  rw [h0] at a2
  obtain ⟨b1, b2, b3⟩ := steps_up 704867 (move_to homedExample Fp.nan) stepTick rfl
    (Or.inl a1) (by rw [a2, a3']; norm_num)
  rw [a2] at b2
  rw [nanMoveOps, runOps_cons, runOps_replicate,
    show (Op.move_to Fp.nan).apply homedExample = move_to homedExample Fp.nan from rfl, b2]
  norm_num

/-- The first four ticks of a shooting run with step size NaN take a photo and command a
move to step `2^31 - 1`. -/
theorem nan_step_first_photo :
    (runOps homedExample
        [Op.start_shooting nanStepSettings, Op.update stepTick,
          Op.update { stepTick with now := 2000 }, Op.update { stepTick with now := 3000 },
          Op.update { stepTick with now := 4000 }]).state = State.SHOOTING ∧
      (runOps homedExample
        [Op.start_shooting nanStepSettings, Op.update stepTick,
          Op.update { stepTick with now := 2000 }, Op.update { stepTick with now := 3000 },
          Op.update { stepTick with now := 4000 }]).stepper.currentPos = 0 ∧
      (runOps homedExample
        [Op.start_shooting nanStepSettings, Op.update stepTick,
          Op.update { stepTick with now := 2000 }, Op.update { stepTick with now := 3000 },
          Op.update { stepTick with now := 4000 }]).stepper.targetPos = 2147483647 ∧
      (runOps homedExample
        [Op.start_shooting nanStepSettings, Op.update stepTick,
          Op.update { stepTick with now := 2000 }, Op.update { stepTick with now := 3000 },
          Op.update { stepTick with now := 4000 }]).photo_count = 1 := by
  refine ⟨?_, ?_, ?_, ?_⟩ <;> decide!

/-- In a shooting run with step size NaN the motor steps past the travel limit. -/
theorem nan_step_position : (runOps homedExample nanStepOps).stepper.currentPos = 704867 := by
  obtain ⟨a1, a2, a3, -⟩ := nan_step_first_photo
  obtain ⟨b1, b2, b3⟩ := steps_up 704867 _ { stepTick with now := 5000 } rfl
    (Or.inr a1) (by rw [a2, a3]; norm_num)
  rw [a2] at b2
  rw [nanStepOps, runOps_append, runOps_replicate, b2]
  norm_num

/-- C14 as stated fails. From the rail as the completed retract leaves it (Idle, step 0):
`start_homing()` and one tick with a step due put the step position at -1; a move to 1 mm
and back toward 0 that `stop()` interrupts two steps before 0, the library needing three
steps to bring the motor to rest, leaves the target at -1, and the next run steps the motor
there; `move_to(NaN)` sets the target beyond the travel limit and the motor, stepping toward
it, passes the limit; so does the first move of a shooting run whose step size is NaN. -/
theorem homed_rail_leaves_travel :
    retractDoneExample.state = State.HOMING_RETRACT ∧
      retractDoneExample.stepper.distanceToGo = 0 ∧
      homedExample.stepper.currentPos = 0 ∧
      (runOps homedExample [Op.start_homing 0, Op.update stepTick]).stepper.currentPos = -1 ∧
      (runOps homedExample overshootOps).stepper.currentPos = -1 ∧
      (runOps homedExample nanMoveOps).stepper.currentPos = 704867 ∧
      (runOps homedExample nanStepOps).stepper.currentPos = 704867 ∧
      MAX_TRAVEL_STEPS < 704867 :=
  ⟨rfl, rfl, homedExample_at_zero.2.1, rehoming_position, overshoot_position,
    nan_move_position, nan_step_position, by rw [max_travel_steps_eq]; decide⟩

/-- C14 amended: once homing has completed, every state reached by a sequence of `update`,
`move_to`, `start_shooting` (called directly or by the `/start` handler), `reset_emergency`
and `stop` calls has step position `p` with `0 <= p <= MAX_TRAVEL_STEPS`, provided that
each `stop()` brings the stepper to rest at a point within the travel range and that no
accepted `move_to` or `start_shooting` is given NaN as position or step size;
`start_homing` is left out, a new homing run moves the position below 0 until the endstop
re-zeroes it.  The rail is the constructed one after any calls that end with the retract at
its target; the motor steps only toward its target. -/
theorem position_in_travel_once_homed (before after : List Call) (i : TickIn)
    (h : (runCalls MacroRail.new before).state = State.HOMING_RETRACT)
    (hd : (runCalls MacroRail.new before).stepper.distanceToGo = 0)
    (hafter : keepTravel (update (runCalls MacroRail.new before) i) after) :
    0 ≤ (runCalls (update (runCalls MacroRail.new before) i) after).stepper.currentPos ∧
      (runCalls (update (runCalls MacroRail.new before) i) after).stepper.currentPos
        ≤ MAX_TRAVEL_STEPS := by
  have hsp : (runCalls MacroRail.new before).startPosition ≠ Fp.nan :=
    runCalls_start_number before MacroRail.new (by decide)
  have hin := runCalls_in_travel after _
    (homed_in_travel (runCalls MacroRail.new before) i h hd hsp).1 hafter
  exact ⟨hin.1.1, hin.1.2.1⟩

/-- With the retract target `n` steps or more ahead, `n` ticks with a step due, none beyond
the timeout, advance the motor by `n` steps and leave the rail in HomingRetract. -/
theorem retract_steps (n : ℕ) :
    ∀ (s : MacroRail) (i : TickIn), i.step_due = true → s.state = State.HOMING_RETRACT →
      usub (millis i.now) s.homing_retract_start ≤ 60000 →
      s.stepper.currentPos + n ≤ s.stepper.targetPos →
      (runTicks s (List.replicate n i)).state = State.HOMING_RETRACT ∧
        (runTicks s (List.replicate n i)).stepper.currentPos = s.stepper.currentPos + n ∧
        (runTicks s (List.replicate n i)).stepper.targetPos = s.stepper.targetPos := by
  induction n with
  | zero => intro s i _ h _ _; simp [runTicks, h]
  | succ n ih =>
    intro s i hi h ht hle
    push_cast at hle
    have hpos : 0 < s.stepper.distanceToGo := by
      unfold AccelStepper.distanceToGo; omega
    have hu := retract_tick_progress s i h (ne_of_gt hpos) ht
    have hc : (update s i).stepper.currentPos = s.stepper.currentPos + 1 := by
      rw [hu]
      show (s.stepper.run i.step_due).currentPos = _
      rw [run_forward _ _ hpos, hi]; rfl
    have htg : (update s i).stepper.targetPos = s.stepper.targetPos := by
      rw [hu]
      show (s.stepper.run i.step_due).targetPos = _
      rw [run_targetPos]
    have hst : (update s i).state = State.HOMING_RETRACT := by rw [hu]; exact h
    have hrs : (update s i).homing_retract_start = s.homing_retract_start := by rw [hu]
    obtain ⟨a1, a2, a3⟩ := ih (update s i) i hi hst (by rw [hrs]; exact ht)
      (by rw [hc, htg]; omega)
    rw [List.replicate_succ, runTicks_cons]
    refine ⟨a1, ?_, a3.trans htg⟩
    rw [a2, hc]
    push_cast
    omega

theorem runCalls_cons (s : MacroRail) (c : Call) (rest : List Call) :
    runCalls s (c :: rest) = runCalls (c.apply s) rest := rfl

/-- The calls `homingCalls` take the constructed rail to the end of the retract. -/
theorem homingCalls_state :
    (runCalls MacroRail.new homingCalls).state = State.HOMING_RETRACT ∧
      (runCalls MacroRail.new homingCalls).stepper.distanceToGo = 0 := by
  have hs1 : (start_homing MacroRail.new 0).state = State.HOMING := by decide
  have hs2 : (start_homing MacroRail.new 0).homing_endstop_triggered = false := by decide
  obtain ⟨a1, a2, a3, -, a5⟩ :=
    homing_approach homingHit (homingHit :: List.replicate 7265 retractTick) homingApproach
      (start_homing MacroRail.new 0) hs1 hs2 (by decide)
  obtain ⟨b1, -, b3, -, b5, b6⟩ := homing_tick_hit_full _ homingHit a1 a2 a3
  have b6' : (update (runTicks (start_homing MacroRail.new 0) homingApproach)
      homingHit).stepper.currentPos = 1 := b6
  obtain ⟨c1, c2, c3⟩ := retract_steps 7265 _ retractTick rfl b1
    (by rw [b3]; decide) (by rw [b5, b6']; norm_num)
  rw [b6'] at c2
  rw [b5] at c3
  have key : runCalls MacroRail.new homingCalls =
      runTicks (update (runTicks (start_homing MacroRail.new 0) homingApproach) homingHit)
        (List.replicate 7265 retractTick) := by
    rw [homingCalls, runCalls_cons, runCalls_updates,
      show (Call.op (Op.start_homing 0)).apply MacroRail.new = start_homing MacroRail.new 0
        from rfl, a5, runTicks_cons]
  rw [key]
  refine ⟨c1, ?_⟩
  unfold AccelStepper.distanceToGo
  rw [c2, c3]
  norm_num

theorem position_in_travel_once_homed_witness :
    0 ≤ (runCalls (update (runCalls MacroRail.new homingCalls) retractTick)
        travelCalls).stepper.currentPos ∧
      (runCalls (update (runCalls MacroRail.new homingCalls) retractTick)
        travelCalls).stepper.currentPos ≤ MAX_TRAVEL_STEPS := by
  have hcur : (update (runCalls MacroRail.new homingCalls) retractTick).stepper.currentPos = 0 :=
    (retract_tick_done _ retractTick homingCalls_state.1 homingCalls_state.2).2.1
  have hstop : Call.keepsTravel (update (runCalls MacroRail.new homingCalls) retractTick)
      (Call.op (Op.stop 0)) := by
    show 0 ≤ (update (runCalls MacroRail.new homingCalls) retractTick).stepper.currentPos + 0 ∧
      (update (runCalls MacroRail.new homingCalls) retractTick).stepper.currentPos + 0
        ≤ MAX_TRAVEL_STEPS
    rw [hcur, max_travel_steps_eq]
    decide
  exact position_in_travel_once_homed homingCalls travelCalls retractTick
    homingCalls_state.1 homingCalls_state.2
    ⟨hstop, fun _ => by decide, trivial, fun _ => by decide!, trivial, trivial, trivial,
      trivial⟩

/-! ### Single ticks in Moving and Shooting -/

/-- C21: in Moving, a tick with remaining distance 0 disables the motor, clears the busy flag
and gives Idle; a tick with remaining distance not 0 keeps Moving, runs the stepper and
sets the cached position to the resulting step count divided by `steps_per_mm`, both as
`float`. -/
theorem moving_tick (s : MacroRail) (i : TickIn) (h : s.state = State.MOVING) :
    (s.stepper.distanceToGo = 0 →
        (update s i).enable_active = false ∧ (update s i).is_busy = false ∧
          (update s i).state = State.IDLE) ∧
      (s.stepper.distanceToGo ≠ 0 →
        (update s i).state = State.MOVING ∧
          (update s i).stepper = s.stepper.run i.step_due ∧
          (update s i).current_pos =
            Fp.div binary32 (Fp.ofInt binary32 (update s i).stepper.currentPos)
              steps_per_mm) := by
  by_cases hd : s.stepper.distanceToGo = 0 <;> simp [update, h, hd, disable_motor]

theorem moving_tick_witness :
    (update movingExample stepTick).state = State.MOVING ∧
      (update movingExample stepTick).stepper = movingExample.stepper.run stepTick.step_due :=
  ⟨((moving_tick movingExample stepTick rfl).2 (by decide)).1,
   ((moving_tick movingExample stepTick rfl).2 (by decide)).2.1⟩

/-- C22: in Shooting at rest, a tick changes the rail only as follows. In stage 0, once the
elapsed time exceeds `before_shoot_delay`, it asserts the focus output and enters stage 1;
in stage 1, once it exceeds `focus_time`, it asserts the shutter output, the focus output
staying as it was, and enters stage 2; in stage 2, once it exceeds `release_time`, it
deasserts both outputs, adds one to the photo counter and enters stage 3. Each transition
sets the stage timer to the current clock; before the delay is over the tick changes
nothing. -/
theorem stage_transitions (s : MacroRail) (i : TickIn) (h : AtRest s) :
    (s.shooting_stage = 0 →
        update s i =
          if toULong s.settings.before_shoot_delay < usub (millis i.now) s.stage_start_time
          then { s with focus_pin := true, log := s.log ++ [Event.focus true],
                        stage_start_time := millis i.now, shooting_stage := 1 }
          else s) ∧
      (s.shooting_stage = 1 →
        update s i =
          if toULong s.settings.focus_time < usub (millis i.now) s.stage_start_time
          then { s with shutter_pin := true, log := s.log ++ [Event.shutter true],
                        stage_start_time := millis i.now, shooting_stage := 2 }
          else s) ∧
      (s.shooting_stage = 2 →
        update s i =
          if toULong s.settings.release_time < usub (millis i.now) s.stage_start_time
          then { s with focus_pin := false, shutter_pin := false,
                        log := s.log ++ [Event.focus false, Event.shutter false],
                        photo_count := s.photo_count + 1,
                        stage_start_time := millis i.now, shooting_stage := 3 }
          else s) := by
  obtain ⟨h1, h2, h3⟩ := h
  refine ⟨fun hs => ?_, fun hs => ?_, fun hs => ?_⟩ <;>
    simp [update, handle_shooting, h1, h2, h3, hs]

theorem stage_transitions_witness :
    update focusingExample { stepTick with now := 2000 } =
      { focusingExample with
        shutter_pin := true, log := focusingExample.log ++ [Event.shutter true],
        stage_start_time := millis 2000, shooting_stage := 2 } :=
  ((stage_transitions focusingExample { stepTick with now := 2000 }
    ⟨rfl, rfl, rfl⟩).2.1 rfl).trans (if_pos (by decide))

/-- C24: in stage 3 at rest, once the elapsed time exceeds `after_shoot_delay` and with the
photo counter not below `total_photos`, the run finishes. Without a return-to-start request
the tick ends in Idle with the motor disabled. With one, the tick clears the request and
issues `move_to(startPosition)`: the target becomes the clamped start position times
`steps_per_mm()`, multiplied in `float` and truncated to `long`, the state Moving and the
motor enabled. -/
theorem run_finishes (s : MacroRail) (i : TickIn) (h : Finishing s i) :
    (s.returnToStartEnabled = false →
        (update s i).state = State.IDLE ∧ (update s i).enable_active = false) ∧
      (s.returnToStartEnabled = true →
        (update s i).returnToStartEnabled = false ∧
          (update s i).stepper.targetPos =
            toLong (Fp.mul binary32 (constrain s.startPosition (Fp.finite 0) MAX_TRAVEL)
              steps_per_mm) ∧
          update s i =
            { (move_to { s with state := State.IDLE, enable_active := false, is_busy := false }
                s.startPosition) with returnToStartEnabled := false } ∧
          (update s i).state = State.MOVING ∧ (update s i).enable_active = true) := by
  obtain ⟨⟨h1, h2, h3⟩, hs, ht, hc⟩ := h
  refine ⟨fun hr => ?_, fun hr => ?_⟩
  · simp [update, handle_shooting, h1, h2, h3, hs, ht, hc, disable_motor,
      shooting_finished_callback, hr]
  · simp [update, handle_shooting, h1, h2, h3, hs, ht, hc, disable_motor,
      shooting_finished_callback, hr, move_to, enable_motor, AccelStepper.moveTo]

theorem run_finishes_witness :
    (update lastShotExample stepTick).returnToStartEnabled = false ∧
      (update lastShotExample stepTick).state = State.MOVING ∧
      (update lastShotExample stepTick).stepper.targetPos = 2071 :=
  ⟨((run_finishes lastShotExample stepTick
      ⟨⟨rfl, rfl, rfl⟩, rfl, by decide, by decide⟩).2 rfl).1,
   ((run_finishes lastShotExample stepTick
      ⟨⟨rfl, rfl, rfl⟩, rfl, by decide, by decide⟩).2 rfl).2.2.2.1,
   ((run_finishes lastShotExample stepTick
      ⟨⟨rfl, rfl, rfl⟩, rfl, by decide, by decide⟩).2 rfl).2.1.trans (by decide!)⟩

/-! ### Settings validity, motor-enable invariant, stop frame, homing without watchdog -/

/-- C25 as stated fails: `start_shooting` in Idle, called directly or through the `/start`
handler, stores settings that lie outside every range of the specification. -/
theorem invalid_settings_stored :
    MacroRail.new.state = State.IDLE ∧
      (start_shooting MacroRail.new invalidSettings).settings = invalidSettings ∧
      (handle_start MacroRail.new invalidRequest).settings = invalidSettings ∧
      ¬ (start_shooting MacroRail.new invalidSettings).settings.valid := by
  refine ⟨rfl, rfl, rfl, ?_⟩
  intro h
  have h1 : (1 : Int) ≤ 0 := h.1
  exact absurd h1 (by decide)

/-- C25 amended: the state machine stores the settings it is given without checking them. A
`start_shooting` call accepted in Idle stores exactly the supplied values, a rejected call
leaves the stored settings as they were, and the `/start` handler hands the converted
request values on unchanged; so the stored settings are valid after an accepted call exactly
when the supplied ones are. -/
theorem settings_stored_verbatim (s : MacroRail) (st : Settings) (rts : Option Bool) :
    (s.state = State.IDLE → (start_shooting s st).settings = st) ∧
      (s.state ≠ State.IDLE → (start_shooting s st).settings = s.settings) ∧
      (s.state = State.IDLE →
        (handle_start s
          { photos := some st.total_photos, step := some st.step_size,
            speed := some st.max_speed, before := some st.before_shoot_delay,
            after := some st.after_shoot_delay, focus_time := some st.focus_time,
            release_time := some st.release_time, return_to_start := rts }).settings = st) ∧
      (s.state = State.IDLE → ((start_shooting s st).settings.valid ↔ st.valid)) := by
  refine ⟨fun h => ?_, fun h => ?_, fun h => ?_, fun h => ?_⟩
  · simp [start_shooting, h, enable_motor, update_motor_settings]
  · simp [start_shooting, h]
  · cases rts <;>
      simp [handle_start, start_shooting, h, enable_motor, update_motor_settings]
  · have : (start_shooting s st).settings = st := by
      simp [start_shooting, h, enable_motor, update_motor_settings]
    rw [this]

/-- A tick keeps the motor-enable output off in Idle and Error. -/
theorem update_motor_off (s : MacroRail) (i : TickIn) (h : MotorOffWhenIdle s) :
    MotorOffWhenIdle (update s i) := by
  unfold MotorOffWhenIdle at *
  rcases hs : s.state with _ | _ | _ | _ | _ | _ | _
  · intro _; simp [update, hs, handle_idle, disable_motor]
  · simp only [update, hs, complete_homing, disable_motor, enable_motor]
    simp
    split_ifs <;> simp [hs]
  · simp only [update, hs, emergency_stop, disable_motor]
    simp
    split_ifs <;> simp [hs]
  · simp only [update, hs, disable_motor]
    simp
    split_ifs <;> simp [hs]
  · by_cases hd : s.stepper.distanceToGo = 0 <;> simp [update, hs, hd, disable_motor]
  · have hu : update s i = handle_shooting s i := by simp [update, hs]
    rw [hu]
    by_cases hd : s.stepper.distanceToGo = 0
    · by_cases hme : s.motor_enabled = true
      · simp [handle_shooting, hd, hme, disable_motor, hs]
      · rcases hst : s.shooting_stage with _ | _ | _ | _ | n
        · simp only [handle_shooting, hd, hme, hst]; simp; split_ifs <;> simp [hs]
        · simp only [handle_shooting, hd, hme, hst]; simp; split_ifs <;> simp [hs]
        · simp only [handle_shooting, hd, hme, hst]; simp; split_ifs <;> simp [hs]
        · simp only [handle_shooting, hd, hme, hst, shooting_finished_callback, move_to,
            disable_motor, enable_motor, update_motor_settings]
          simp
          split_ifs <;> simp [hs]
        · simp [handle_shooting, hd, hme, hst, hs]
    · simp only [handle_shooting, hd, enable_motor]
      simp
      split_ifs <;> simp [hs]
  · have hu : update s i = s := by simp [update, hs, handle_error]
    rw [hu, hs]
    intro _
    exact h (Or.inr hs)

/-- Every interface call keeps the motor-enable output off in Idle and Error. -/
theorem apply_motor_off (s : MacroRail) (op : Op) (h : MotorOffWhenIdle s) :
    MotorOffWhenIdle (op.apply s) := by
  cases op with
  | update i => exact update_motor_off s i h
  | start_homing now =>
    show MotorOffWhenIdle (start_homing s now)
    unfold start_homing
    split_ifs
    · exact h
    · intro hc; rcases hc with hc | hc <;> exact absurd hc (by simp [enable_motor])
  | move_to position =>
    show MotorOffWhenIdle (move_to s position)
    unfold move_to
    split_ifs
    · exact h
    · intro hc; rcases hc with hc | hc <;> exact absurd hc (by simp)
  | start_shooting st =>
    show MotorOffWhenIdle (start_shooting s st)
    unfold start_shooting
    split_ifs
    · exact h
    · intro hc
      rcases hc with hc | hc <;>
        exact absurd hc (by simp [update_motor_settings, enable_motor])
  | stop brake => intro _; rfl
  | reset_emergency endstop =>
    show MotorOffWhenIdle (reset_emergency s endstop)
    unfold reset_emergency
    split_ifs with hc
    · intro _; exact h (Or.inr hc.1)
    · exact h

theorem runOps_motor_off (ops : List Op) :
    ∀ s : MacroRail, MotorOffWhenIdle s → MotorOffWhenIdle (runOps s ops) := by
  induction ops with
  | nil => intro s h; exact h
  | cons op rest ih => intro s h; exact ih (op.apply s) (apply_motor_off s op h)

/-- C26: from the constructed rail, after any sequence of `update`, `start_homing`,
`move_to`, `start_shooting`, `stop` and `reset_emergency` calls, if the state is Idle or
Error then the motor-enable output is off. -/
theorem motor_off_when_idle_or_error (ops : List Op)
    (h : (runOps MacroRail.new ops).state = State.IDLE ∨
      (runOps MacroRail.new ops).state = State.ERROR) :
    (runOps MacroRail.new ops).enable_active = false :=
  runOps_motor_off ops MacroRail.new (fun _ => rfl) h

theorem motor_off_when_idle_or_error_witness :
    (runOps MacroRail.new [Op.start_homing 0, Op.update stepTick, Op.stop 0]).state =
        State.IDLE ∧
      (runOps MacroRail.new
        [Op.start_homing 0, Op.update stepTick, Op.stop 0]).enable_active = false :=
  ⟨rfl, motor_off_when_idle_or_error [Op.start_homing 0, Op.update stepTick, Op.stop 0]
    (Or.inl rfl)⟩

/-- C27: `stop()` leaves the focus and shutter outputs, the photo counter and the shooting
stage as they were; the rail is then Idle, and no sequence of ticks after the stop changes
anything, so trigger outputs that were asserted when `stop()` was called stay asserted. -/
theorem stop_keeps_triggers (s : MacroRail) (brake : Int) (l : List TickIn) :
    (stop s brake).focus_pin = s.focus_pin ∧ (stop s brake).shutter_pin = s.shutter_pin ∧
      (stop s brake).photo_count = s.photo_count ∧
      (stop s brake).shooting_stage = s.shooting_stage ∧
      (stop s brake).state = State.IDLE ∧
      runTicks (stop s brake) l = stop s brake ∧
      (runTicks (stop s brake) l).focus_pin = s.focus_pin ∧
      (runTicks (stop s brake) l).shutter_pin = s.shutter_pin := by
  have hfix := (idle_run_fixed l (stop s brake) rfl rfl rfl).1
  refine ⟨rfl, rfl, rfl, rfl, rfl, hfix, ?_, ?_⟩ <;> rw [hfix] <;> rfl

/-- In Homing a tick whose filtered endstop reading is released, or that finds the
homing-triggered flag set, leaves the state Homing and the flag as it was. -/
theorem homing_tick_stays (s : MacroRail) (i : TickIn) (h : s.state = State.HOMING)
    (hc : (check_endstop s.endstop i.endstop i.now).2 = false ∨
      s.homing_endstop_triggered = true) :
    (update s i).state = State.HOMING ∧
      (update s i).endstop = (check_endstop s.endstop i.endstop i.now).1 ∧
      (update s i).homing_endstop_triggered = s.homing_endstop_triggered := by
  rcases hc with hc | hc <;> simp [update, h, hc]

theorem homing_run_stays (l : List TickIn) :
    ∀ s : MacroRail, s.state = State.HOMING →
      (∀ b ∈ endstopReads s.endstop l, b = false) → (runTicks s l).state = State.HOMING := by
  induction l with
  | nil => intro s h _; exact h
  | cons i rest ih =>
    intro s h hr
    have h1 : (check_endstop s.endstop i.endstop i.now).2 = false :=
      hr _ (by simp [endstopReads])
    obtain ⟨u1, u2, -⟩ := homing_tick_stays s i h (Or.inl h1)
    rw [runTicks_cons]
    refine ih (update s i) u1 (fun b hb => hr b ?_)
    rw [u2] at hb
    simp only [endstopReads, List.mem_cons]
    exact Or.inr hb

/-- C28: the Homing state has no watchdog. A tick in Homing in which the filtered endstop is
not asserted, or the homing-triggered flag is already set, leaves the state Homing, whatever
the clock and whether or not the stepper has reached its target; and while the filtered
endstop never reads asserted, no sequence of ticks leaves Homing. -/
theorem homing_has_no_watchdog (s : MacroRail) (h : s.state = State.HOMING) :
    (∀ i : TickIn, ((check_endstop s.endstop i.endstop i.now).2 = false ∨
        s.homing_endstop_triggered = true) → (update s i).state = State.HOMING) ∧
      (∀ l : List TickIn, (∀ b ∈ endstopReads s.endstop l, b = false) →
        (runTicks s l).state = State.HOMING) :=
  ⟨fun i hc => (homing_tick_stays s i h hc).1, fun l hr => homing_run_stays l s h hr⟩

theorem homing_has_no_watchdog_witness :
    (runTicks homingExample
      [quietTick, { quietTick with now := 10 ^ 12 }, stepTick]).state = State.HOMING :=
  (homing_has_no_watchdog homingExample rfl).2
    [quietTick, { quietTick with now := 10 ^ 12 }, stepTick] (by decide)

/-! ### Stage delays as unsigned values -/

theorem usub_lt (a b : Nat) : usub a b < 2 ^ 32 := by
  unfold usub ULONG_RANGE
  omega

/-- At rest in a stage 0..3 the stage machine advances exactly when the elapsed time,
as a 32-bit unsigned value, exceeds the stage's delay converted to unsigned. -/
theorem stage_advances_iff (s : MacroRail) (i : TickIn) (h : AtRest s)
    (hj : s.shooting_stage ≤ 3) :
    StageAdvances s i ↔
      toULong (stageDelay s.settings s.shooting_stage) <
        usub (millis i.now) s.stage_start_time := by
  obtain ⟨h1, h2, h3⟩ := h
  unfold StageAdvances
  rcases hst : s.shooting_stage with _ | _ | _ | _ | n
  · by_cases ht : toULong s.settings.before_shoot_delay <
        usub (millis i.now) s.stage_start_time <;>
      simp [update, handle_shooting, h1, h2, h3, hst, ht, stageDelay]
  · by_cases ht : toULong s.settings.focus_time < usub (millis i.now) s.stage_start_time <;>
      simp [update, handle_shooting, h1, h2, h3, hst, ht, stageDelay]
  · by_cases ht : toULong s.settings.release_time <
        usub (millis i.now) s.stage_start_time <;>
      simp [update, handle_shooting, h1, h2, h3, hst, ht, stageDelay]
  · by_cases ht : toULong s.settings.after_shoot_delay <
        usub (millis i.now) s.stage_start_time
    · by_cases hc : s.photo_count < s.settings.total_photos
      · simp [update, handle_shooting, h1, h2, h3, hst, ht, hc, stageDelay, enable_motor,
          update_motor_settings]
      · by_cases hr : s.returnToStartEnabled = true <;>
          simp [update, handle_shooting, h1, h2, h3, hst, ht, hc, hr, stageDelay,
            disable_motor, shooting_finished_callback, move_to, enable_motor]
    · simp [update, handle_shooting, h1, h2, h3, hst, ht, stageDelay]
  · rw [hst] at hj
    omega

/-- C29: a stage delay is compared as a 32-bit unsigned value. At rest in a stage 0..3 the
stage advances exactly when `(now - stage_start_time) mod 2^32` exceeds the delay converted
to unsigned, which for a negative delay `d` is `2^32 + d`; with a delay of -1 the stage
advances for no clock value, and with a delay of 0 it advances exactly when the elapsed
time is strictly positive. -/
theorem stage_delay_unsigned (s : MacroRail) (i : TickIn) (h : AtRest s)
    (hj : s.shooting_stage ≤ 3) :
    (StageAdvances s i ↔
        toULong (stageDelay s.settings s.shooting_stage) <
          usub (millis i.now) s.stage_start_time) ∧
      (∀ d : Int, -2 ^ 31 ≤ d → d < 0 → (toULong d : Int) = 2 ^ 32 + d) ∧
      (stageDelay s.settings s.shooting_stage = -1 → ¬ StageAdvances s i) ∧
      (stageDelay s.settings s.shooting_stage = 0 →
        (StageAdvances s i ↔ 0 < usub (millis i.now) s.stage_start_time)) := by
  have hiff := stage_advances_iff s i h hj
  refine ⟨hiff, ?_, ?_, ?_⟩
  · intro d h0 h1
    unfold toULong ULONG_RANGE
    omega
  · intro hd
    rw [hiff, hd]
    have := usub_lt (millis i.now) s.stage_start_time
    have h1 : toULong (-1) = 2 ^ 32 - 1 := by decide
    rw [h1]
    omega
  · intro hd
    rw [hiff, hd]
    have h1 : toULong 0 = 0 := by decide
    rw [h1]

theorem stage_delay_unsigned_witness :
    (StageAdvances focusingExample { stepTick with now := 2000 } ↔
      toULong (stageDelay focusingExample.settings focusingExample.shooting_stage) <
        usub (millis 2000) focusingExample.stage_start_time) ∧
      (toULong (-1) : Int) = 2 ^ 32 + -1 :=
  ⟨(stage_delay_unsigned focusingExample { stepTick with now := 2000 } ⟨rfl, rfl, rfl⟩
      (by decide)).1,
   (stage_delay_unsigned focusingExample { stepTick with now := 2000 } ⟨rfl, rfl, rfl⟩
      (by decide)).2.1 (-1) (by decide) (by decide)⟩

/-! ### Runs with `total_photos <= 0` -/

/-- A tick of a shooting run that does not end the run behaves the same with and without a
return-to-start request, keeps the rail in Shooting and keeps the request as it is. -/
theorem update_clearReturn (s : MacroRail) (i : TickIn) (h : s.state = State.SHOOTING)
    (hf : ¬ Finishing s i) :
    update (clearReturn s) i = clearReturn (update s i) ∧
      (update s i).state = State.SHOOTING ∧
      (update s i).returnToStartEnabled = s.returnToStartEnabled ∧
      (update s i).startPosition = s.startPosition := by
  by_cases hd : s.stepper.distanceToGo = 0
  · by_cases hme : s.motor_enabled = true
    · simp [clearReturn, update, handle_shooting, h, hd, hme, disable_motor]
    · rcases hst : s.shooting_stage with _ | _ | _ | _ | n
      · by_cases ht : toULong s.settings.before_shoot_delay <
            usub (millis i.now) s.stage_start_time <;>
          simp [clearReturn, update, handle_shooting, h, hd, hme, hst, ht]
      · by_cases ht : toULong s.settings.focus_time <
            usub (millis i.now) s.stage_start_time <;>
          simp [clearReturn, update, handle_shooting, h, hd, hme, hst, ht]
      · by_cases ht : toULong s.settings.release_time <
            usub (millis i.now) s.stage_start_time <;>
          simp [clearReturn, update, handle_shooting, h, hd, hme, hst, ht]
      · by_cases ht : toULong s.settings.after_shoot_delay <
            usub (millis i.now) s.stage_start_time
        · by_cases hc : s.photo_count < s.settings.total_photos
          · simp [clearReturn, update, handle_shooting, h, hd, hme, hst, ht, hc, enable_motor,
              update_motor_settings]
          · exact absurd ⟨⟨h, hd, by simpa using hme⟩, hst, ht, hc⟩ hf
        · simp [clearReturn, update, handle_shooting, h, hd, hme, hst, ht]
      · simp [clearReturn, update, handle_shooting, h, hd, hme, hst]
  · by_cases hme : s.motor_enabled = true <;>
      simp [clearReturn, update, handle_shooting, h, hd, hme, enable_motor]

/-- The tick that ends a run: without the request the rail is left Idle with the motor off;
with it the only difference is the return move issued on top. -/
theorem finishing_tick (s : MacroRail) (i : TickIn) (hf : Finishing s i) :
    Finished (update (clearReturn s) i) s.photo_count s.log ∧
      (update s i).state ≠ State.SHOOTING ∧
      (update s i).photo_count = s.photo_count ∧
      (update s i).log = s.log ++ returnMove s ∧
      (s.returnToStartEnabled = false → (update s i).state = State.IDLE) := by
  obtain ⟨⟨h1, h2, h3⟩, hs, ht, hc⟩ := hf
  refine ⟨?_, ?_, ?_, ?_, ?_⟩
  · simp [Finished, clearReturn, update, handle_shooting, h1, h2, h3, hs, ht, hc,
      disable_motor, shooting_finished_callback]
  · by_cases hr : s.returnToStartEnabled = true <;>
      simp [update, handle_shooting, h1, h2, h3, hs, ht, hc, hr, disable_motor,
        shooting_finished_callback, move_to, enable_motor]
  · by_cases hr : s.returnToStartEnabled = true <;>
      simp [update, handle_shooting, h1, h2, h3, hs, ht, hc, hr, disable_motor,
        shooting_finished_callback, move_to, enable_motor]
  · by_cases hr : s.returnToStartEnabled = true <;>
      simp [update, handle_shooting, h1, h2, h3, hs, ht, hc, hr, disable_motor,
        shooting_finished_callback, move_to, enable_motor, returnMove]
  · intro hr
    simp [update, handle_shooting, h1, h2, h3, hs, ht, hc, hr, disable_motor,
      shooting_finished_callback]

/-- A tick only appends to the output log. -/
theorem update_log_grows (s : MacroRail) (i : TickIn) : s.log <+: (update s i).log := by
  have hs : s.log <+: (handle_shooting s i).log := by
    by_cases hd : s.stepper.distanceToGo = 0
    · by_cases hme : s.motor_enabled = true
      · simp [handle_shooting, hd, hme, disable_motor]
      · rcases hst : s.shooting_stage with _ | _ | _ | _ | n
        · simp only [handle_shooting, hd, hme, hst]; simp; split_ifs <;> simp
        · simp only [handle_shooting, hd, hme, hst]; simp; split_ifs <;> simp
        · simp only [handle_shooting, hd, hme, hst]; simp; split_ifs <;> simp
        · simp only [handle_shooting, hd, hme, hst, shooting_finished_callback, move_to,
            disable_motor, enable_motor, update_motor_settings]
          simp
          split_ifs <;> simp
        · simp [handle_shooting, hd, hme, hst]
    · simp only [handle_shooting, hd, enable_motor]
      simp
      split_ifs <;> simp
  by_cases h1 : s.state = State.SHOOTING
  · simpa [update, h1] using hs
  · unfold update
    simp only [h1, if_false, complete_homing, disable_motor, enable_motor, handle_error,
      handle_idle, emergency_stop]
    split_ifs <;> simp

theorem runFrom_log_grows (ins : ℕ → TickIn) (k : ℕ) (s : MacroRail) (m : ℕ) :
    s.log <+: (runFrom ins k s m).log := by
  induction m with
  | zero => exact List.prefix_refl _
  | succ m ih => exact ih.trans (update_log_grows _ _)

theorem runFrom_succ_front (ins : ℕ → TickIn) (k : ℕ) (s : MacroRail) (n : ℕ) :
    runFrom ins k s (n + 1) = runFrom ins (k + 1) (update s (ins k)) n := by
  rw [Nat.add_comm, runFrom_one_add]

/-- If the run without the return-to-start request finishes with counter `c` and log `L`,
the run with the request as it is stays in Shooting, its log a prefix of `L`, until a tick
that leaves Shooting with counter `c` and log `L` followed by the return move, if any. -/
theorem run_with_request (ins : ℕ → TickIn) (n0 : ℕ) :
    ∀ (k : ℕ) (s : MacroRail) (c : Int) (L : List Event), s.state = State.SHOOTING →
      Finished (runFrom ins k (clearReturn s) n0) c L →
      ∃ n, (∀ m, m < n → (runFrom ins k s m).state = State.SHOOTING ∧
              (runFrom ins k s m).log <+: L) ∧
        (runFrom ins k s n).state ≠ State.SHOOTING ∧
        (runFrom ins k s n).photo_count = c ∧
        (runFrom ins k s n).log = L ++ returnMove s ∧
        (s.returnToStartEnabled = false → (runFrom ins k s n).state = State.IDLE) := by
  induction n0 with
  | zero =>
    intro k s c L h hfin
    have h1 : (clearReturn s).state = State.IDLE := hfin.1
    have h2 : (clearReturn s).state = State.SHOOTING := h
    rw [h1] at h2
    exact absurd h2 (by decide)
  | succ n0 ih =>
    intro k s c L h hfin
    rw [runFrom_succ_front] at hfin
    by_cases hf : Finishing s (ins k)
    · obtain ⟨f1, f2, f3, f4, f5⟩ := finishing_tick s (ins k) hf
      rw [finished_stays f1] at hfin
      have hc : s.photo_count = c := f1.2.2.2.1.symm.trans hfin.2.2.2.1
      have hL : s.log = L := f1.2.2.2.2.symm.trans hfin.2.2.2.2
      refine ⟨1, ?_, f2, f3.trans hc, ?_, f5⟩
      · intro m hm
        have hm0 : m = 0 := by omega
        subst hm0
        exact ⟨h, by rw [← hL]; exact List.prefix_refl _⟩
      · rw [← hL]; exact f4
    · obtain ⟨u1, u2, u3, u4⟩ := update_clearReturn s (ins k) h hf
      rw [u1] at hfin
      obtain ⟨n, a1, a2, a3, a4, a5⟩ := ih (k + 1) (update s (ins k)) c L u2 hfin
      have hn : 0 < n := by
        rcases Nat.eq_zero_or_pos n with hz | hp
        · subst hz; exact absurd u2 a2
        · exact hp
      have hret : returnMove (update s (ins k)) = returnMove s := by
        unfold returnMove
        rw [u3, u4]
      refine ⟨n + 1, ?_, ?_, ?_, ?_, ?_⟩
      · intro m hm
        cases m with
        | zero => exact ⟨h, (update_log_grows s (ins k)).trans (a1 0 hn).2⟩
        | succ m =>
          rw [runFrom_succ_front]
          exact a1 m (by omega)
      · rw [runFrom_succ_front]; exact a2
      · rw [runFrom_succ_front]; exact a3
      · rw [runFrom_succ_front, a4, hret]
      · intro hr
        rw [runFrom_succ_front]
        exact a5 (u3.trans hr)

/-- A state of the run is kept by every tick when `total_photos <= 0`. -/
theorem one_photo_run_step (s0 : MacroRail) (st : Settings) (hN : st.total_photos ≤ 0)
    (s : MacroRail) (i : TickIn) (h : OnePhotoRun s0 st s) : OnePhotoRun s0 st (update s i) := by
  rcases h with ⟨h1, h2, h3, h4, hstage⟩ | ⟨hfin, hc, hl⟩
  · have hu : update s i = handle_shooting s i := by simp [update, h1]
    rw [hu]
    by_cases hd : s.stepper.distanceToGo = 0
    · by_cases hme : s.motor_enabled = true
      · rcases hstage with ⟨a1, a2, a3⟩ | ⟨a1, a2, a3, a4, a5⟩ | ⟨a1, a2, a3, a4, a5⟩ |
            ⟨a1, a2, a3, a4, a5⟩
        · left
          simp [handle_shooting, hd, hme, disable_motor, h1, h2, h3, h4, a2, a3]
        · rw [a5] at hme; exact absurd hme (by decide)
        · rw [a5] at hme; exact absurd hme (by decide)
        · rw [a5] at hme; exact absurd hme (by decide)
      · have hme' : s.motor_enabled = false := by simpa using hme
        rcases hstage with ⟨a1, a2, a3⟩ | ⟨a1, a2, a3, a4, a5⟩ | ⟨a1, a2, a3, a4, a5⟩ |
            ⟨a1, a2, a3, a4, a5⟩
        · left
          by_cases ht : toULong st.before_shoot_delay <
              usub (millis i.now) s.stage_start_time <;>
            simp [handle_shooting, hd, hme', a1, ht, h1, h2, h3, h4, a2, a3]
        · left
          by_cases ht : toULong st.focus_time <
              usub (millis i.now) s.stage_start_time <;>
            simp [handle_shooting, hd, hme', a1, ht, h1, h2, h3, h4, a2, a3]
        · left
          by_cases ht : toULong st.release_time <
              usub (millis i.now) s.stage_start_time <;>
            simp [handle_shooting, hd, hme', a1, ht, h1, h2, h3, h4, a2, a3, photoCycle]
        · by_cases ht : toULong st.after_shoot_delay <
              usub (millis i.now) s.stage_start_time
          · right
            have hno : ¬ (1 : Int) < st.total_photos := by omega
            by_cases hr : s.returnToStartEnabled = true
            · have hr0 : s0.returnToStartEnabled = true := h3.symm.trans hr
              simp [handle_shooting, hd, hme', a1, h2, ht, hno, hr, hr0, disable_motor,
                shooting_finished_callback, move_to, enable_motor, returnMove, a2, a3, h4]
            · have hr' : s.returnToStartEnabled = false := by simpa using hr
              have hr0 : s0.returnToStartEnabled = false := h3.symm.trans hr'
              simp [handle_shooting, hd, hme', a1, h2, ht, hno, hr', hr0, disable_motor,
                shooting_finished_callback, returnMove, a2, a3]
          · left
            simp [handle_shooting, hd, hme', a1, ht, h1, h2, h3, h4, a2, a3, a4]
    · left
      rcases hstage with ⟨a1, a2, a3⟩ | ⟨a1, a2, a3, a4, a5⟩ | ⟨a1, a2, a3, a4, a5⟩ |
          ⟨a1, a2, a3, a4, a5⟩
      · by_cases hme : s.motor_enabled = true <;>
          simp [handle_shooting, hd, hme, enable_motor, h1, h2, h3, h4, a1, a2, a3]
      · exact absurd a4 hd
      · exact absurd a4 hd
      · exact absurd a4 hd
  · right
    rcases hfin with hs | hs
    · have hu : update s i = { handle_idle s with is_busy := false } := by
        simp [update, hs]
      rw [hu]
      exact ⟨Or.inl hs, hc, hl⟩
    · by_cases hd : s.stepper.distanceToGo = 0
      · refine ⟨Or.inl ?_, ?_, ?_⟩ <;> simp [update, hs, hd, disable_motor, hc, hl]
      · refine ⟨Or.inr ?_, ?_, ?_⟩ <;> simp [update, hs, hd, hc, hl]

/-- Every state of a run started by an accepted `start_shooting` with `total_photos <= 0`
is a state of the run. -/
theorem one_photo_run (s0 : MacroRail) (st : Settings) (ins : ℕ → TickIn)
    (hidle : s0.state = State.IDLE) (hN : st.total_photos ≤ 0) (m : ℕ) :
    OnePhotoRun s0 st (runFrom ins 0 (start_shooting s0 st) m) := by
  induction m with
  | zero =>
    left
    refine ⟨?_, ?_, ?_, ?_, Or.inl ⟨?_, ?_, ?_⟩⟩ <;>
      simp [runFrom, start_shooting, hidle, enable_motor, update_motor_settings]
  | succ m ih => exact one_photo_run_step s0 st hN _ _ ih

/-- C30: for settings with `total_photos <= 0` and non-negative delays, a run started by
`start_shooting` from Idle takes one photo and commands no move before it finishes. Whatever
the ticks, the photo counter never exceeds 1, and the rail is either in Shooting with its
output log grown by a prefix of one trigger cycle, or out of Shooting with the counter at 1
and the log grown by exactly one trigger cycle followed by the return move, if one was
requested. With ticks whose clock advances and in which steps keep coming due the run does
finish: it leaves Shooting with the photo counter at 1, above `total_photos`, and without a
return request the rail ends in Idle. -/
theorem nonpositive_total_takes_one_photo (s0 : MacroRail) (st : Settings) (ins : ℕ → TickIn)
    (hidle : s0.state = State.IDLE) (hN : st.total_photos ≤ 0) (hdel : st.delaysNonneg) :
    (∀ m, (runFrom ins 0 (start_shooting s0 st) m).photo_count ≤ 1 ∧
        (((runFrom ins 0 (start_shooting s0 st) m).state = State.SHOOTING ∧
            ∃ t, (runFrom ins 0 (start_shooting s0 st) m).log = s0.log ++ t ∧
              t <+: photoCycle) ∨
          ((runFrom ins 0 (start_shooting s0 st) m).state ≠ State.SHOOTING ∧
            (runFrom ins 0 (start_shooting s0 st) m).photo_count = 1 ∧
            (runFrom ins 0 (start_shooting s0 st) m).log =
              s0.log ++ photoCycle ++ returnMove s0))) ∧
      (ClockAdvances ins → StepsKeepComing ins →
        ∃ n, (∀ m, m < n → (runFrom ins 0 (start_shooting s0 st) m).state = State.SHOOTING ∧
                ∃ t, (runFrom ins 0 (start_shooting s0 st) m).log = s0.log ++ t ∧
                  t <+: photoCycle) ∧
          (runFrom ins 0 (start_shooting s0 st) n).state ≠ State.SHOOTING ∧
          (runFrom ins 0 (start_shooting s0 st) n).photo_count = 1 ∧
          st.total_photos < (runFrom ins 0 (start_shooting s0 st) n).photo_count ∧
          (runFrom ins 0 (start_shooting s0 st) n).log =
            s0.log ++ photoCycle ++ returnMove s0 ∧
          (s0.returnToStartEnabled = false →
            (runFrom ins 0 (start_shooting s0 st) n).state = State.IDLE)) := by
  refine ⟨fun m => ?_, fun hclk hstep => ?_⟩
  · rcases one_photo_run s0 st ins hidle hN m with ⟨h1, -, -, -, hstage⟩ | ⟨hfin, hc, hl⟩
    · rcases hstage with ⟨-, a2, a3⟩ | ⟨-, a2, a3, -, -⟩ | ⟨-, a2, a3, -, -⟩ |
          ⟨-, a2, a3, -, -⟩
      · exact ⟨by rw [a2]; decide, Or.inl ⟨h1, [], by simpa using a3, by simp⟩⟩
      · exact ⟨by rw [a2]; decide, Or.inl ⟨h1, _, a3, by simp [photoCycle]⟩⟩
      · exact ⟨by rw [a2]; decide, Or.inl ⟨h1, _, a3, by simp [photoCycle]⟩⟩
      · exact ⟨by rw [a2], Or.inl ⟨h1, _, a3, List.prefix_refl _⟩⟩
    · refine ⟨by rw [hc], Or.inr ⟨?_, hc, hl⟩⟩
      rcases hfin with hs | hs <;> rw [hs] <;> decide
  · have hstate : (start_shooting s0 st).state = State.SHOOTING := by
      simp [start_shooting, hidle, enable_motor, update_motor_settings]
    have hlog : (start_shooting s0 st).log = s0.log := by
      simp [start_shooting, hidle, enable_motor, update_motor_settings]
    have hflag : (start_shooting s0 st).returnToStartEnabled = s0.returnToStartEnabled := by
      simp [start_shooting, hidle, enable_motor, update_motor_settings]
    have hmove : returnMove (start_shooting s0 st) = returnMove s0 := by
      simp [returnMove, start_shooting, hidle, enable_motor, update_motor_settings]
    have hstart : Travelling (clearReturn (start_shooting s0 st)) st 0 s0.log s0.current_pos
        s0.stepper.currentPos s0.stepper.targetPos := by
      simp [Travelling, InRun, clearReturn, start_shooting, hidle, enable_motor,
        update_motor_settings, AccelStepper.setMaxSpeed, AccelStepper.setAcceleration]
    have ha := hdel.2.2.2
    have hreach : Reaches ins 0 (clearReturn (start_shooting s0 st))
        (fun s' => Finished s' 1 (s0.log ++ photoCycle)) := by
      refine reaches_trans (settle hstep hstart 0) (fun k s h => ?_)
      refine reaches_trans (one_photo hclk hdel h k) (fun k3 s3 h3 => ?_)
      have hno : ¬ (0 : Int) + 1 < st.total_photos := by omega
      refine reaches_after_timer hclk s3.stage_start_time (toULong st.after_shoot_delay)
        (toULong_of_nonneg ha.1 ha.2) (fun i hi => stage3_wait h3 i hi) (fun i hi => ?_) k3
      simpa using stage3_fire_done h3 i hi hno
    obtain ⟨n0, hfin⟩ := hreach
    obtain ⟨n, a1, a2, a3, a4, a5⟩ :=
      run_with_request ins n0 0 (start_shooting s0 st) 1 (s0.log ++ photoCycle) hstate hfin
    refine ⟨n, ?_, a2, a3, by rw [a3]; omega, by rw [a4, hmove], fun hr => a5 (hflag.trans hr)⟩
    intro m hm
    obtain ⟨b1, b2⟩ := a1 m hm
    refine ⟨b1, ?_⟩
    have hpre := runFrom_log_grows ins 0 (start_shooting s0 st) m
    rw [hlog] at hpre
    obtain ⟨t, ht⟩ := hpre
    refine ⟨t, ht.symm, ?_⟩
    rw [← ht] at b2
    exact (List.prefix_append_right_inj s0.log).mp b2

theorem nonpositive_total_takes_one_photo_witness :
    (∀ m, (runFrom everyTick 0 (start_shooting MacroRail.new zeroPhotoSettings) m).photo_count
        ≤ 1) ∧
      ∃ n, (runFrom everyTick 0 (start_shooting MacroRail.new zeroPhotoSettings) n).state =
          State.IDLE ∧
        (runFrom everyTick 0 (start_shooting MacroRail.new zeroPhotoSettings) n).photo_count
          = 1 ∧
        (runFrom everyTick 0 (start_shooting MacroRail.new zeroPhotoSettings) n).log =
          MacroRail.new.log ++ photoCycle ++ returnMove MacroRail.new := by
  obtain ⟨hsafe, hlive⟩ :=
    nonpositive_total_takes_one_photo MacroRail.new zeroPhotoSettings everyTick rfl
      (by decide) (by simp [Settings.delaysNonneg, zeroPhotoSettings, Settings.default])
  obtain ⟨n, -, -, a3, -, a5, a6⟩ := hlive
    ⟨fun k => by simp only [everyTick]; omega,
     fun k => ⟨k + 2, by omega, by simp only [everyTick]; omega⟩⟩
    (fun k => ⟨k, le_refl k, rfl⟩)
  exact ⟨fun m => (hsafe m).1, n, a6 rfl, a3, a5⟩

end Rail
